import Mathlib

/-!
# iMSTK: mesh reader dispatch, iterative linear solver, assembler, tracking device control

A shallow embedding of selected routines of the iMSTK sources and the properties
proved about them.

Conventions of the embedding.

* A `std::string` is the list of its characters; `size_t` values are natural numbers,
  reduced modulo `2 ^ 64` where the source relies on wrap-around.
* `double` arithmetic is modelled exactly, over `ℚ`.
* A C++ operation whose precondition is violated (an exception, an out-of-range access)
  is a value of `Except`.
-/

deriving instance DecidableEq for Except

namespace imstk

/-! ## MeshReader (`Base/Geometry/Reader/imstkMeshReader.cpp`) -/

/-- Value of `std::string::npos`, the largest `size_t`. -/
def npos : Nat := 2 ^ 64 - 1

/-- Index of the last occurrence of `c` in `s`, if there is one. -/
def lastIndexOf (c : Char) : List Char → Option Nat
  | [] => none
  | x :: xs =>
    match lastIndexOf c xs with
    | some k => some (k + 1)
    | none => if x = c then some 0 else none

/-- The call `s.find_last_of(c)` for a one-character argument:
the last position of `c`, or `npos` when `c` does not occur. -/
def find_last_of (s : List Char) (c : Char) : Nat :=
  match lastIndexOf c s with
  | some k => k
  | none => npos

/-- Exceptions of the C++ standard library that the modelled code can meet. -/
inductive StdException where
  | out_of_range
  deriving DecidableEq, Repr

/-- The call `s.substr(pos)`: the suffix from `pos`, and `std::out_of_range`
when `pos > s.size()`. -/
def substr (s : List Char) (pos : Nat) : Except StdException (List Char) :=
  if pos > s.length then .error .out_of_range else .ok (s.drop pos)

/-- The enumeration `MeshReader::FileType`. -/
inductive FileType where
  | UNKNOWN
  | VTK
  | VTU
  | VTP
  | STL
  | PLY
  | OBJ
  | VEG
  deriving DecidableEq, Repr

/-- The if/else-if chain of `MeshReader::getFileType` on the extension string. -/
def fileTypeOfExtension (extString : List Char) : FileType :=
  if extString = ['v', 't', 'k'] ∨ extString = ['V', 'T', 'K'] then FileType.VTK
  else if extString = ['v', 't', 'p'] ∨ extString = ['V', 'T', 'P'] then FileType.VTP
  else if extString = ['v', 't', 'u'] ∨ extString = ['V', 'T', 'U'] then FileType.VTU
  else if extString = ['o', 'b', 'j'] ∨ extString = ['O', 'B', 'J'] then FileType.OBJ
  else if extString = ['s', 't', 'l'] ∨ extString = ['S', 'T', 'L'] then FileType.STL
  else if extString = ['p', 'l', 'y'] ∨ extString = ['P', 'L', 'Y'] then FileType.PLY
  else if extString = ['v', 'e', 'g'] ∨ extString = ['V', 'E', 'G'] then FileType.VEG
  else FileType.UNKNOWN

/-- The function `MeshReader::getFileType`. The argument of `substr` is
`find_last_of(".") + 1` computed in `size_t`, so `npos + 1` wraps to `0`. -/
def getFileType (filePath : List Char) : Except StdException FileType := do
  let extString ← substr filePath ((find_last_of filePath '.' + 1) % 2 ^ 64)
  if extString.isEmpty then
    return FileType.UNKNOWN
  return fileTypeOfExtension extString

/-- Which backend reader `MeshReader::read` handed the file to. -/
inductive BackendCall where
  | vtkMeshReader (filePath : List Char) (meshType : FileType)
  | vegaMeshReader (filePath : List Char) (meshType : FileType)
  deriving DecidableEq, Repr

/-- The function `MeshReader::read`. The file system (`fileExists`, a `stat` call) and the
two backend readers are parameters; the result pairs the returned mesh pointer
(`none` for `nullptr`) with the backend calls made, in order. -/
def read {Mesh : Type} (fileExists : List Char → Bool)
    (vtkRead vegaRead : List Char → FileType → Option Mesh)
    (filePath : List Char) : Except StdException (Option Mesh × List BackendCall) := do
  if !fileExists filePath then
    return (none, [])
  let meshType ← getFileType filePath
  match meshType with
  | FileType.VTK | FileType.VTU | FileType.VTP | FileType.STL | FileType.PLY | FileType.OBJ =>
    return (vtkRead filePath meshType, [BackendCall.vtkMeshReader filePath meshType])
  | FileType.VEG =>
    return (vegaRead filePath meshType, [BackendCall.vegaMeshReader filePath meshType])
  | FileType.UNKNOWN =>
    return (none, [])

/-- The dispatch table of the specification: extension string and file type. -/
def extensionTable : List (List Char × FileType) :=
  [ (['v', 't', 'k'], FileType.VTK), (['V', 'T', 'K'], FileType.VTK),
    (['v', 't', 'u'], FileType.VTU), (['V', 'T', 'U'], FileType.VTU),
    (['v', 't', 'p'], FileType.VTP), (['V', 'T', 'P'], FileType.VTP),
    (['o', 'b', 'j'], FileType.OBJ), (['O', 'B', 'J'], FileType.OBJ),
    (['s', 't', 'l'], FileType.STL), (['S', 'T', 'L'], FileType.STL),
    (['p', 'l', 'y'], FileType.PLY), (['P', 'L', 'Y'], FileType.PLY),
    (['v', 'e', 'g'], FileType.VEG), (['V', 'E', 'G'], FileType.VEG) ]

/-! ## IterativeLinearSolver (`Base/Solvers/imstkIterativeLinearSolver.cpp`) -/

/-- The type `Vectord`: a dense vector of scalars. -/
abbrev Vectord := List ℚ

/-- The Eigen call `v.squaredNorm()`. -/
def squaredNorm (v : Vectord) : ℚ := (v.map (fun a => a * a)).sum

/-- The linear system attached to a solver: what `solve` uses of it is
`computeResidual(x, r)`, which writes the residual of `x` into `r`. -/
structure LinearSystem where
  computeResidual : Vectord → Vectord

/-- The members of `IterativeLinearSolver` that `solve` reads. `m_linearSystem` is a
shared pointer (`none` when no system is attached); `m_tolerance` is inherited from
`LinearSolver`. -/
structure IterativeLinearSolver where
  m_linearSystem : Option LinearSystem
  m_tolerance : ℚ
  m_maxIterations : Nat

/-- The constructor `IterativeLinearSolver::IterativeLinearSolver()`: it sets
`m_maxIterations(100)`; the two inherited members come from the base class. -/
def IterativeLinearSolver.new (m_linearSystem : Option LinearSystem) (m_tolerance : ℚ) :
    IterativeLinearSolver :=
  { m_linearSystem := m_linearSystem, m_tolerance := m_tolerance, m_maxIterations := 100 }

/-- What changes while `solve` runs: the argument `x`, the member `m_residual`, whatever
the concrete solver keeps for itself (`derived`), and the number of calls of `iterate`
made so far. -/
structure SolveState (σ : Type) where
  x : Vectord
  m_residual : Vectord
  derived : σ
  iterateCalls : Nat

/-- One call `this->iterate(x)` of the virtual method: the concrete solver `iterate` acts
on `x`, `m_residual` and its own state; the call is counted. -/
def callIterate {σ : Type} (iterate : Vectord × Vectord × σ → Vectord × Vectord × σ)
    (s : SolveState σ) : SolveState σ :=
  let r := iterate (s.x, s.m_residual, s.derived)
  { x := r.1, m_residual := r.2.1, derived := r.2.2, iterateCalls := s.iterateCalls + 1 }

/-- The loop `for (size_t i = 0; i < m_maxIterations; ++i)` of `solve`, with `remaining`
the number of values of `i` still to run: return when `m_residual.squaredNorm() < epsilon`,
else call `iterate`. -/
def solveLoop {σ : Type} (iterate : Vectord × Vectord × σ → Vectord × Vectord × σ)
    (epsilon : ℚ) : Nat → SolveState σ → SolveState σ
  | 0, s => s
  | remaining + 1, s =>
    if squaredNorm s.m_residual < epsilon then s
    else solveLoop iterate epsilon remaining (callIterate iterate s)

/-- The function `IterativeLinearSolver::solve(x)`. -/
def IterativeLinearSolver.solve {σ : Type} (self : IterativeLinearSolver)
    (iterate : Vectord × Vectord × σ → Vectord × Vectord × σ)
    (s : SolveState σ) : SolveState σ :=
  match self.m_linearSystem with
  | none => s
  | some linearSystem =>
    let epsilon := self.m_tolerance * self.m_tolerance
    let s1 := { s with m_residual := linearSystem.computeResidual s.x }
    solveLoop iterate epsilon self.m_maxIterations s1

/-! ## Assembler (`Assembler/Assembler.cpp`) -/

/-- Storage order of `core::SparseMatrixd` (an Eigen sparse matrix). The declaration of the
type is in `Core/Matrix.h`; the routines below take the order as a parameter. -/
inductive StorageOrder where
  | ColMajor
  | RowMajor
  deriving DecidableEq, Repr

/-- A sparse matrix: its dimensions and its stored coefficients `(row, col, value)`. -/
structure SparseMatrixd where
  rows : Nat
  cols : Nat
  entries : List (Nat × Nat × ℚ)
  deriving DecidableEq

/-- A violated precondition of an Eigen operation: the C++ behaviour is undefined (or a
failed `eigen_assert`), and the embedding stops there. -/
inductive Fault where
  | outerIndexOutOfRange (outer outerSize : Nat)
  | insertOutOfRange (row col : Nat)
  | insertExisting (row col : Nat)
  | segmentOutOfRange (start n size : Nat)
  | nullPointer
  deriving DecidableEq, Repr

/-- The call `Q.outerSize()`: the number of columns of a column-major matrix, of rows of a
row-major one. -/
def SparseMatrixd.outerSize (order : StorageOrder) (Q : SparseMatrixd) : Nat :=
  match order with
  | StorageOrder.ColMajor => Q.cols
  | StorageOrder.RowMajor => Q.rows

/-- The call `Q.nonZeros()`. -/
def SparseMatrixd.nonZeros (Q : SparseMatrixd) : Nat := Q.entries.length

/-- The call `Q.coeff(r, c)`: the stored coefficient, `0` when none is stored. -/
def SparseMatrixd.coeff (Q : SparseMatrixd) (r c : Nat) : ℚ :=
  match Q.entries.find? (fun e => decide (e.1 = r ∧ e.2.1 = c)) with
  | some e => e.2.2
  | none => 0

/-- Outer index of a stored coefficient. -/
def outerIndex (order : StorageOrder) (e : Nat × Nat × ℚ) : Nat :=
  match order with
  | StorageOrder.ColMajor => e.2.1
  | StorageOrder.RowMajor => e.1

/-- The iterator `SparseMatrixd::InnerIterator it(Q, k)`: the stored coefficients of outer
index `k`. Eigen reads `outerIndexPtr()[k]` and `[k + 1]` unchecked, so `k` has to be
below `outerSize()`. -/
def SparseMatrixd.innerIterator (order : StorageOrder) (Q : SparseMatrixd) (k : Nat) :
    Except Fault (List (Nat × Nat × ℚ)) :=
  if k < Q.outerSize order then
    .ok (Q.entries.filter (fun e => decide (outerIndex order e = k)))
  else
    .error (Fault.outerIndexOutOfRange k (Q.outerSize order))

/-- The statement `R.insert(r, c) = v`: the position has to be inside `R` and must not
hold a stored coefficient yet. -/
def SparseMatrixd.insert (R : SparseMatrixd) (r c : Nat) (v : ℚ) : Except Fault SparseMatrixd :=
  if r < R.rows ∧ c < R.cols then
    if R.entries.any (fun e => decide (e.1 = r ∧ e.2.1 = c)) then
      .error (Fault.insertExisting r c)
    else
      .ok { R with entries := R.entries ++ [(r, c, v)] }
  else
    .error (Fault.insertOutOfRange r c)

/-- Inner loop of `Assembler::concatenateMatrix`, for one value of `k`:
`for (InnerIterator it(Q, k); it; ++it) R.insert(k, it.col() + j) = it.value();`. -/
def concatenateInner (R : SparseMatrixd) (k j : Nat) :
    List (Nat × Nat × ℚ) → Except Fault SparseMatrixd
  | [] => .ok R
  | it :: rest => do
    let R1 ← R.insert k (it.2.1 + j) it.2.2
    concatenateInner R1 k j rest

/-- Outer loop of `Assembler::concatenateMatrix`, from `k` on, with `remaining` values of
`k` left before `i + Q.outerSize()`. -/
def concatenateOuter (order : StorageOrder) (Q : SparseMatrixd) (j : Nat) :
    Nat → Nat → SparseMatrixd → Except Fault SparseMatrixd
  | 0, _, R => .ok R
  | remaining + 1, k, R => do
    let it ← Q.innerIterator order k
    let R1 ← concatenateInner R k j it
    concatenateOuter order Q j remaining (k + 1) R1

/-- The function `Assembler::concatenateMatrix(Q, R, i, j)`:
`for (size_t k = i; k < i + Q.outerSize(); ++k)` around the inner loop. -/
def concatenateMatrix (order : StorageOrder) (Q R : SparseMatrixd) (i j : Nat) :
    Except Fault SparseMatrixd :=
  concatenateOuter order Q j (Q.outerSize order) i R

/-- A `SparseLinearSystem`: `getMatrix()` and `getRHSVector()`. -/
structure SparseLinearSystem where
  getMatrix : SparseMatrixd
  getRHSVector : Vectord
  deriving DecidableEq

/-- A scene model, as `initSystem` sees it: the `dynamic_pointer_cast` to
`SparseLinearSystem` succeeds or gives a null pointer. -/
inductive SceneModel where
  | sparseLinearSystem (linearSystem : SparseLinearSystem)
  | other
  deriving DecidableEq

/-- The collision context: `getIslands()` and `getSceneModel(col)` (`none` for a null
pointer). -/
structure CollisionContext where
  getIslands : List (List Nat)
  getSceneModel : Nat → Option SceneModel

/-- The members of `Assembler`. -/
structure Assembler where
  collisionContext : Option CollisionContext
  equationList : List SparseLinearSystem
  A : List SparseMatrixd
  b : List Vectord

/-- A freshly constructed `Vectord(n)`: Eigen leaves the `n` coefficients uninitialised;
`junk k` stands for whatever coefficient `k` holds. -/
def Vectord.uninitialized (junk : Nat → ℚ) (n : Nat) : Vectord := (List.range n).map junk

/-- The call `v.segment(start, n)` used as a statement: the block expression is built and
dropped, nothing is assigned; the range has to lie inside `v`. -/
def Vectord.segmentDiscarded (v : Vectord) (start n : Nat) : Except Fault Unit :=
  if start + n ≤ v.length then .ok () else .error (Fault.segmentOutOfRange start n v.length)

/-- First inner loop of `Assembler::initSystem` (`for (auto& col : rows)`): the members that
are sparse linear systems are appended to `equationList` and counted in `nnz` and
`dofSize`. The state is `(equationList, nnz, dofSize)`. -/
def gatherIsland (getSceneModel : Nat → Option SceneModel) :
    List Nat → List SparseLinearSystem × Nat × Nat → List SparseLinearSystem × Nat × Nat
  | [], st => st
  | col :: rest, (equationList, nnz, dofSize) =>
    match getSceneModel col with
    | some (SceneModel.sparseLinearSystem linearSystem) =>
      gatherIsland getSceneModel rest
        (equationList ++ [linearSystem], nnz + linearSystem.getMatrix.nonZeros,
          dofSize + linearSystem.getRHSVector.length)
    | _ => gatherIsland getSceneModel rest (equationList, nnz, dofSize)

/-- Second inner loop of `Assembler::initSystem` (`for (auto& equation : this->equationList)`),
on the matrix `A.back()` and the vector `b.back()`, with the running offset `size`. -/
def assembleEquations (order : StorageOrder) (bBack : Vectord) :
    List SparseLinearSystem → SparseMatrixd → Nat → Except Fault SparseMatrixd
  | [], ABack, _ => .ok ABack
  | equation :: rest, ABack, size => do
    let M := equation.getMatrix
    let rhs := equation.getRHSVector
    let ABack1 ← concatenateMatrix order M ABack size size
    bBack.segmentDiscarded size rhs.length
    assembleEquations order bBack rest ABack1 (size + rhs.length)

/-- Body of the loop over the islands in `Assembler::initSystem`, for the island `rows`.
(`A.back().reserve(nnz)` only pre-allocates.) -/
def initIsland (order : StorageOrder) (junk : Nat → ℚ) (ctx : CollisionContext)
    (self : Assembler) (rows : List Nat) : Except Fault Assembler := do
  let (equationList, _nnz, dofSize) := gatherIsland ctx.getSceneModel rows (self.equationList, 0, 0)
  if dofSize > 0 then
    let bBack := Vectord.uninitialized junk dofSize
    let ABack ← assembleEquations order bBack equationList
      { rows := dofSize, cols := dofSize, entries := [] } 0
    return { self with equationList := equationList, A := self.A ++ [ABack], b := self.b ++ [bBack] }
  else
    return { self with equationList := equationList }

/-- The loop over the islands in `Assembler::initSystem`. -/
def initIslands (order : StorageOrder) (junk : Nat → ℚ) (ctx : CollisionContext) :
    List (List Nat) → Assembler → Except Fault Assembler
  | [], self => .ok self
  | rows :: rest, self => do
    let self1 ← initIsland order junk ctx self rows
    initIslands order junk ctx rest self1

/-- The function `Assembler::initSystem`. -/
def Assembler.initSystem (order : StorageOrder) (junk : Nat → ℚ) (self : Assembler) :
    Except Fault Assembler :=
  match self.collisionContext with
  | none => .error Fault.nullPointer
  | some ctx => initIslands order junk ctx ctx.getIslands self

/-- The constructor `Assembler::Assembler(collContext)`: store the context, then
`initSystem()`. -/
def Assembler.new (order : StorageOrder) (junk : Nat → ℚ) (collContext : Option CollisionContext) :
    Except Fault Assembler :=
  Assembler.initSystem order junk
    { collisionContext := collContext, equationList := [], A := [], b := [] }

/-- The `n × n` identity as a sparse matrix. -/
def SparseMatrixd.identity (n : Nat) : SparseMatrixd :=
  { rows := n, cols := n, entries := (List.range n).map (fun k => (k, k, 1)) }

/-! ## TrackingDeviceControl (`Source/Controllers/imstkTrackingDeviceControl.cpp`) -/

/-- The type `Vec3d`; the components are `v[0]`, `v[1]`, `v[2]`. -/
structure Vec3d where
  x : ℚ
  y : ℚ
  z : ℚ
  deriving DecidableEq

/-- The type `Quatd`, an Eigen quaternion with coefficients `w()`, `x()`, `y()`, `z()`. -/
structure Quatd where
  w : ℚ
  x : ℚ
  y : ℚ
  z : ℚ
  deriving DecidableEq

/-- The constant `WORLD_ORIGIN`. -/
def WORLD_ORIGIN : Vec3d := { x := 0, y := 0, z := 0 }

/-- The quaternion `Quatd::Identity()`. -/
def Quatd.Identity : Quatd := { w := 1, x := 0, y := 0, z := 0 }

/-- Sum of two vectors. -/
def Vec3d.add (a b : Vec3d) : Vec3d := { x := a.x + b.x, y := a.y + b.y, z := a.z + b.z }

/-- Product `v * s` of a vector and a scalar. -/
def Vec3d.scale (v : Vec3d) (s : ℚ) : Vec3d := { x := v.x * s, y := v.y * s, z := v.z * s }

/-- Product `s * v` of a scalar and a vector. -/
def Vec3d.smul (s : ℚ) (v : Vec3d) : Vec3d := { x := s * v.x, y := s * v.y, z := s * v.z }

/-- Cross product `a.cross(b)`. -/
def Vec3d.cross (a b : Vec3d) : Vec3d :=
  { x := a.y * b.z - a.z * b.y, y := a.z * b.x - a.x * b.z, z := a.x * b.y - a.y * b.x }

/-- The vector part `q.vec()` of a quaternion. -/
def Quatd.vec (q : Quatd) : Vec3d := { x := q.x, y := q.y, z := q.z }

/-- The product `q * v` of a quaternion and a vector, Eigen's `_transformVector`:
`uv = q.vec().cross(v); uv += uv; return v + q.w() * uv + q.vec().cross(uv);`. -/
def Quatd.transformVector (q : Quatd) (v : Vec3d) : Vec3d :=
  let uv := q.vec.cross v
  let uv := uv.add uv
  (v.add (Vec3d.smul q.w uv)).add (q.vec.cross uv)

/-- The product `a * b` of two quaternions. -/
def Quatd.mul (a b : Quatd) : Quatd :=
  { w := a.w * b.w - a.x * b.x - a.y * b.y - a.z * b.z,
    x := a.w * b.x + a.x * b.w + a.y * b.z - a.z * b.y,
    y := a.w * b.y + a.y * b.w + a.z * b.x - a.x * b.z,
    z := a.w * b.z + a.z * b.w + a.x * b.y - a.y * b.x }

/-- The enumerators of `TrackingDeviceControl::InvertFlag`. The enumeration is declared in
the header; the routine takes the six constants as a parameter. -/
structure InvertFlag where
  transX : Nat
  transY : Nat
  transZ : Nat
  rotX : Nat
  rotY : Nat
  rotZ : Nat

/-- Modelled from the spec: the values of the enumerators of `InvertFlag`, whose
declaration (`imstkTrackingDeviceControl.h`) is missing: a bitmask over
transX, transY, transZ, rotX, rotY, rotZ, one bit each, in this order. -/
def InvertFlag.bitmask : InvertFlag :=
  { transX := 0x01, transY := 0x02, transZ := 0x04, rotX := 0x08, rotY := 0x10, rotZ := 0x20 }

/-- The device client, as `updateTrackingData` uses it: `getPosition()` and
`getOrientation()`. -/
structure DeviceClient where
  getPosition : Vec3d
  getOrientation : Quatd
  deriving DecidableEq

/-- The members of `TrackingDeviceControl` (`m_deviceClient` is `none` for `nullptr`;
`m_invertFlags` is an `unsigned char`). -/
structure TrackingDeviceControl where
  m_deviceClient : Option DeviceClient
  m_currentPos : Vec3d
  m_currentRot : Quatd
  m_translationOffset : Vec3d
  m_rotationOffset : Quatd
  m_scaling : ℚ
  m_invertFlags : Nat
  m_trackingDataUptoDate : Bool
  deriving DecidableEq

/-- The test `if (m_invertFlags & flag)`. -/
def flagSet (m_invertFlags flag : Nat) : Bool := (m_invertFlags &&& flag) != 0

/-- The function `TrackingDeviceControl::updateTrackingData`: the returned `bool` and the
object after the call; the two members the body assigns step by step, `m_currentPos` and
`m_currentRot`, are carried as local values and stored at the end. -/
def TrackingDeviceControl.updateTrackingData (F : InvertFlag) (self : TrackingDeviceControl) :
    Bool × TrackingDeviceControl :=
  match self.m_deviceClient with
  | none => (false, self)
  | some m_deviceClient =>
    -- Retrieve device info
    let m_currentPos := m_deviceClient.getPosition
    let m_currentRot := m_deviceClient.getOrientation
    -- Apply inverse if needed
    let m_currentPos := if flagSet self.m_invertFlags F.transX then
        { m_currentPos with x := -m_currentPos.x } else m_currentPos
    let m_currentPos := if flagSet self.m_invertFlags F.transY then
        { m_currentPos with y := -m_currentPos.y } else m_currentPos
    let m_currentPos := if flagSet self.m_invertFlags F.transZ then
        { m_currentPos with z := -m_currentPos.z } else m_currentPos
    let m_currentRot := if flagSet self.m_invertFlags F.rotX then
        { m_currentRot with x := -m_currentRot.x } else m_currentRot
    let m_currentRot := if flagSet self.m_invertFlags F.rotY then
        { m_currentRot with y := -m_currentRot.y } else m_currentRot
    let m_currentRot := if flagSet self.m_invertFlags F.rotZ then
        { m_currentRot with z := -m_currentRot.z } else m_currentRot
    -- Apply Offsets
    let m_currentPos :=
      ((self.m_rotationOffset.transformVector m_currentPos).scale self.m_scaling).add
        self.m_translationOffset
    let m_currentRot := self.m_rotationOffset.mul m_currentRot
    (true, { self with m_currentPos := m_currentPos, m_currentRot := m_currentRot,
                       m_trackingDataUptoDate := true })

/-- The raw position with the components selected by the translation flags negated. -/
def invertedPosition (F : InvertFlag) (m_invertFlags : Nat) (p : Vec3d) : Vec3d :=
  { x := if flagSet m_invertFlags F.transX then -p.x else p.x,
    y := if flagSet m_invertFlags F.transY then -p.y else p.y,
    z := if flagSet m_invertFlags F.transZ then -p.z else p.z }

/-! ## SurfaceMeshCut (`Source/Filtering/imstkSurfaceMeshCut.cpp`) -/

/-- Difference `a - b` of two vectors. -/
def Vec3d.sub (a b : Vec3d) : Vec3d := { x := a.x - b.x, y := a.y - b.y, z := a.z - b.z }

/-- Dot product `a.dot(b)`. -/
def Vec3d.dot (a b : Vec3d) : ℚ := a.x * b.x + a.y * b.y + a.z * b.z

/-- The type `Vec3i` as a triangle: the three vertex indices `t[0]`, `t[1]`, `t[2]`. -/
structure Vec3i where
  v0 : Nat
  v1 : Nat
  v2 : Nat
  deriving DecidableEq, Repr

/-- The component `t[j]`, for `j` in `0, 1, 2`. -/
def Vec3i.get (t : Vec3i) (j : Nat) : Nat :=
  if j = 0 then t.v0 else if j = 1 then t.v1 else t.v2

/-- The assignment `t[j] = v`, for `j` in `0, 1, 2`. -/
def Vec3i.set (t : Vec3i) (j : Nat) (v : Nat) : Vec3i :=
  if j = 0 then { t with v0 := v } else if j = 1 then { t with v1 := v } else { t with v2 := v }

/-- The cutting plane: `getPosition()` and `getNormal()`. -/
structure Plane where
  getPosition : Vec3d
  getNormal : Vec3d
  deriving DecidableEq

/-- The enumeration `CutType`. -/
inductive CutType where
  | NONE
  | EDGE
  | VERT
  | EDGE_EDGE
  | EDGE_VERT
  | VERT_VERT
  deriving DecidableEq, Repr

/-- The record `CutData`: cut type, triangle, the two point ids and the two cut coordinates. -/
structure CutData where
  cutType : CutType
  triId : Nat
  ptIds : Nat × Nat
  cutCoords : Vec3d × Vec3d
  deriving DecidableEq

/-- An access outside an array of the mesh: undefined behaviour for the unchecked
`operator[]` of the vertex and triangle arrays, `std::out_of_range` for `vector::at`. -/
inductive MeshFault where
  | vertexOutOfRange (id : Nat)
  | triangleOutOfRange (id : Nat)
  | neighborListOutOfRange (id : Nat)
  deriving DecidableEq, Repr

/-- The read `(*vertices)[id]`. -/
def vertexAt (vertices : List Vec3d) (id : Nat) : Except MeshFault Vec3d :=
  match vertices[id]? with
  | some v => .ok v
  | none => .error (MeshFault.vertexOutOfRange id)

/-- The read `(*triangles)[id]`. -/
def triangleAt (triangles : List Vec3i) (id : Nat) : Except MeshFault Vec3i :=
  match triangles[id]? with
  | some t => .ok t
  | none => .error (MeshFault.triangleOutOfRange id)

/-- The function `SurfaceMeshCut::pointOnPlaneSide`. -/
def pointOnPlaneSide (m_Plane : Plane) (m_Epsilon : ℚ) (pt : Vec3d) : Int :=
  let normalProjection := m_Plane.getNormal.dot (pt.sub m_Plane.getPosition)
  if normalProjection > m_Epsilon then 1
  else if normalProjection < -m_Epsilon then -1
  else 0

/-- The expression `(p - pos0).dot(n) / (pos1 - pos0).dot(n) * (pos1 - pos0) + pos0` of
`generateCutData`. -/
def cutCoord (p n pos0 pos1 : Vec3d) : Vec3d :=
  (Vec3d.smul ((p.sub pos0).dot n / (pos1.sub pos0).dot n) (pos1.sub pos0)).add pos0

/-- The state of the loop of `generateCutData`: `m_CutData` and the set `repeatEdges`. -/
structure CutGen where
  cutData : List CutData
  repeatEdges : List (Nat × Nat)
  deriving DecidableEq

/-- The loop `for (int j = 0; j < 3; j++)`. -/
def forJ {σ : Type} (body : Nat → σ → Except MeshFault σ) (s : σ) : Except MeshFault σ := do
  let s ← body 0 s
  let s ← body 1 s
  body 2 s

/-- The vector `ptSide` as a function of the component index. -/
def sideAt (s0 s1 s2 : Int) (j : Nat) : Int :=
  if j = 0 then s0 else if j = 1 then s1 else s2

/-- Body of the loop over `j` in `case 1` of `generateCutData` (two vertices on the
plane). -/
def cutCase1 (vertices : List Vec3d) (i : Nat) (tri : Vec3i) (ptSide : Nat → Int)
    (j : Nat) (st : CutGen) : Except MeshFault CutGen :=
  if ptSide j ≠ 0 then
    let idx0 := (j + 1) % 3
    let idx1 := (j + 2) % 3
    let ptId0 := tri.get idx0
    let ptId1 := tri.get idx1
    if (ptId1, ptId0) ∈ st.repeatEdges then do
      let c0 ← vertexAt vertices ptId0
      let c1 ← vertexAt vertices ptId1
      return { st with cutData := st.cutData ++
        [{ cutType := CutType.VERT_VERT, triId := i, ptIds := (ptId0, ptId1),
           cutCoords := (c0, c1) }] }
    else if (ptId0, ptId1) ∈ st.repeatEdges then
      return st
    else
      return { st with repeatEdges := st.repeatEdges ++ [(ptId0, ptId1)] }
  else
    return st

/-- Body of the loop over `j` in `case 2` with `ptSide.sum() == 0` (one vertex on the
plane, the other two on opposite sides). -/
def cutCase2 (m_Plane : Plane) (vertices : List Vec3d) (i : Nat) (tri : Vec3i)
    (ptSide : Nat → Int) (j : Nat) (st : CutGen) : Except MeshFault CutGen :=
  if ptSide j = 0 then do
    let idx0 := (j + 1) % 3
    let idx1 := (j + 2) % 3
    let ptId0 := tri.get idx0
    let ptId1 := tri.get idx1
    let pos0 ← vertexAt vertices ptId0
    let pos1 ← vertexAt vertices ptId1
    let p := m_Plane.getPosition
    let n := m_Plane.getNormal
    let c1 ← vertexAt vertices (tri.get j)
    return { st with cutData := st.cutData ++
      [{ cutType := CutType.EDGE_VERT, triId := i, ptIds := (ptId0, ptId1),
         cutCoords := (cutCoord p n pos0 pos1, c1) }] }
  else
    return st

/-- Body of the loop over `j` in `case 3` of `generateCutData` (no vertex on the plane):
`lone` is the test on `ptSide[j]`, `ptSide[j] < 0` when `ptSide.sum() == 1` and
`ptSide[j] > 0` when `ptSide.sum() == -1`. -/
def cutCase3 (m_Plane : Plane) (vertices : List Vec3d) (i : Nat) (tri : Vec3i)
    (lone : Int → Bool) (ptSide : Nat → Int) (j : Nat) (st : CutGen) :
    Except MeshFault CutGen :=
  if lone (ptSide j) then do
    let idx0 := (j + 1) % 3
    let idx1 := (j + 2) % 3
    let ptId0 := tri.get idx0
    let ptId1 := tri.get idx1
    let ptId2 := tri.get j
    let pos0 ← vertexAt vertices ptId0
    let pos1 ← vertexAt vertices ptId1
    let pos2 ← vertexAt vertices ptId2
    let p := m_Plane.getPosition
    let n := m_Plane.getNormal
    return { st with cutData := st.cutData ++
      [{ cutType := CutType.EDGE_EDGE, triId := i, ptIds := (ptId0, ptId1),
         cutCoords := (cutCoord p n pos0 pos2, cutCoord p n pos1 pos2) }] }
  else
    return st

/-- Body of the loop over the triangles in `generateCutData`, for the triangle `tri` of
index `i`. -/
def cutTriangle (m_Plane : Plane) (m_Epsilon : ℚ) (vertices : List Vec3d) (i : Nat)
    (tri : Vec3i) (st : CutGen) : Except MeshFault CutGen := do
  let q0 ← vertexAt vertices (tri.get 0)
  let q1 ← vertexAt vertices (tri.get 1)
  let q2 ← vertexAt vertices (tri.get 2)
  let s0 := pointOnPlaneSide m_Plane m_Epsilon q0
  let s1 := pointOnPlaneSide m_Plane m_Epsilon q1
  let s2 := pointOnPlaneSide m_Plane m_Epsilon q2
  let ptSide := sideAt s0 s1 s2
  let squaredNorm := s0 * s0 + s1 * s1 + s2 * s2
  let sum := s0 + s1 + s2
  if squaredNorm = 1 then
    forJ (cutCase1 vertices i tri ptSide) st
  else if squaredNorm = 2 then
    if sum = 0 then forJ (cutCase2 m_Plane vertices i tri ptSide) st
    else return st
  else if squaredNorm = 3 then
    if sum = 1 then
      forJ (cutCase3 m_Plane vertices i tri (fun s => decide (s < 0)) ptSide) st
    else if sum = -1 then
      forJ (cutCase3 m_Plane vertices i tri (fun s => decide (s > 0)) ptSide) st
    else return st
  else
    return st

/-- The loop `for (int i = 0; i < triangles->size(); i++)` of `generateCutData`, from the
index `i` on, over the triangles that are left. -/
def cutTriangles (m_Plane : Plane) (m_Epsilon : ℚ) (vertices : List Vec3d) :
    Nat → List Vec3i → CutGen → Except MeshFault CutGen
  | _, [], st => .ok st
  | i, tri :: rest, st => do
    let st1 ← cutTriangle m_Plane m_Epsilon vertices i tri st
    cutTriangles m_Plane m_Epsilon vertices (i + 1) rest st1

/-- The function `SurfaceMeshCut::generateCutData`: the new content of `m_CutData`. -/
def generateCutData (m_Plane : Plane) (m_Epsilon : ℚ) (vertices : List Vec3d)
    (triangles : List Vec3i) : Except MeshFault (List CutData) := do
  let st ← cutTriangles m_Plane m_Epsilon vertices 0 triangles { cutData := [], repeatEdges := [] }
  return st.cutData

/-- The assignment `m[k] = v` on a `std::map` that is only searched, never iterated
(`edgeVertMap`): the pairs are kept in insertion order. -/
def assocSet {κ β : Type} [DecidableEq κ] (k : κ) (v : β) : List (κ × β) → List (κ × β)
  | [] => [(k, v)]
  | (k1, v1) :: rest => if k1 = k then (k, v) :: rest else (k1, v1) :: assocSet k v rest

/-- The assignment `cutVerts[k] = v` on the `std::map<int, bool>`, whose pairs are kept in
increasing order of the key, the order in which `splitVerts` iterates. -/
def cutVertsAssign (k : Nat) (v : Bool) : List (Nat × Bool) → List (Nat × Bool)
  | [] => [(k, v)]
  | (k1, v1) :: rest =>
    if k < k1 then (k, v) :: (k1, v1) :: rest
    else if k = k1 then (k, v) :: rest
    else (k1, v1) :: cutVertsAssign k v rest

/-- The statement `cutVerts[k] = (cutVerts.find(k) != cutVerts.end()) ? true : false;`,
the right-hand side being evaluated before `cutVerts[k]` creates the entry: the flag
tells whether `k` was on the cutting path already. -/
def markCutVert (cutVerts : List (Nat × Bool)) (k : Nat) : List (Nat × Bool) :=
  cutVertsAssign k (cutVerts.lookup k).isSome cutVerts

/-- The third point of `refinement`: the first of `ptIds[0]`, `ptIds[1]` that is neither
`ptId0` nor `ptId1`, and `ptIds[2]` otherwise. -/
def thirdPoint (ptIds : Vec3i) (ptId0 ptId1 : Nat) : Nat :=
  if ptIds.get 0 ≠ ptId0 ∧ ptIds.get 0 ≠ ptId1 then ptIds.get 0
  else if ptIds.get 1 ≠ ptId0 ∧ ptIds.get 1 ≠ ptId1 then ptIds.get 1
  else ptIds.get 2

/-- The state of the loop of `refinement`: the map `edgeVertMap`, the triangle and vertex
arrays of the output mesh, and `cutVerts`. -/
structure RefineState where
  edgeVertMap : List ((Nat × Nat) × Nat)
  triangles : List Vec3i
  vertices : List Vec3d
  cutVerts : List (Nat × Bool)
  deriving DecidableEq

/-- The block `// add new point(s)` of `refinement`: the vertex generated on the edge
`edge`, taken from `edgeVertMap` when the reversed edge `reversed` has one already, and
appended with the coordinates `cood` otherwise. The result is the id of the point. -/
def addNewPoint (edge reversed : Nat × Nat) (cood : Vec3d) (st : RefineState) :
    Nat × RefineState :=
  match st.edgeVertMap.lookup reversed with
  | some newPtId => (newPtId, st)
  | none =>
    (st.vertices.length,
      { st with vertices := st.vertices ++ [cood],
                edgeVertMap := assocSet edge st.vertices.length st.edgeVertMap })

/-- Body of the loop of `refinement`, for the cut record `curCutData`. -/
def refineStep (curCutData : CutData) (st : RefineState) : Except MeshFault RefineState :=
  let triId := curCutData.triId
  let ptId0 := curCutData.ptIds.1
  let ptId1 := curCutData.ptIds.2
  let cood0 := curCutData.cutCoords.1
  let cood1 := curCutData.cutCoords.2
  match curCutData.cutType with
  | CutType.EDGE | CutType.EDGE_VERT => do
    let (newPtId, st) := addNewPoint (ptId0, ptId1) (ptId1, ptId0) cood0 st
    let ptIds ← triangleAt st.triangles triId
    let ptId2 := thirdPoint ptIds ptId0 ptId1
    let triangles := st.triangles.set triId { v0 := ptId2, v1 := ptId0, v2 := newPtId }
    let triangles := triangles ++ [{ v0 := ptId2, v1 := newPtId, v2 := ptId1 }]
    let cutVerts :=
      if curCutData.cutType = CutType.EDGE_VERT then
        markCutVert (markCutVert st.cutVerts ptId2) newPtId
      else st.cutVerts
    return { st with triangles := triangles, cutVerts := cutVerts }
  | CutType.EDGE_EDGE => do
    let ptIds ← triangleAt st.triangles triId
    let ptId2 := thirdPoint ptIds ptId0 ptId1
    let (newPtId0, st) := addNewPoint (ptId2, ptId0) (ptId0, ptId2) cood0 st
    let (newPtId1, st) := addNewPoint (ptId1, ptId2) (ptId2, ptId1) cood1 st
    let triangles := st.triangles.set triId { v0 := ptId2, v1 := newPtId0, v2 := newPtId1 }
    let triangles := triangles ++ [{ v0 := newPtId0, v1 := ptId0, v2 := ptId1 }]
    let triangles := triangles ++ [{ v0 := newPtId0, v1 := ptId1, v2 := newPtId1 }]
    let cutVerts := markCutVert (markCutVert st.cutVerts newPtId0) newPtId1
    return { st with triangles := triangles, cutVerts := cutVerts }
  | CutType.VERT_VERT =>
    return { st with cutVerts := markCutVert (markCutVert st.cutVerts ptId0) ptId1 }
  | _ => return st

/-- The loop over `m_CutData` in `refinement`. -/
def refineLoop : List CutData → RefineState → Except MeshFault RefineState
  | [], st => .ok st
  | curCutData :: rest, st => do
    let st1 ← refineStep curCutData st
    refineLoop rest st1

/-- The function `SurfaceMeshCut::refinement` on the arrays of the output mesh: the new
triangles and vertices, and `cutVerts`. -/
def refinement (m_CutData : List CutData) (triangles : List Vec3i) (vertices : List Vec3d)
    (cutVerts : List (Nat × Bool)) :
    Except MeshFault (List Vec3i × List Vec3d × List (Nat × Bool)) := do
  let st ← refineLoop m_CutData
    { edgeVertMap := [], triangles := triangles, vertices := vertices, cutVerts := cutVerts }
  return (st.triangles, st.vertices, st.cutVerts)

/-- The call `s.insert(x)` on a `std::set<int>`, kept in increasing order. -/
def setInsert (x : Nat) : List Nat → List Nat
  | [] => [x]
  | y :: ys => if x < y then x :: y :: ys else if x = y then y :: ys else y :: setInsert x ys

/-- The statement `vertexNeighborTriangles.at(v).insert(triangleId)`. -/
def neighborInsert (vertexNeighborTriangles : List (List Nat)) (v triangleId : Nat) :
    Except MeshFault (List (List Nat)) :=
  match vertexNeighborTriangles[v]? with
  | some s => .ok (vertexNeighborTriangles.set v (setInsert triangleId s))
  | none => .error (MeshFault.neighborListOutOfRange v)

/-- The loop of `splitVerts` that builds `vertexNeighborTriangles`, from the triangle id
`triangleId` on. -/
def buildNeighbors : Nat → List Vec3i → List (List Nat) → Except MeshFault (List (List Nat))
  | _, [], vertexNeighborTriangles => .ok vertexNeighborTriangles
  | triangleId, t :: rest, vertexNeighborTriangles => do
    let l ← neighborInsert vertexNeighborTriangles (t.get 0) triangleId
    let l ← neighborInsert l (t.get 1) triangleId
    let l ← neighborInsert l (t.get 2) triangleId
    buildNeighbors (triangleId + 1) rest l

/-- One round of the inner loop of `vertexOnBoundary`: `ptId` is erased from the set when
it is there and inserted when it is not. -/
def toggle (nonRepeatNeighborVerts : List Nat) (ptId : Nat) : List Nat :=
  if ptId ∈ nonRepeatNeighborVerts then nonRepeatNeighborVerts.erase ptId
  else setInsert ptId nonRepeatNeighborVerts

/-- The loop over `triSet` in `vertexOnBoundary`. -/
def nonRepeatLoop (triangleIndices : List Vec3i) :
    List Nat → List Nat → Except MeshFault (List Nat)
  | [], nonRepeatNeighborVerts => .ok nonRepeatNeighborVerts
  | t :: rest, nonRepeatNeighborVerts => do
    let tri ← triangleAt triangleIndices t
    let s := toggle nonRepeatNeighborVerts (tri.get 0)
    let s := toggle s (tri.get 1)
    let s := toggle s (tri.get 2)
    nonRepeatLoop triangleIndices rest s

/-- The function `SurfaceMeshCut::vertexOnBoundary`. -/
def vertexOnBoundary (triangleIndices : List Vec3i) (triSet : List Nat) :
    Except MeshFault Bool := do
  let nonRepeatNeighborVerts ← nonRepeatLoop triangleIndices triSet []
  return decide (nonRepeatNeighborVerts.length ≥ 2)

/-- The loop `for (int i = 0; i < 3; i++)` of `splitVerts` on the triangle `t`: every
component equal to `cutVert` becomes `newPtId`. -/
def replaceVert (t : Vec3i) (cutVert newPtId : Nat) : Vec3i :=
  let t := if t.get 0 = cutVert then t.set 0 newPtId else t
  let t := if t.get 1 = cutVert then t.set 1 newPtId else t
  if t.get 2 = cutVert then t.set 2 newPtId else t

/-- The loop of `splitVerts` over the triangles `t` around a vertex that is split: a
triangle with a vertex on the negative side of the plane gets `newPtId` for `cutVert`. -/
def splitFan (m_Plane : Plane) (m_Epsilon : ℚ) (vertices : List Vec3d) (cutVert newPtId : Nat) :
    List Nat → List Vec3i → Except MeshFault (List Vec3i)
  | [], triangles => .ok triangles
  | t :: rest, triangles => do
    let tri ← triangleAt triangles t
    let pt0 ← vertexAt vertices (tri.get 0)
    let pt1 ← vertexAt vertices (tri.get 1)
    let pt2 ← vertexAt vertices (tri.get 2)
    let triangles :=
      if pointOnPlaneSide m_Plane m_Epsilon pt0 < 0 ∨ pointOnPlaneSide m_Plane m_Epsilon pt1 < 0
          ∨ pointOnPlaneSide m_Plane m_Epsilon pt2 < 0 then
        triangles.set t (replaceVert tri cutVert newPtId)
      else triangles
    splitFan m_Plane m_Epsilon vertices cutVert newPtId rest triangles

/-- Body of the loop `for (const auto& cutVert : cutVerts)` of `splitVerts`, on the
triangle and vertex arrays. -/
def splitVert (m_Plane : Plane) (m_Epsilon : ℚ) (vertexNeighborTriangles : List (List Nat))
    (cutVert : Nat × Bool) (st : List Vec3i × List Vec3d) :
    Except MeshFault (List Vec3i × List Vec3d) := do
  let triangles := st.1
  let vertices := st.2
  let triSet ← match vertexNeighborTriangles[cutVert.1]? with
    | some s => pure s
    | none => throw (MeshFault.neighborListOutOfRange cutVert.1)
  let onBoundary ← if cutVert.2 = false then vertexOnBoundary triangles triSet else pure false
  if cutVert.2 = false ∧ onBoundary = false then
    -- do not split vertex since it's the cutting end in surface
    return (triangles, vertices)
  else
    -- split vertex
    let newPtId := vertices.length
    let copy ← vertexAt vertices cutVert.1
    let vertices := vertices ++ [copy]
    let triangles ← splitFan m_Plane m_Epsilon vertices cutVert.1 newPtId triSet triangles
    return (triangles, vertices)

/-- The loop over `cutVerts` in `splitVerts`. -/
def splitLoop (m_Plane : Plane) (m_Epsilon : ℚ) (vertexNeighborTriangles : List (List Nat)) :
    List (Nat × Bool) → List Vec3i × List Vec3d → Except MeshFault (List Vec3i × List Vec3d)
  | [], st => .ok st
  | cutVert :: rest, st => do
    let st1 ← splitVert m_Plane m_Epsilon vertexNeighborTriangles cutVert st
    splitLoop m_Plane m_Epsilon vertexNeighborTriangles rest st1

/-- The function `SurfaceMeshCut::splitVerts` on the arrays of the output mesh. -/
def splitVerts (m_Plane : Plane) (m_Epsilon : ℚ) (triangles : List Vec3i)
    (vertices : List Vec3d) (cutVerts : List (Nat × Bool)) :
    Except MeshFault (List Vec3i × List Vec3d) := do
  let vertexNeighborTriangles ←
    buildNeighbors 0 triangles (List.replicate vertices.length [])
  splitLoop m_Plane m_Epsilon vertexNeighborTriangles cutVerts (triangles, vertices)

/-- The function `SurfaceMeshCut::requestUpdate` for an input surface mesh: the triangle
and vertex arrays of the output mesh. -/
def requestUpdate (m_Plane : Plane) (m_Epsilon : ℚ) (triangles : List Vec3i)
    (vertices : List Vec3d) : Except MeshFault (List Vec3i × List Vec3d) := do
  let m_CutData ← generateCutData m_Plane m_Epsilon vertices triangles
  let (triangles, vertices, cutVerts) ← refinement m_CutData triangles vertices []
  splitVerts m_Plane m_Epsilon triangles vertices cutVerts

/-! ## PBDPickingCH (`Source/CollisionHandling/imstkPBDPickingCH.cpp`) -/

/-- An element of `m_colData->MAColData`: the node in contact and its penetration
vector. -/
structure MeshToAnalyticalCollisionDataElement where
  nodeIdx : Nat
  penetrationVector : Vec3d
  deriving DecidableEq

/-- The picking sphere: `getPosition()` and `getRadius()`. -/
structure Sphere where
  getPosition : Vec3d
  getRadius : ℚ
  deriving DecidableEq

/-- The colliding geometry of the picking object, as `addPickConstraints` sees it: the
`dynamic_pointer_cast` to `Sphere` succeeds or gives a null pointer. -/
inductive CollidingGeometry where
  | sphere (pickSphere : Sphere)
  | other
  deriving DecidableEq

/-- The operations of `PbdModel` that the handler calls, on a model of type `Model`:
`setFixedPoint(idx)` and `getCurrentState()->setVertexPosition(idx, pos)`. Their bodies
are not part of the handler. -/
structure PbdModelOps (Model : Type) where
  setFixedPoint : Nat → Model → Model
  setVertexPosition : Nat → Vec3d → Model → Model

/-- A failed `CHECK(...)`: the program is aborted. -/
inductive CheckFailure where
  | checkFailed
  deriving DecidableEq, Repr

/-- The members of `PBDPickingCH` (`none` for a null pointer), with the model of the PBD
object in the place of `m_pbdObj`. -/
structure PBDPickingCH (Model : Type) where
  MAColData : List MeshToAnalyticalCollisionDataElement
  m_pbdObj : Option Model
  m_pickObj : Option CollidingGeometry
  m_isPicking : Bool
  m_pickedPtIdxOffset : List (Nat × Vec3d)

/-- The assignment `m[k] = v` on a `std::map` with integer keys, whose pairs are kept in
increasing order of the key. -/
def mapAssign {β : Type} (k : Nat) (v : β) : List (Nat × β) → List (Nat × β)
  | [] => [(k, v)]
  | (k1, v1) :: rest =>
    if k < k1 then (k, v) :: (k1, v1) :: rest
    else if k = k1 then (k, v) :: rest
    else (k1, v1) :: mapAssign k v rest

/-- The body of the `parallelFor` of `addPickConstraints`, run for the contacts in the
order of the list: a node that is not in `m_pickedPtIdxOffset` yet gets its offset
stored, is fixed, and is moved. `normalized` stands for the Eigen call of this name. -/
def pickLoop {Model : Type} (ops : PbdModelOps Model) (normalized : Vec3d → Vec3d)
    (pickSphere : Sphere) :
    List MeshToAnalyticalCollisionDataElement → List (Nat × Vec3d) × Model →
      List (Nat × Vec3d) × Model
  | [], st => st
  | cd :: rest, (m_pickedPtIdxOffset, model) =>
    let pv := cd.penetrationVector
    let relativePos := Vec3d.smul (-pickSphere.getRadius) (normalized pv)
    if (m_pickedPtIdxOffset.lookup cd.nodeIdx).isNone then
      pickLoop ops normalized pickSphere rest
        (mapAssign cd.nodeIdx relativePos m_pickedPtIdxOffset,
          ops.setVertexPosition cd.nodeIdx (pickSphere.getPosition.add relativePos)
            (ops.setFixedPoint cd.nodeIdx model))
    else
      pickLoop ops normalized pickSphere rest (m_pickedPtIdxOffset, model)

/-- The function `PBDPickingCH::addPickConstraints(m_pbdObj, m_pickObj)`. -/
def PBDPickingCH.addPickConstraints {Model : Type} (ops : PbdModelOps Model)
    (normalized : Vec3d → Vec3d) (self : PBDPickingCH Model) :
    Except CheckFailure (PBDPickingCH Model) :=
  if self.MAColData.isEmpty then .ok self
  else
    match self.m_pbdObj, self.m_pickObj with
    | some model, some (CollidingGeometry.sphere pickSphere) =>
      let r := pickLoop ops normalized pickSphere self.MAColData
        (self.m_pickedPtIdxOffset, model)
      .ok { self with m_pickedPtIdxOffset := r.1, m_pbdObj := some r.2 }
    | _, _ => .error CheckFailure.checkFailed

/-- The function `PBDPickingCH::activatePickConstraints`. -/
def PBDPickingCH.activatePickConstraints {Model : Type} (ops : PbdModelOps Model)
    (normalized : Vec3d → Vec3d) (self : PBDPickingCH Model) :
    Except CheckFailure (PBDPickingCH Model) :=
  if !self.MAColData.isEmpty then do
    let self1 ← self.addPickConstraints ops normalized
    return { self1 with m_isPicking := true }
  else
    return self

/-! ## AbstractDynamicalModel
(`Source/DynamicalModels/ObjectModels/imstkAbstractDynamicalModel.cpp`) -/

/-- The members of `AbstractDynamicalModel` that the two routines use: the set of accepted
geometry types and the geometry (`none` for a null pointer). `G` is the type of the
geometries and `T` of their type tags. -/
structure AbstractDynamicalModel (G T : Type) where
  m_validGeometryTypes : List T
  m_geometry : Option G

/-- The function `AbstractDynamicalModel::isGeometryValid`; `getType` is
`Geometry::getType`. -/
def AbstractDynamicalModel.isGeometryValid {G T : Type} [DecidableEq T] (getType : G → T)
    (self : AbstractDynamicalModel G T) (geometry : Option G) : Bool :=
  match geometry with
  | some g =>
    -- If no valid geometries specified all geometries work
    if self.m_validGeometryTypes.length = 0 then true
    -- If it exists in the set then it is valid geometry
    else if self.m_validGeometryTypes.count (getType g) ≠ 0 then true
    else false
  | none => false

/-- The function `AbstractDynamicalModel::setModelGeometry`. -/
def AbstractDynamicalModel.setModelGeometry {G T : Type} [DecidableEq T] (getType : G → T)
    (self : AbstractDynamicalModel G T) (geometry : Option G) : AbstractDynamicalModel G T :=
  if self.isGeometryValid getType geometry then { self with m_geometry := geometry }
  else self

/-! ## OpenGLWindowStream (`Core/IOStream.cpp`) -/

/-- The class `WindowString`: the text and its position. -/
structure WindowString where
  string : List Char
  x : ℚ
  y : ℚ
  deriving DecidableEq

/-- The default constructor `WindowString::WindowString()`. -/
def WindowString.new : WindowString := { string := [], x := 0, y := 0 }

/-- An element of the array `windowTexts`. -/
structure WindowData where
  enabled : Bool
  windowString : WindowString
  deriving DecidableEq

/-- The members of `OpenGLWindowStream` that the text routines use. `tagMap` maps a tag to
an `int`; the counters are `int` as well. -/
structure OpenGLWindowStream where
  totalTexts : Int
  windowTexts : List WindowData
  tagMap : List (List Char × Int)
  currentIndex : Int
  lastTextPosition : ℚ
  enabled : Bool
  deriving DecidableEq

/-- What goes wrong in the text routines without an exception being defined for it: an
index outside `windowTexts`, a remainder by zero, a negative array size. -/
inductive WindowFault where
  | indexOutOfRange (index : Int)
  | remainderByZero
  | badArrayLength (n : Int)
  deriving DecidableEq, Repr

/-- The function `OpenGLWindowStream::init`, as the constructor calls it on a fresh
object. -/
def OpenGLWindowStream.init (p_totalTexts : Int) : Except WindowFault OpenGLWindowStream :=
  if p_totalTexts < 0 then .error (WindowFault.badArrayLength p_totalTexts)
  else
    .ok { totalTexts := p_totalTexts,
          windowTexts := List.replicate p_totalTexts.toNat
            { enabled := false, windowString := WindowString.new },
          tagMap := [],
          currentIndex := 0,
          lastTextPosition := 0,
          enabled := true }

/-- The write `windowTexts[index] = f(windowTexts[index])` through the unchecked
`operator[]` of the array. -/
def modifyText (windowTexts : List WindowData) (index : Int) (f : WindowData → WindowData) :
    Except WindowFault (List WindowData) :=
  if index < 0 then .error (WindowFault.indexOutOfRange index)
  else
    match windowTexts[index.toNat]? with
    | some d => .ok (windowTexts.set index.toNat (f d))
    | none => .error (WindowFault.indexOutOfRange index)

/-- The expression `(currentIndex + 1) % totalTexts` on `int`. -/
def nextIndex (currentIndex totalTexts : Int) : Except WindowFault Int :=
  if totalTexts = 0 then .error WindowFault.remainderByZero
  else .ok (Int.tmod (currentIndex + 1) totalTexts)

/-- The value `tagMap[p_tag]` read through `operator[]`: a tag that is not in the map is
entered with the value `0`. The result is the value and the map after the read. -/
def tagMapIndex (tagMap : List (List Char × Int)) (p_tag : List Char) :
    Int × List (List Char × Int) :=
  match tagMap.lookup p_tag with
  | some index => (index, tagMap)
  | none => (0, tagMap ++ [(p_tag, 0)])

/-- The function `OpenGLWindowStream::addText(const std::string&, const std::string&)`:
the returned `int` and the object after the call. -/
def OpenGLWindowStream.addText (self : OpenGLWindowStream) (p_tag p_string : List Char) :
    Except WindowFault (Int × OpenGLWindowStream) := do
  let string : WindowString := { string := p_string, x := 0, y := self.lastTextPosition }
  let tagMap := assocSet p_tag self.currentIndex self.tagMap
  let windowTexts ← modifyText self.windowTexts self.currentIndex
    (fun d => { d with enabled := true })
  let windowTexts ← modifyText windowTexts self.currentIndex
    (fun d => { d with windowString := string })
  let currentIndex ← nextIndex self.currentIndex self.totalTexts
  return (currentIndex,
    { self with tagMap := tagMap, windowTexts := windowTexts, currentIndex := currentIndex })

/-- The function `OpenGLWindowStream::addText(std::string, WindowString&)`. -/
def OpenGLWindowStream.addWindowString (maxStringSize : Nat) (self : OpenGLWindowStream)
    (p_tag : List Char) (p_string : WindowString) :
    Except WindowFault (Bool × OpenGLWindowStream) :=
  if p_string.string.length > maxStringSize then .ok (false, self)
  else do
    let currentIndex ← nextIndex self.currentIndex self.totalTexts
    let tagMap := assocSet p_tag currentIndex self.tagMap
    let windowTexts ← modifyText self.windowTexts currentIndex
      (fun d => { d with windowString := p_string })
    let windowTexts ← modifyText windowTexts currentIndex (fun d => { d with enabled := true })
    return (true,
      { self with tagMap := tagMap, windowTexts := windowTexts, currentIndex := currentIndex })

/-- The function `OpenGLWindowStream::updateText(std::string p_tag, std::string)`;
`maxStringSize` is the macro `IMSTK_WINDOW_MAXSTRINGSIZE`. -/
def OpenGLWindowStream.updateTextByTag (maxStringSize : Nat) (self : OpenGLWindowStream)
    (p_tag p_string : List Char) : Except WindowFault (Bool × OpenGLWindowStream) :=
  if p_string.length > maxStringSize then .ok (false, self)
  else
    let (index, tagMap) := tagMapIndex self.tagMap p_tag
    if index ≥ 0 then do
      let windowTexts ← modifyText self.windowTexts index
        (fun d => { d with windowString := { d.windowString with string := p_string } })
      return (true, { self with tagMap := tagMap, windowTexts := windowTexts })
    else
      return (false, { self with tagMap := tagMap })

/-- The function `OpenGLWindowStream::updateText(int p_textHandle, std::string)`. -/
def OpenGLWindowStream.updateTextByHandle (maxStringSize : Nat) (self : OpenGLWindowStream)
    (p_textHandle : Int) (p_string : List Char) :
    Except WindowFault (Bool × OpenGLWindowStream) :=
  let index := p_textHandle
  if p_string.length > maxStringSize then .ok (false, self)
  else if index ≥ 0 then do
    let windowTexts ← modifyText self.windowTexts index
      (fun d => { d with windowString := { d.windowString with string := p_string } })
    return (true, { self with windowTexts := windowTexts })
  else
    return (false, self)

/-- The function `OpenGLWindowStream::removeText`. -/
def OpenGLWindowStream.removeText (self : OpenGLWindowStream) (p_tag : List Char) :
    Except WindowFault (Bool × OpenGLWindowStream) := do
  let (index, tagMap) := tagMapIndex self.tagMap p_tag
  let windowTexts ← modifyText self.windowTexts index (fun d => { d with enabled := false })
  return (true, { self with tagMap := tagMap, windowTexts := windowTexts })

/-- A sequence of calls `addText(tag, string)`, the first of the list first. -/
def OpenGLWindowStream.addTexts (self : OpenGLWindowStream) :
    List (List Char × List Char) → Except WindowFault OpenGLWindowStream
  | [] => .ok self
  | (p_tag, p_string) :: rest => do
    let r ← self.addText p_tag p_string
    r.2.addTexts rest

/-! ## LaparoscopicToolController
(`Source/Controllers/imstkLaparoscopicToolController.h`) -/

/-- The jaw members of `LaparoscopicToolController`. -/
structure LaparoscopicToolController where
  m_jawAngle : ℚ
  m_change : ℚ
  m_maxJawAngle : ℚ
  m_jawRotationAxis : Vec3d
  deriving DecidableEq

/-- The default member initialisers of the class: `m_jawAngle = PI / 6.0`,
`m_change = 6.0e-5`, `m_maxJawAngle = PI / 6.0`. The constant `PI` and the rotation axis
the constructor leaves are parameters. -/
def LaparoscopicToolController.new (PI : ℚ) (m_jawRotationAxis : Vec3d) :
    LaparoscopicToolController :=
  { m_jawAngle := PI / 6, m_change := 6 / 100000, m_maxJawAngle := PI / 6,
    m_jawRotationAxis := m_jawRotationAxis }

/-- The function `setMaxJawAngle`. -/
def LaparoscopicToolController.setMaxJawAngle (self : LaparoscopicToolController)
    (maxAngle : ℚ) : LaparoscopicToolController :=
  { self with m_maxJawAngle := maxAngle }

/-- The function `setJawAngleChange`. -/
def LaparoscopicToolController.setJawAngleChange (self : LaparoscopicToolController)
    (dAngle : ℚ) : LaparoscopicToolController :=
  { self with m_change := dAngle }

/-- The function `setJawRotationAxis`. -/
def LaparoscopicToolController.setJawRotationAxis (self : LaparoscopicToolController)
    (axis : Vec3d) : LaparoscopicToolController :=
  { self with m_jawRotationAxis := axis }

/-- The function `getJawAngle`. -/
def LaparoscopicToolController.getJawAngle (self : LaparoscopicToolController) : ℚ :=
  self.m_jawAngle

/-- The function `getMaxJawAngle`. -/
def LaparoscopicToolController.getMaxJawAngle (self : LaparoscopicToolController) : ℚ :=
  self.m_maxJawAngle

/-- Modelled from the spec: the jaw update of `updateControlledObjects` (its body, in
`imstkLaparoscopicToolController.cpp`, is missing): the jaw angle is advanced by
`m_change` per update, upwards for the open button and downwards for the close button,
subject to clamping to `[0, m_maxJawAngle]`. -/
def LaparoscopicToolController.updateJaw (self : LaparoscopicToolController) (open_ : Bool) :
    LaparoscopicToolController :=
  let target := if open_ then self.m_jawAngle + self.m_change else self.m_jawAngle - self.m_change
  { self with m_jawAngle := max 0 (min target self.m_maxJawAngle) }

/-- Modelled from the spec: the constant `PI` of `imstkMath.h` (missing), the number π
to twenty decimal places. -/
def PI : ℚ := 3.14159265358979323846

/-- The public operations on the jaw of a `LaparoscopicToolController`. -/
inductive JawOp where
  | setMaxJawAngle (maxAngle : ℚ)
  | setJawAngleChange (dAngle : ℚ)
  | setJawRotationAxis (axis : Vec3d)
  | updateJaw (open_ : Bool)

/-- The effect of a public operation. -/
def LaparoscopicToolController.apply (self : LaparoscopicToolController) :
    JawOp → LaparoscopicToolController
  | JawOp.setMaxJawAngle maxAngle => self.setMaxJawAngle maxAngle
  | JawOp.setJawAngleChange dAngle => self.setJawAngleChange dAngle
  | JawOp.setJawRotationAxis axis => self.setJawRotationAxis axis
  | JawOp.updateJaw open_ => self.updateJaw open_

/-- The controller after a sequence of public operations, the first of the list first. -/
def LaparoscopicToolController.run (self : LaparoscopicToolController) :
    List JawOp → LaparoscopicToolController
  | [] => self
  | op :: rest => (self.apply op).run rest

/-- A sequence of operations in which each `setMaxJawAngle(maxAngle)` is called with
`maxAngle` at least the jaw angle of the moment. -/
def maxAngleRespected (self : LaparoscopicToolController) : List JawOp → Prop
  | [] => True
  | op :: rest =>
    (match op with
      | JawOp.setMaxJawAngle maxAngle => self.m_jawAngle ≤ maxAngle
      | _ => True) ∧ maxAngleRespected (self.apply op) rest

/-- The position of the vertex `tri[j]`, given the positions `q0`, `q1`, `q2` of `tri[0]`,
`tri[1]`, `tri[2]`. -/
def posAt (q0 q1 q2 : Vec3d) (j : Nat) : Vec3d :=
  if j = 0 then q0 else if j = 1 then q1 else q2

/-- The vertex `j` of a triangle is alone on its side of the plane: it is off the plane
and the other two vertices are on the opposite side (`sd` gives the side of each vertex). -/
def loneVertex (sd : Nat → Int) (j : Nat) : Prop :=
  sd j ≠ 0 ∧ sd ((j + 1) % 3) = -sd j ∧ sd ((j + 2) % 3) = -sd j

/-- The vertex `j` of a triangle is the only one on the plane and the other two are on
opposite sides of it. -/
def vertexOnPlane (sd : Nat → Int) (j : Nat) : Prop :=
  sd j = 0 ∧ sd ((j + 1) % 3) ≠ 0 ∧ sd ((j + 2) % 3) = -sd ((j + 1) % 3)

/-- The vertex `j` of a triangle is off the plane and the other two, the edge opposite to
it, are on the plane. -/
def edgeOnPlane (sd : Nat → Int) (j : Nat) : Prop :=
  sd j ≠ 0 ∧ sd ((j + 1) % 3) = 0 ∧ sd ((j + 2) % 3) = 0

/-- The plane does not go through the inside of the triangle: the three vertices are all
on the plane or all on one side, or one is on the plane and the other two are on the same
side. -/
def noCrossing (sd : Nat → Int) : Prop :=
  (sd 0 = sd 1 ∧ sd 1 = sd 2) ∨
    ∃ j, j < 3 ∧ sd j = 0 ∧ sd ((j + 1) % 3) ≠ 0 ∧ sd ((j + 2) % 3) = sd ((j + 1) % 3)

/-- The `EDGE_EDGE` record of the triangle `tri` of index `i` whose lone vertex is `tri[j]`;
`pos` gives the positions of the three vertices. -/
def edgeEdgeRecord (m_Plane : Plane) (i : Nat) (tri : Vec3i) (pos : Nat → Vec3d) (j : Nat) :
    CutData :=
  { cutType := CutType.EDGE_EDGE, triId := i,
    ptIds := (tri.get ((j + 1) % 3), tri.get ((j + 2) % 3)),
    cutCoords :=
      (cutCoord m_Plane.getPosition m_Plane.getNormal (pos ((j + 1) % 3)) (pos j),
       cutCoord m_Plane.getPosition m_Plane.getNormal (pos ((j + 2) % 3)) (pos j)) }

/-- The `EDGE_VERT` record of the triangle `tri` of index `i` whose vertex on the plane is
`tri[j]`. -/
def edgeVertRecord (m_Plane : Plane) (i : Nat) (tri : Vec3i) (pos : Nat → Vec3d) (j : Nat) :
    CutData :=
  { cutType := CutType.EDGE_VERT, triId := i,
    ptIds := (tri.get ((j + 1) % 3), tri.get ((j + 2) % 3)),
    cutCoords :=
      (cutCoord m_Plane.getPosition m_Plane.getNormal (pos ((j + 1) % 3)) (pos ((j + 2) % 3)),
       pos j) }

/-- The `VERT_VERT` record of the triangle `tri` of index `i` whose vertex off the plane is
`tri[j]`. -/
def vertVertRecord (i : Nat) (tri : Vec3i) (pos : Nat → Vec3d) (j : Nat) : CutData :=
  { cutType := CutType.VERT_VERT, triId := i,
    ptIds := (tri.get ((j + 1) % 3), tri.get ((j + 2) % 3)),
    cutCoords := (pos ((j + 1) % 3), pos ((j + 2) % 3)) }

/-- The three vertices of `tri` are in the vertex array, at the positions `q0`, `q1`, `q2`,
on the sides `s0`, `s1`, `s2` of the plane. -/
structure TriangleSides (m_Plane : Plane) (m_Epsilon : ℚ) (vertices : List Vec3d)
    (tri : Vec3i) (q0 q1 q2 : Vec3d) (s0 s1 s2 : Int) : Prop where
  h0 : vertices[tri.v0]? = some q0
  h1 : vertices[tri.v1]? = some q1
  h2 : vertices[tri.v2]? = some q2
  e0 : pointOnPlaneSide m_Plane m_Epsilon q0 = s0
  e1 : pointOnPlaneSide m_Plane m_Epsilon q1 = s1
  e2 : pointOnPlaneSide m_Plane m_Epsilon q2 = s2

/-- The position of the vertex `id`, for an `id` that is in the vertex array. -/
def vertexPos (vertices : List Vec3d) (id : Nat) : Vec3d := vertices.getD id WORLD_ORIGIN

/-- The position of the vertex `tri[j]`. -/
def triPos (vertices : List Vec3d) (tri : Vec3i) (j : Nat) : Vec3d :=
  vertexPos vertices (tri.get j)

/-- The side of the plane on which the vertex `tri[j]` lies. -/
def triSide (m_Plane : Plane) (m_Epsilon : ℚ) (vertices : List Vec3d) (tri : Vec3i)
    (j : Nat) : Int :=
  pointOnPlaneSide m_Plane m_Epsilon (triPos vertices tri j)

/-- The three indices of the triangle are indices of the vertex array. -/
def validTriangle (vertices : List Vec3d) (tri : Vec3i) : Prop :=
  tri.v0 < vertices.length ∧ tri.v1 < vertices.length ∧ tri.v2 < vertices.length

/-- The record `c` is the one that `generateCutData` makes for the triangle `tri` of index
`i`, according to the sides of its vertices. -/
def RecordOf (m_Plane : Plane) (m_Epsilon : ℚ) (vertices : List Vec3d) (i : Nat)
    (tri : Vec3i) (c : CutData) : Prop :=
  (∃ j, j < 3 ∧ loneVertex (triSide m_Plane m_Epsilon vertices tri) j ∧
      c = edgeEdgeRecord m_Plane i tri (triPos vertices tri) j) ∨
  (∃ j, j < 3 ∧ vertexOnPlane (triSide m_Plane m_Epsilon vertices tri) j ∧
      c = edgeVertRecord m_Plane i tri (triPos vertices tri) j) ∨
  (∃ j, j < 3 ∧ edgeOnPlane (triSide m_Plane m_Epsilon vertices tri) j ∧
      c = vertVertRecord i tri (triPos vertices tri) j)

/-- What one round of the loop of `generateCutData` does for the triangle `tri` of index
`i`: the records `recs` it appends and the set of edges `E1` it leaves, given the set `E`
it found. -/
def StepOutcome (m_Plane : Plane) (m_Epsilon : ℚ) (vertices : List Vec3d) (i : Nat)
    (tri : Vec3i) (E : List (Nat × Nat)) (recs : List CutData) (E1 : List (Nat × Nat)) : Prop :=
  (noCrossing (triSide m_Plane m_Epsilon vertices tri) ∧ recs = [] ∧ E1 = E) ∨
  (∃ j, j < 3 ∧ loneVertex (triSide m_Plane m_Epsilon vertices tri) j ∧
      recs = [edgeEdgeRecord m_Plane i tri (triPos vertices tri) j] ∧ E1 = E) ∨
  (∃ j, j < 3 ∧ vertexOnPlane (triSide m_Plane m_Epsilon vertices tri) j ∧
      recs = [edgeVertRecord m_Plane i tri (triPos vertices tri) j] ∧ E1 = E) ∨
  (∃ j, j < 3 ∧ edgeOnPlane (triSide m_Plane m_Epsilon vertices tri) j ∧
      (((tri.get ((j + 2) % 3), tri.get ((j + 1) % 3)) ∈ E ∧
          recs = [vertVertRecord i tri (triPos vertices tri) j] ∧ E1 = E) ∨
        ((tri.get ((j + 2) % 3), tri.get ((j + 1) % 3)) ∉ E ∧ recs = [] ∧
          (E1 = E ∨ E1 = E ++ [(tri.get ((j + 1) % 3), tri.get ((j + 2) % 3))]))))

/-- The point `c` is the cut of the edge from `p0` to `p1` by the plane through `p` with
normal `n`: the divisor of the interpolation is not zero, `c = p0 + t (p1 - p0)` with
`t = (p - p0).n / (p1 - p0).n`, `c` is on the plane, and `0 < t < 1`. -/
def InterpolatedCut (p n p0 p1 c : Vec3d) : Prop :=
  (p1.sub p0).dot n ≠ 0 ∧
  c = p0.add (Vec3d.smul ((p.sub p0).dot n / (p1.sub p0).dot n) (p1.sub p0)) ∧
  (c.sub p).dot n = 0 ∧
  0 < (p.sub p0).dot n / (p1.sub p0).dot n ∧ (p.sub p0).dot n / (p1.sub p0).dot n < 1

/-- The test of `splitVerts` on a triangle around a vertex that is split: one of its three
vertices is on the negative side of the plane. -/
def onNegativeSide (m_Plane : Plane) (m_Epsilon : ℚ) (vertices : List Vec3d) (tri : Vec3i) :
    Prop :=
  triSide m_Plane m_Epsilon vertices tri 0 < 0 ∨ triSide m_Plane m_Epsilon vertices tri 1 < 0 ∨
    triSide m_Plane m_Epsilon vertices tri 2 < 0

instance (m_Plane : Plane) (m_Epsilon : ℚ) (vertices : List Vec3d) (tri : Vec3i) :
    Decidable (onNegativeSide m_Plane m_Epsilon vertices tri) := by
  unfold onNegativeSide
  infer_instance

/-! ## WindowConsole (`Core/IOStream.cpp`) -/

/-- The class `WindowConsole`, an `OpenGLWindowStream` with the rectangle of the console
(the background colour and the event handler are left out). -/
structure WindowConsole extends OpenGLWindowStream where
  left : ℚ
  bottom : ℚ
  right : ℚ
  top : ℚ
  deriving DecidableEq

/-- The constructor `WindowConsole::WindowConsole(int p_totalTexts)`. -/
def WindowConsole.new (p_totalTexts : Int) : Except WindowFault WindowConsole := do
  let base ← OpenGLWindowStream.init p_totalTexts
  return { toOpenGLWindowStream := base, left := 0, bottom := 0, right := 1, top := 15 / 100 }

/-- The function `WindowConsole::getLastEntry`: the read
`windowTexts[currentIndex].windowString.string`. -/
def WindowConsole.getLastEntry (self : WindowConsole) : Except WindowFault (List Char) :=
  if self.currentIndex < 0 then .error (WindowFault.indexOutOfRange self.currentIndex)
  else
    match self.windowTexts[self.currentIndex.toNat]? with
    | some d => .ok d.windowString.string
    | none => .error (WindowFault.indexOutOfRange self.currentIndex)

/-- The loop `for (int i = currentIndex, counter = 0; counter < totalTexts; i--, counter++)`
of `WindowConsole::addText`, with `rounds` rounds to go and `i` as the round finds it. -/
def traverseLoop (totalTexts : Int) : Nat → Int → List WindowData →
    Except WindowFault (List WindowData)
  | 0, _, windowTexts => .ok windowTexts
  | rounds + 1, i, windowTexts => do
    let i := if i < 0 then i + totalTexts else i
    let traverseIndex := Int.tmod i totalTexts
    let windowTexts ← modifyText windowTexts traverseIndex
      (fun d => { d with windowString := { d.windowString with x := 0 } })
    traverseLoop totalTexts rounds (i - 1) windowTexts

/-- The function `WindowConsole::addText`: the returned `int` and the object after the
call. -/
def WindowConsole.addText (self : WindowConsole) (p_tag p_string : List Char) :
    Except WindowFault (Int × WindowConsole) := do
  let string : WindowString := { WindowString.new with string := p_string }
  let windowTexts ← modifyText self.windowTexts self.currentIndex
    (fun d => { d with enabled := true })
  let windowTexts ← modifyText windowTexts self.currentIndex
    (fun d => { d with windowString := string })
  let tagMap := assocSet p_tag self.currentIndex self.tagMap
  let windowTexts ← traverseLoop self.totalTexts self.totalTexts.toNat self.currentIndex
    windowTexts
  let currentIndex ← nextIndex self.currentIndex self.totalTexts
  return (currentIndex,
    { self with tagMap := tagMap, windowTexts := windowTexts, currentIndex := currentIndex })

/-! ## smAABB (`include/smCore/smGeometry.h`) -/

/-- The class `smAABB`: the minimum and the maximum corner. -/
structure smAABB where
  aabbMin : Vec3d
  aabbMax : Vec3d
  deriving DecidableEq

/-- The value `std::numeric_limits<float>::max()`, the greatest finite `float`. -/
def FLT_MAX : ℚ := (2 - 1 / 2 ^ 23) * 2 ^ 127

/-- The value `std::numeric_limits<float>::min()`, the least positive normal `float`. -/
def FLT_MIN : ℚ := 1 / 2 ^ 126

/-- The coefficient-wise minimum `a.array().min(b.array())`. -/
def Vec3d.cwiseMin (a b : Vec3d) : Vec3d := { x := min a.x b.x, y := min a.y b.y, z := min a.z b.z }

/-- The coefficient-wise maximum `a.array().max(b.array())`. -/
def Vec3d.cwiseMax (a b : Vec3d) : Vec3d := { x := max a.x b.x, y := max a.y b.y, z := max a.z b.z }

/-- The function `smAABB::reset`. -/
def smAABB.reset (_self : smAABB) : smAABB :=
  { aabbMin := { x := FLT_MAX, y := FLT_MAX, z := FLT_MAX },
    aabbMax := { x := FLT_MIN, y := FLT_MIN, z := FLT_MIN } }

/-- The function `smAABB::extend`. -/
def smAABB.extend (self other : smAABB) : smAABB :=
  { aabbMin := self.aabbMin.cwiseMin other.aabbMin,
    aabbMax := self.aabbMax.cwiseMax other.aabbMax }

/-! ## makeClothGeometry (`Examples/PBDPicking/PBDPickingExample.cpp`) -/

/-- The bound `n - 1` of the loops `for (std::size_t i = 0; i < n - 1; ++i)`, for an `int`
`n ≥ 0`: the `int` value `n - 1` converted to `std::size_t` (64 bits) for the comparison. -/
def sizeBound (n : Nat) : Nat := (((n : Int) - 1) % 2 ^ 64).toNat

/-- The loops of `makeClothGeometry` that fill `vertList`, after `vertList.resize(nRows *
nCols)` (the product is taken within the range of `int`; the elements the resize makes are
all overwritten). -/
def clothVertices (width height : ℚ) (nRows nCols : Nat) : List Vec3d :=
  let dy := width / ((nCols : ℚ) - 1)
  let dx := height / ((nRows : ℚ) - 1)
  (List.range nRows).foldl (fun vertList i =>
    (List.range nCols).foldl (fun vertList j =>
      vertList.set (i * nCols + j) { x := dx * i, y := 1, z := dy * j }) vertList)
    (List.replicate (nRows * nCols) WORLD_ORIGIN)

/-- The two triangles `tri[0]`, `tri[1]` that the body of the connectivity loops makes for
the cell `(i, j)`. -/
def clothCell (nCols i j : Nat) : List Vec3i :=
  let index1 := i * nCols + j
  let index2 := index1 + nCols
  let index3 := index1 + 1
  let index4 := index2 + 1
  if (i % 2) ^^^ (j % 2) ≠ 0 then
    [{ v0 := index1, v1 := index2, v2 := index3 }, { v0 := index4, v1 := index3, v2 := index2 }]
  else
    [{ v0 := index2, v1 := index4, v2 := index1 }, { v0 := index4, v1 := index3, v2 := index1 }]

/-- The connectivity loops of `makeClothGeometry`: the vector `triangles`. -/
def clothTriangles (nRows nCols : Nat) : List Vec3i :=
  (List.range (sizeBound nRows)).foldl (fun triangles i =>
    (List.range (sizeBound nCols)).foldl (fun triangles j =>
      triangles ++ clothCell nCols i j) triangles) []

/-- The function `makeClothGeometry`, for `int` arguments `nRows, nCols ≥ 0`: the vertex
positions and the triangles of the mesh it returns. -/
def makeClothGeometry (width height : ℚ) (nRows nCols : Nat) : List Vec3d × List Vec3i :=
  (clothVertices width height nRows nCols, clothTriangles nRows nCols)

/-- The normal of a triangle with the corners `p0`, `p1`, `p2`: the cross product of the
edges from `p0` to `p1` and from `p0` to `p2`. -/
def triangleNormal (p0 p1 p2 : Vec3d) : Vec3d := (p1.sub p0).cross (p2.sub p0)

/-- The normal of the triangle `tri` of a mesh with the vertex positions `vertices`, its
corners taken in index order. -/
def meshNormal (vertices : List Vec3d) (tri : Vec3i) : Vec3d :=
  triangleNormal (vertexPos vertices tri.v0) (vertexPos vertices tri.v1)
    (vertexPos vertices tri.v2)

/-! ## smSurfaceTree (`include/smCollision/smSurfaceTree.h`) -/

/-- A cell of a surface tree (the template parameter `CellType`), as
`getIntersectingNodes` reads it: the box `getAabb()`, the flag `getIsLeaf()` and the array
`getChildNodes()` of pointers, each null (`none`) or to a child cell. The tree is finite. -/
inductive SurfaceTreeCell where
  | mk (aabb : smAABB) (isLeaf : Bool) (childNodes : List (Option SurfaceTreeCell))

/-- The function `getAabb` of a cell. -/
def SurfaceTreeCell.getAabb : SurfaceTreeCell → smAABB
  | .mk aabb _ _ => aabb

/-- The function `getIsLeaf` of a cell. -/
def SurfaceTreeCell.getIsLeaf : SurfaceTreeCell → Bool
  | .mk _ isLeaf _ => isLeaf

/-- The function `getChildNodes` of a cell. -/
def SurfaceTreeCell.getChildNodes : SurfaceTreeCell → List (Option SurfaceTreeCell)
  | .mk _ _ childNodes => childNodes

/-- The loop `for (const auto &child : childNodes) { if (!child) continue; ... }` over an
array of pointers: `body` is run on the cells of the pointers that are not null, in the
order of the array. -/
def forEachChild {β : Type} (childNodes : List (Option SurfaceTreeCell))
    (body : (c : SurfaceTreeCell) → some c ∈ childNodes → β → β) (result : β) : β :=
  childNodes.attach.foldl (fun result child =>
    match child with
    | ⟨none, _⟩ => result
    | ⟨some c, h⟩ => body c h result) result

/-- The function `smSurfaceTree::getIntersectingNodes(left, right, result)`: the vector
`result` after the call. The test `smCollisionMoller::checkOverlapAABBAABB` is a
parameter. -/
def getIntersectingNodes (checkOverlapAABBAABB : smAABB → smAABB → Bool)
    (left right : SurfaceTreeCell) (result : List (SurfaceTreeCell × SurfaceTreeCell)) :
    List (SurfaceTreeCell × SurfaceTreeCell) :=
  if ¬ checkOverlapAABBAABB left.getAabb right.getAabb then result
  else if left.getIsLeaf ∧ right.getIsLeaf then result ++ [(left, right)]
  else if left.getIsLeaf then
    forEachChild right.getChildNodes (fun child _ result =>
      getIntersectingNodes checkOverlapAABBAABB left child result) result
  else if right.getIsLeaf then
    forEachChild left.getChildNodes (fun child _ result =>
      getIntersectingNodes checkOverlapAABBAABB child right result) result
  else
    forEachChild right.getChildNodes (fun rightChild _ result =>
      forEachChild left.getChildNodes (fun leftChild _ result =>
        getIntersectingNodes checkOverlapAABBAABB leftChild rightChild result) result) result
termination_by sizeOf left + sizeOf right
decreasing_by
  all_goals simp_wf
  · have h1 : some child ∈ right.getChildNodes := by assumption
    cases right
    have h3 := List.sizeOf_lt_of_mem h1
    simp only [SurfaceTreeCell.mk.sizeOf_spec, Option.some.sizeOf_spec,
      SurfaceTreeCell.getChildNodes] at h3 ⊢
    omega
  · have h1 : some child ∈ left.getChildNodes := by assumption
    cases left
    have h3 := List.sizeOf_lt_of_mem h1
    simp only [SurfaceTreeCell.mk.sizeOf_spec, Option.some.sizeOf_spec,
      SurfaceTreeCell.getChildNodes] at h3 ⊢
    omega
  · have h1 : some leftChild ∈ left.getChildNodes := by assumption
    have h2 : some rightChild ∈ right.getChildNodes := by assumption
    cases left
    cases right
    have h3 := List.sizeOf_lt_of_mem h1
    have h4 := List.sizeOf_lt_of_mem h2
    simp only [SurfaceTreeCell.mk.sizeOf_spec, Option.some.sizeOf_spec,
      SurfaceTreeCell.getChildNodes] at h3 h4 ⊢
    omega

/-- The function `smSurfaceTree::getIntersectingNodes(otherTree)`, for the tree with the
root `root` and the other tree with the root `otherRoot`. -/
def smSurfaceTree.getIntersectingNodes (checkOverlapAABBAABB : smAABB → smAABB → Bool)
    (root otherRoot : SurfaceTreeCell) : List (SurfaceTreeCell × SurfaceTreeCell) :=
  imstk.getIntersectingNodes checkOverlapAABBAABB root otherRoot []

/-- The child cells of a cell: the pointers of `getChildNodes()` that are not null. -/
def SurfaceTreeCell.children (c : SurfaceTreeCell) : List SurfaceTreeCell :=
  c.getChildNodes.filterMap id

/-- The leaves of the tree below a cell: the cell itself when its leaf flag is set, the
leaves of its child cells otherwise. -/
def SurfaceTreeCell.leaves (c : SurfaceTreeCell) : List SurfaceTreeCell :=
  if c.getIsLeaf then [c]
  else forEachChild c.getChildNodes (fun child _ found => found ++ child.leaves) []
termination_by sizeOf c
decreasing_by
  all_goals simp_wf
  have h1 : some child ∈ c.getChildNodes := by assumption
  cases c
  have h3 := List.sizeOf_lt_of_mem h1
  simp only [SurfaceTreeCell.mk.sizeOf_spec, Option.some.sizeOf_spec,
    SurfaceTreeCell.getChildNodes] at h3 ⊢
  omega

/-- The cells of the tree below a cell: the cell and all its descendants. -/
def SurfaceTreeCell.cells (c : SurfaceTreeCell) : List SurfaceTreeCell :=
  c :: forEachChild c.getChildNodes (fun child _ found => found ++ child.cells) []
termination_by sizeOf c
decreasing_by
  all_goals simp_wf
  have h1 : some child ∈ c.getChildNodes := by assumption
  cases c
  have h3 := List.sizeOf_lt_of_mem h1
  simp only [SurfaceTreeCell.mk.sizeOf_spec, Option.some.sizeOf_spec,
    SurfaceTreeCell.getChildNodes] at h3 ⊢
  omega

/-- The box `outer` contains the box `inner`. -/
def smAABB.contains (outer inner : smAABB) : Prop :=
  outer.aabbMin.x ≤ inner.aabbMin.x ∧ outer.aabbMin.y ≤ inner.aabbMin.y ∧
    outer.aabbMin.z ≤ inner.aabbMin.z ∧ inner.aabbMax.x ≤ outer.aabbMax.x ∧
    inner.aabbMax.y ≤ outer.aabbMax.y ∧ inner.aabbMax.z ≤ outer.aabbMax.z

/-- The box of every cell of the tree contains the boxes of its descendants. -/
def SurfaceTreeCell.nested (root : SurfaceTreeCell) : Prop :=
  ∀ c ∈ root.cells, ∀ d ∈ c.cells, c.getAabb.contains d.getAabb

/-- An overlap test agrees with containment: two boxes that contain overlapping boxes
overlap. -/
def overlapMonotone (checkOverlapAABBAABB : smAABB → smAABB → Bool) : Prop :=
  ∀ a b c d : smAABB, a.contains c → b.contains d → checkOverlapAABBAABB c d = true →
    checkOverlapAABBAABB a b = true

/-! ## smCamera (`src/smRendering/smCamera.cpp`) -/

/-- The float routines of the libraries that the camera calls: the square root (of
`norm()` and `normalized()`), the quaternion made from a rotation matrix given by its three
columns, and the quaternion of `Eigen::AngleAxisf(angle, axis)`. The other float
operations are taken exactly. -/
structure CameraMath where
  sqrt : ℚ → ℚ
  quaternionOfAxes : Vec3d → Vec3d → Vec3d → Quatd
  angleAxis : ℚ → Vec3d → Quatd

/-- The vector `-v`. -/
def Vec3d.neg (v : Vec3d) : Vec3d := { x := -v.x, y := -v.y, z := -v.z }

/-- The length `v.norm()`. -/
def Vec3d.norm (m : CameraMath) (v : Vec3d) : ℚ := m.sqrt (v.dot v)

/-- The vector `v.normalized()`, `v` divided by its length. -/
def Vec3d.normalized (m : CameraMath) (v : Vec3d) : Vec3d :=
  { x := v.x / v.norm m, y := v.y / v.norm m, z := v.z / v.norm m }

/-- The vector `smVec3f::UnitY()`. -/
def UnitY : Vec3d := { x := 0, y := 1, z := 0 }

/-- The vector `smVec3f::UnitZ()`. -/
def UnitZ : Vec3d := { x := 0, y := 0, z := 1 }

/-- The type `smMatrix44f`, by rows. -/
abbrev smMatrix44f := List (List ℚ)

/-- The members of `smCamera` that the view routines use (`smVec3f` and `smQuaternionf`
with exact coefficients); the projection members are left out. -/
structure smCamera where
  pos : Vec3d
  fp : Vec3d
  orientation : Quatd
  view : smMatrix44f
  viewDirty : Bool
  orientDirty : Bool
  deriving DecidableEq

/-- The constructor `smCamera::smCamera()`. It leaves `orientation` and `view` as they
are made, without values: `junkOrientation` and `junkView` stand for what they hold. -/
def smCamera.new (junkOrientation : Quatd) (junkView : smMatrix44f) : smCamera :=
  { pos := { x := 0, y := 0, z := 0 }, fp := { x := 0, y := 0, z := -1 },
    orientation := junkOrientation, view := junkView, viewDirty := true,
    orientDirty := false }

/-- The function `smCamera::getPos`. -/
def smCamera.getPos (self : smCamera) : Vec3d := self.pos

/-- The function `smCamera::setPos(const smVec3f&)`. -/
def smCamera.setPos (self : smCamera) (v : Vec3d) : smCamera :=
  { self with pos := v, viewDirty := true, orientDirty := true }

/-- The function `smCamera::getFocus`. -/
def smCamera.getFocus (self : smCamera) : Vec3d := self.fp

/-- The function `smCamera::setFocus(const smVec3f&)`. -/
def smCamera.setFocus (self : smCamera) (v : Vec3d) : smCamera :=
  { self with fp := v, viewDirty := true, orientDirty := true }

/-- The function `smCamera::setOrientation`. -/
def smCamera.setOrientation (self : smCamera) (q : Quatd) : smCamera :=
  { self with orientation := q, orientDirty := false }

/-- The function `smCamera::setOrientFromDir`. -/
def smCamera.setOrientFromDir (m : CameraMath) (self : smCamera) (d : Vec3d) : smCamera :=
  let tempUp := self.orientation.transformVector UnitY
  let col2 := d.neg.normalized m
  let col0 := (tempUp.cross col2).normalized m
  let col1 := (col2.cross col0).normalized m
  self.setOrientation (m.quaternionOfAxes col0 col1 col2)

/-- The function `smCamera::getOrientation`: the quaternion returned and the camera after
the call. -/
def smCamera.getOrientation (m : CameraMath) (self : smCamera) : Quatd × smCamera :=
  let self :=
    if self.orientDirty = true then
      self.setOrientFromDir m ((self.getFocus.sub self.getPos).normalized m)
    else self
  (self.orientation, self)

/-- The function `smCamera::getUpVec`. -/
def smCamera.getUpVec (m : CameraMath) (self : smCamera) : Vec3d × smCamera :=
  let (q, self) := self.getOrientation m
  (q.transformVector UnitY, self)

/-- The function `smCamera::getDirection`. -/
def smCamera.getDirection (m : CameraMath) (self : smCamera) : Vec3d × smCamera :=
  let (q, self) := self.getOrientation m
  ((q.transformVector UnitZ).neg, self)

/-- The function `smCamera::setViewMat`. -/
def smCamera.setViewMat (self : smCamera) (mat : smMatrix44f) : smCamera :=
  { self with view := mat, viewDirty := false }

/-- The function `smCamera::lookAt`. -/
def smCamera.lookAt (m : CameraMath) (pos fp up : Vec3d) : smMatrix44f :=
  let f := (fp.sub pos).normalized m
  let u := up.normalized m
  let s := (f.cross u).normalized m
  let u := s.cross f
  [[s.x, s.y, s.z, -s.dot pos],
   [u.x, u.y, u.z, -u.dot pos],
   [-f.x, -f.y, -f.z, f.dot pos],
   [0, 0, 0, 1]]

/-- The function `smCamera::genViewMat`. -/
def smCamera.genViewMat (m : CameraMath) (self : smCamera) : smCamera :=
  let (up, self) := self.getUpVec m
  self.setViewMat (smCamera.lookAt m self.getPos self.getFocus up)

/-- The function `smCamera::getViewMat`: the matrix returned and the camera after the
call. -/
def smCamera.getViewMat (m : CameraMath) (self : smCamera) : smMatrix44f × smCamera :=
  let self := if self.viewDirty = true then self.genViewMat m else self
  (self.view, self)

/-- The function `smCamera::pan`. -/
def smCamera.pan (m : CameraMath) (self : smCamera) (v : Vec3d) : smCamera :=
  let (q, self) := self.getOrientation m
  let v := q.transformVector v
  let self := self.setPos (self.getPos.add v)
  self.setFocus (self.getFocus.add v)

/-- The function `smCamera::zoom`. -/
def smCamera.zoom (m : CameraMath) (self : smCamera) (d : ℚ) : smCamera :=
  let dist := (self.getPos.sub self.getFocus).norm m
  if dist > d then
    let (dir, self) := self.getDirection m
    self.setPos (self.getPos.add (dir.scale d))
  else self

/-- The function `smCamera::rotateLocal`. -/
def smCamera.rotateLocal (m : CameraMath) (self : smCamera) (angle : ℚ) (axis : Vec3d) :
    smCamera :=
  let dist := (self.getPos.sub self.getFocus).norm m
  let q := m.angleAxis angle (axis.normalized m)
  let (o, self) := self.getOrientation m
  let self := self.setOrientation (o.mul q)
  let (dir, self) := self.getDirection m
  self.setFocus (self.getPos.add (Vec3d.smul dist dir))

/-- The function `smCamera::rotateFocus`. -/
def smCamera.rotateFocus (m : CameraMath) (self : smCamera) (angle : ℚ) (axis : Vec3d) :
    smCamera :=
  let dist := (self.getFocus.sub self.getPos).norm m
  let q := m.angleAxis angle (axis.normalized m)
  let (o, self) := self.getOrientation m
  let self := self.setOrientation (o.mul q)
  let (dir, self) := self.getDirection m
  self.setPos (self.getFocus.add (Vec3d.smul dist dir))

/-- The value `lookAt(getPos(), getFocus(), getUpVec())` for a camera. -/
def smCamera.freshView (m : CameraMath) (self : smCamera) : smMatrix44f :=
  let (up, self) := self.getUpVec m
  smCamera.lookAt m self.getPos self.getFocus up

/-- The setters and the motion operations of a camera. -/
inductive CameraOp where
  | setPos (v : Vec3d)
  | setFocus (v : Vec3d)
  | setOrientation (q : Quatd)
  | pan (v : Vec3d)
  | zoom (d : ℚ)
  | rotateLocal (angle : ℚ) (axis : Vec3d)
  | rotateFocus (angle : ℚ) (axis : Vec3d)

/-- The effect of an operation on a camera. -/
def smCamera.apply (m : CameraMath) (self : smCamera) : CameraOp → smCamera
  | CameraOp.setPos v => self.setPos v
  | CameraOp.setFocus v => self.setFocus v
  | CameraOp.setOrientation q => self.setOrientation q
  | CameraOp.pan v => self.pan m v
  | CameraOp.zoom d => self.zoom m d
  | CameraOp.rotateLocal angle axis => self.rotateLocal m angle axis
  | CameraOp.rotateFocus angle axis => self.rotateFocus m angle axis

/-- The camera after a sequence of operations, the first of the list first. -/
def smCamera.run (m : CameraMath) (self : smCamera) : List CameraOp → smCamera
  | [] => self
  | op :: rest => (self.apply m op).run m rest

/-- The triangle `t` of the mesh has `x` as one of its three vertices. -/
def hasVertex (triangleIndices : List Vec3i) (t x : Nat) : Bool :=
  match triangleIndices[t]? with
  | some tri => decide (x = tri.v0 ∨ x = tri.v1 ∨ x = tri.v2)
  | none => false

/-- The number of triangles of `triSet`, the triangles around a vertex, in which the vertex
`x` occurs. -/
def incidentCount (triangleIndices : List Vec3i) (triSet : List Nat) (x : Nat) : Nat :=
  triSet.countP (fun t => hasVertex triangleIndices t x)

/-- The fan `triSet` around the vertex `v` is closed: every other vertex that occurs in it
occurs in exactly two of its triangles. -/
def closedFan (triangleIndices : List Vec3i) (triSet : List Nat) (v : Nat) : Prop :=
  ∀ x, x ≠ v → incidentCount triangleIndices triSet x = 0 ∨
    incidentCount triangleIndices triSet x = 2

/-- The fan `triSet` is open: two vertices occur in only one of its triangles. -/
def openFan (triangleIndices : List Vec3i) (triSet : List Nat) : Prop :=
  ∃ a b, a ≠ b ∧ incidentCount triangleIndices triSet a = 1 ∧
    incidentCount triangleIndices triSet b = 1

/-! ## Invariants of the loop of `SurfaceMeshCut::refinement` -/

/-- The state of `refinement` is sound: the triangles, the new points of `edgeVertMap` and
the vertices of `cutVerts` are all in the vertex array. -/
structure RefineSound (st : RefineState) : Prop where
  triangles : ∀ tri ∈ st.triangles, validTriangle st.vertices tri
  edgeVertMap : ∀ e w, st.edgeVertMap.lookup e = some w → w < st.vertices.length
  cutVerts : ∀ p ∈ st.cutVerts, p.1 < st.vertices.length

/-- The directed edge of a triangle from its corner `j` to the next corner. -/
def directedEdge (tri : Vec3i) (j : Nat) : Nat × Nat := (tri.get j, tri.get ((j + 1) % 3))

/-- The mesh is consistently oriented: a directed edge belongs to one triangle only, at
one place (two triangles that share an edge go along it in opposite directions). -/
def consistentlyOriented (triangles : List Vec3i) : Prop :=
  ∀ (i1 i2 : Nat) (t1 t2 : Vec3i) (j1 j2 : Nat), triangles[i1]? = some t1 → triangles[i2]? = some t2 → j1 < 3 →
    j2 < 3 → directedEdge t1 j1 = directedEdge t2 j2 → i1 = i2 ∧ j1 = j2

/-- The vertex `w` is one of the three vertices of the triangle `t`. -/
def Vec3i.has (t : Vec3i) (w : Nat) : Prop := t.v0 = w ∨ t.v1 = w ∨ t.v2 = w

/-- The plane crosses the edge of a triangle from its corner `j` to the next: the two
ends are off the plane, on opposite sides (`sd` gives the side of each corner). -/
def crossedEdge (sd : Nat → Int) (j : Nat) : Prop := sd j ≠ 0 ∧ sd ((j + 1) % 3) = -sd j

/-- The bookkeeping of `edgeVertMap` in `refinement`, for a mesh that had `n` vertices:
the new points of the map are the vertices appended so far, one for each entry, no edge
has two entries, and no edge is in the map in both directions. -/
structure MapSound (n : Nat) (st : RefineState) : Prop where
  values : st.edgeVertMap.map Prod.snd = List.range' n st.edgeVertMap.length
  count : st.vertices.length = n + st.edgeVertMap.length
  keysNodup : (st.edgeVertMap.map Prod.fst).Nodup
  noReverse : ∀ x y w, st.edgeVertMap.lookup (x, y) = some w →
    st.edgeVertMap.lookup (y, x) = none

/-- The state of the loop of `refinement` after the records of the triangles `done`, on a
mesh with the arrays `triangles` and `vertices`: the triangles without a record so far are
as they were, the entries of `edgeVertMap` are directed edges of triangles of `done`, and
every edge of a triangle of `done` that the plane crosses has a new point in the map, in
one of its directions, to which the triangle in the slot refers. -/
structure SplitOnce (m_Plane : Plane) (m_Epsilon : ℚ) (triangles : List Vec3i)
    (vertices : List Vec3d) (done : List Nat) (st : RefineState) : Prop where
  map : MapSound vertices.length st
  slots : ∀ (t : Nat) (tri : Vec3i), triangles[t]? = some tri → t ∉ done →
    st.triangles[t]? = some tri
  keys : ∀ e w, st.edgeVertMap.lookup e = some w →
    ∃ (t : Nat) (tri : Vec3i) (j : Nat), t ∈ done ∧ triangles[t]? = some tri ∧ j < 3 ∧
      e = directedEdge tri j
  crossed : ∀ (t : Nat) (tri : Vec3i) (j : Nat), t ∈ done → triangles[t]? = some tri → j < 3 →
    crossedEdge (triSide m_Plane m_Epsilon vertices tri) j →
    ∃ (w : Nat) (r : Vec3i), (st.edgeVertMap.lookup (directedEdge tri j) = some w ∨
        st.edgeVertMap.lookup (directedEdge tri j).swap = some w) ∧
      st.triangles[t]? = some r ∧ r.has w

/-- A linear system with one degree of freedom: the matrix `(a)` and the right-hand side
`(r)`. -/
def oneDofSystem (a r : ℚ) : SparseLinearSystem :=
  { getMatrix := { rows := 1, cols := 1, entries := [(0, 0, a)] }, getRHSVector := [r] }

/-- A linear system with the `2 × 2` identity for its matrix. -/
def identitySystem (r0 r1 : ℚ) : SparseLinearSystem :=
  { getMatrix := SparseMatrixd.identity 2, getRHSVector := [r0, r1] }

/-- A collision context with one island, of two members with `2 × 2` identity matrices. -/
def twoIdentityBlocks : CollisionContext :=
  { getIslands := [[0, 1]],
    getSceneModel := fun col =>
      if col = 0 then some (SceneModel.sparseLinearSystem (identitySystem 3 4))
      else if col = 1 then some (SceneModel.sparseLinearSystem (identitySystem 5 6))
      else none }

/-- A collision context with one island, of the single member `(5) x = (r)`. -/
def singleMember (r : ℚ) : CollisionContext :=
  { getIslands := [[0]],
    getSceneModel := fun col =>
      if col = 0 then some (SceneModel.sparseLinearSystem (oneDofSystem 5 r)) else none }

/-- A collision context with two islands, of one member each: `(5) x = (7)` and
`(6) x = (8)`. -/
def twoIslands : CollisionContext :=
  { getIslands := [[0], [1]],
    getSceneModel := fun col =>
      if col = 0 then some (SceneModel.sparseLinearSystem (oneDofSystem 5 7))
      else if col = 1 then some (SceneModel.sparseLinearSystem (oneDofSystem 6 8))
      else none }

/-- A device client that reports the position `(1, 0, 0)` and the identity orientation. -/
def sampleDevice : DeviceClient :=
  { getPosition := { x := 1, y := 0, z := 0 }, getOrientation := Quatd.Identity }

/-- A tracking device control as the constructor leaves it, with the given device client,
scaling, translation offset and inversion flags. -/
def sampleControl (device : Option DeviceClient) (m_invertFlags : Nat) : TrackingDeviceControl :=
  { m_deviceClient := device,
    m_currentPos := { x := 9, y := 9, z := 9 },
    m_currentRot := { w := 1, x := 2, y := 3, z := 4 },
    m_translationOffset := { x := 0, y := 1, z := 0 },
    m_rotationOffset := Quatd.Identity,
    m_scaling := 2,
    m_invertFlags := m_invertFlags,
    m_trackingDataUptoDate := false }

/-- A window stream with two slots after `addText("a", "hello")`. -/
def sampleStream : OpenGLWindowStream :=
  { totalTexts := 2,
    windowTexts :=
      [{ enabled := true, windowString := { string := "hello".toList, x := 0, y := 0 } },
       { enabled := false, windowString := WindowString.new }],
    tagMap := [(['a'], 0)],
    currentIndex := 1,
    lastTextPosition := 0,
    enabled := true }

/-- A picking handler with three contacts (two of them on node `3`), node `5` picked
already, on a model that records the nodes fixed so far. -/
def samplePicking : PBDPickingCH (List Nat) :=
  { MAColData := [{ nodeIdx := 3, penetrationVector := { x := 0, y := 0, z := 1 } },
                  { nodeIdx := 5, penetrationVector := { x := 0, y := 1, z := 0 } },
                  { nodeIdx := 3, penetrationVector := { x := 1, y := 0, z := 0 } }],
    m_pbdObj := some [],
    m_pickObj := some (CollidingGeometry.sphere
      { getPosition := { x := 0, y := 0, z := 0 }, getRadius := 2 }),
    m_isPicking := false,
    m_pickedPtIdxOffset := [(5, { x := 9, y := 9, z := 9 })] }

/-- Operations of a model that records the nodes fixed so far. -/
def sampleOps : PbdModelOps (List Nat) :=
  { setFixedPoint := fun idx model => model ++ [idx],
    setVertexPosition := fun _ _ model => model }

/-- The plane `x = 0`, with the normal `(1, 0, 0)`. -/
def samplePlane : Plane :=
  { getPosition := { x := 0, y := 0, z := 0 }, getNormal := { x := 1, y := 0, z := 0 } }

/-- Four vertices: two on the plane `x = 0`, one on each side of it. -/
def sampleVertices : List Vec3d :=
  [{ x := 0, y := 0, z := 0 }, { x := 0, y := 1, z := 0 }, { x := 1, y := 0, z := 0 },
   { x := -1, y := 0, z := 0 }]

/-- Three triangles on `sampleVertices`: two that share the edge on the plane, in opposite
directions, and one that the plane crosses through a vertex. -/
def sampleTriangles : List Vec3i :=
  [{ v0 := 0, v1 := 1, v2 := 3 }, { v0 := 1, v1 := 0, v2 := 2 }, { v0 := 0, v1 := 2, v2 := 3 }]

/-- Three vertices, one on the negative side of the plane `x = 0` and two on the positive
side. -/
def cutTriangleVertices : List Vec3d :=
  [{ x := -1, y := 0, z := 0 }, { x := 1, y := 0, z := 0 }, { x := 1, y := 1, z := 0 }]

/-- The four vertices of a tetrahedron, one on the negative side of the plane `x = 0`. -/
def tetraVertices : List Vec3d :=
  [{ x := -1, y := 0, z := 0 }, { x := 1, y := 0, z := 0 }, { x := 1, y := 1, z := 0 },
   { x := 1, y := 0, z := 1 }]

/-- The surface of the tetrahedron, a closed mesh: every vertex is an interior vertex. -/
def tetraTriangles : List Vec3i :=
  [{ v0 := 0, v1 := 1, v2 := 2 }, { v0 := 0, v1 := 2, v2 := 3 }, { v0 := 0, v1 := 3, v2 := 1 },
   { v0 := 1, v1 := 3, v2 := 2 }]

/-- The box with the corners `(-2, -2, -2)` and `(-1, -1, -1)`. -/
def negativeBox : smAABB :=
  { aabbMin := { x := -2, y := -2, z := -2 }, aabbMax := { x := -1, y := -1, z := -1 } }

/-- The cube with the corners `(lo, lo, lo)` and `(hi, hi, hi)`. -/
def cubeBox (lo hi : ℚ) : smAABB :=
  { aabbMin := { x := lo, y := lo, z := lo }, aabbMax := { x := hi, y := hi, z := hi } }

/-- An overlap test for two boxes: their intervals meet on each of the three axes. -/
def intervalOverlap (a b : smAABB) : Bool :=
  decide (a.aabbMin.x ≤ b.aabbMax.x ∧ b.aabbMin.x ≤ a.aabbMax.x ∧
    a.aabbMin.y ≤ b.aabbMax.y ∧ b.aabbMin.y ≤ a.aabbMax.y ∧
    a.aabbMin.z ≤ b.aabbMax.z ∧ b.aabbMin.z ≤ a.aabbMax.z)

/-- A tree with two leaves below its root (and a null pointer between them). -/
def sampleTree : SurfaceTreeCell :=
  .mk (cubeBox 0 4) false
    [some (.mk (cubeBox 0 1) true []), none, some (.mk (cubeBox 3 4) true [])]

/-- A tree that is a single leaf. -/
def sampleLeaf : SurfaceTreeCell := .mk (cubeBox 3 5) true []

/-- The quaternion of the half turn about the `z` axis. -/
def halfTurnZ : Quatd := { w := 0, x := 0, y := 0, z := 1 }

/-- A stand-in for the float routines of the camera: a square root that is exact on the
squares of rationals, and the identity for the two quaternion routines. -/
def sampleMath : CameraMath :=
  { sqrt := Rat.sqrt,
    quaternionOfAxes := fun _ _ _ => Quatd.Identity,
    angleAxis := fun _ _ => Quatd.Identity }

/-- A camera whose view matrix has been fetched: constructed, given the identity for
orientation, and asked for its view matrix. -/
def viewedCamera (m : CameraMath) : smCamera :=
  (((smCamera.new Quatd.Identity []).setOrientation Quatd.Identity).getViewMat m).2

/-- Two triangles that share the edge from vertex `0` to vertex `2`: an open fan around
the vertex `0`. -/
def openFanTriangles : List Vec3i :=
  [{ v0 := 0, v1 := 1, v2 := 2 }, { v0 := 0, v1 := 2, v2 := 3 }]

/-! ## Properties of MeshReader -/

theorem lastIndexOf_eq_none (c : Char) (s : List Char) (h : c ∉ s) : lastIndexOf c s = none := by
  induction s with
  | nil => rfl
  | cons x xs ih =>
    have hx : ¬ x = c := fun e => h (by simp [e])
    have hxs : c ∉ xs := fun m => h (List.mem_cons_of_mem _ m)
    simp [lastIndexOf, ih hxs, hx]

theorem lastIndexOf_append_cons (c : Char) (p e : List Char) (h : c ∉ e) :
    lastIndexOf c (p ++ c :: e) = some p.length := by
  induction p with
  | nil => simp [lastIndexOf, lastIndexOf_eq_none c e h]
  | cons x xs ih => simp [lastIndexOf, ih]

theorem lastIndexOf_lt (c : Char) (s : List Char) (k : Nat) (h : lastIndexOf c s = some k) :
    k < s.length := by
  induction s generalizing k with
  | nil => simp [lastIndexOf] at h
  | cons x xs ih =>
    simp only [lastIndexOf] at h
    cases hxs : lastIndexOf c xs with
    | some m =>
      rw [hxs] at h
      have := ih m hxs
      simp only [Option.some.injEq] at h
      simp only [List.length_cons]
      omega
    | none =>
      rw [hxs] at h
      by_cases hx : x = c
      · simp only [hx, if_true, Option.some.injEq] at h
        simp only [List.length_cons]
        omega
      · simp [hx] at h

/-- The function `getFileType` never raises: the argument of `substr` is at most the
length of the path. -/
theorem getFileType_never_raises (filePath : List Char) :
    ∃ t, getFileType filePath = .ok t := by
  have hpos : (find_last_of filePath '.' + 1) % 2 ^ 64 ≤ filePath.length := by
    unfold find_last_of
    cases h : lastIndexOf '.' filePath with
    | some k =>
      have hk := lastIndexOf_lt '.' filePath k h
      exact le_trans (Nat.mod_le _ _) hk
    | none => simp [npos]
  have hsub : substr filePath ((find_last_of filePath '.' + 1) % 2 ^ 64)
      = .ok (filePath.drop ((find_last_of filePath '.' + 1) % 2 ^ 64)) := by
    unfold substr
    rw [if_neg (by omega)]
  unfold getFileType
  rw [hsub]
  simp only [bind, Except.bind]
  split <;> exact ⟨_, rfl⟩

theorem extensionTable_sound (e : List Char) (t : FileType) (h : (e, t) ∈ extensionTable) :
    '.' ∉ e ∧ e.isEmpty = false ∧ fileTypeOfExtension e = t := by
  simp only [extensionTable, List.mem_cons, Prod.mk.injEq, List.mem_nil_iff, or_false] at h
  rcases h with h | h | h | h | h | h | h | h | h | h | h | h | h | h <;>
    (obtain ⟨rfl, rfl⟩ := h; decide)

theorem getFileType_of_dot (p e : List Char) (hsize : (p ++ '.' :: e).length < npos)
    (hdot : '.' ∉ e) :
    getFileType (p ++ '.' :: e) =
      .ok (if e.isEmpty then FileType.UNKNOWN else fileTypeOfExtension e) := by
  have hfind : find_last_of (p ++ '.' :: e) '.' = p.length := by
    simp [find_last_of, lastIndexOf_append_cons '.' p e hdot]
  have hlen : p.length + 1 < 2 ^ 64 := by
    simp only [List.length_append, List.length_cons, npos] at hsize
    omega
  have hsub : substr (p ++ '.' :: e) ((find_last_of (p ++ '.' :: e) '.' + 1) % 2 ^ 64) = .ok e := by
    rw [hfind, Nat.mod_eq_of_lt hlen]
    unfold substr
    rw [if_neg (by simp)]
    congr 1
    rw [show p ++ '.' :: e = (p ++ ['.']) ++ e by simp]
    exact List.drop_left' (by simp)
  unfold getFileType
  rw [hsub]
  cases e <;> rfl

/-- A path with a `'.'` whose extension is none of the fourteen strings of the dispatch
table has the file type `UNKNOWN`. -/
theorem getFileType_unlisted_extension (p e : List Char)
    (hsize : (p ++ '.' :: e).length < npos) (hdot : '.' ∉ e)
    (h : ∀ t, (e, t) ∉ extensionTable) :
    getFileType (p ++ '.' :: e) = .ok FileType.UNKNOWN := by
  rw [getFileType_of_dot p e hsize hdot]
  cases he : e.isEmpty with
  | true => rfl
  | false =>
    have hne : ∀ x, x ∈ extensionTable.map Prod.fst → e ≠ x := by
      intro x hx heq
      obtain ⟨⟨y, t⟩, hmem, hy⟩ := List.mem_map.mp hx
      simp only at hy
      exact h t (by rw [heq, ← hy]; exact hmem)
    simp only [Bool.false_eq_true, ↓reduceIte, fileTypeOfExtension]
    rw [if_neg, if_neg, if_neg, if_neg, if_neg, if_neg, if_neg] <;>
      (intro hor; rcases hor with hor | hor <;> exact hne _ (by decide) hor)

/-- For a path without any `'.'`, `find_last_of` gives `npos`, `npos + 1` wraps to `0`, and
the whole path is looked up as the extension. -/
theorem getFileType_dotless (filePath : List Char) (hdot : '.' ∉ filePath) :
    getFileType filePath =
      .ok (if filePath.isEmpty then FileType.UNKNOWN else fileTypeOfExtension filePath) := by
  have hsub : substr filePath ((find_last_of filePath '.' + 1) % 2 ^ 64) = .ok filePath := by
    simp [find_last_of, lastIndexOf_eq_none '.' filePath hdot, npos, substr]
  unfold getFileType
  rw [hsub]
  cases filePath <;> rfl

/-- C1: for every path of the form `p ++ "." ++ e`, where `e` is one of the fourteen
extension strings of the dispatch table (so that `e` is the substring after the last
`'.'`), `getFileType` returns the file type the table gives for `e`. -/
theorem getFileType_listed_extension (p e : List Char) (t : FileType)
    (hsize : (p ++ '.' :: e).length < npos) (h : (e, t) ∈ extensionTable) :
    getFileType (p ++ '.' :: e) = .ok t := by
  obtain ⟨hdot, hne, ht⟩ := extensionTable_sound e t h
  rw [getFileType_of_dot p e hsize hdot, hne, ← ht]
  rfl

theorem getFileType_listed_extension_witness :
    ("mesh" : String).toList ++ '.' :: ['V', 'E', 'G'] = "mesh.VEG".toList ∧
    getFileType ("mesh".toList ++ '.' :: ['V', 'E', 'G']) = .ok FileType.VEG :=
  ⟨by decide, getFileType_listed_extension "mesh".toList ['V', 'E', 'G'] FileType.VEG
    (by decide) (by decide)⟩

/-- C2 (the code at the failing input): the path `vtk` contains no `'.'`, yet
`getFileType` returns `VTK` for it, not `UNKNOWN`: `find_last_of` gives `npos`, `npos + 1`
wraps to `0`, and the whole path is taken for the extension. -/
theorem getFileType_dotless_path_vtk :
    '.' ∉ ['v', 't', 'k'] ∧ getFileType ['v', 't', 'k'] = .ok FileType.VTK := by
  decide

/-- C3: `read` returns a null mesh and calls no backend reader, without raising, when the
file does not exist, and when `getFileType` gives `UNKNOWN` for it. -/
theorem read_absent_without_backend {Mesh : Type} (fileExists : List Char → Bool)
    (vtkRead vegaRead : List Char → FileType → Option Mesh) (filePath : List Char)
    (h : fileExists filePath = false ∨ getFileType filePath = .ok FileType.UNKNOWN) :
    read fileExists vtkRead vegaRead filePath = .ok (none, []) := by
  unfold read
  cases hex : fileExists filePath with
  | false => rfl
  | true =>
    rcases h with h | h
    · rw [hex] at h
      cases h
    · simp only [Bool.not_true, Bool.false_eq_true, ↓reduceIte, h]
      rfl

theorem read_absent_without_backend_witness :
    read (fun _ => false) (fun _ _ => some ()) (fun _ _ => some ()) "mesh.vtk".toList
        = .ok (none, []) ∧
    read (fun _ => true) (fun _ _ => some ()) (fun _ _ => some ()) "mesh.xyz".toList
        = .ok (none, []) :=
  ⟨read_absent_without_backend _ _ _ _ (Or.inl rfl),
   read_absent_without_backend _ _ _ _ (Or.inr (by decide))⟩

/-! ## Properties of IterativeLinearSolver -/

theorem callIterate_iterateCalls {σ : Type}
    (iterate : Vectord × Vectord × σ → Vectord × Vectord × σ) (k : Nat) (s : SolveState σ) :
    ((callIterate iterate)^[k] s).iterateCalls = s.iterateCalls + k := by
  induction k generalizing s with
  | zero => rfl
  | succ k ih =>
    rw [Function.iterate_succ_apply, ih]
    simp only [callIterate]
    omega

/-- The loop of `solve` stops after the least number `k` of calls of `iterate` after which
the residual test succeeds, and after all `n` rounds when there is no such `k < n`. -/
theorem solveLoop_spec {σ : Type} (iterate : Vectord × Vectord × σ → Vectord × Vectord × σ)
    (epsilon : ℚ) (n : Nat) (s : SolveState σ) :
    ∃ k, k ≤ n ∧ solveLoop iterate epsilon n s = (callIterate iterate)^[k] s ∧
      (∀ j, j < k → ¬ squaredNorm ((callIterate iterate)^[j] s).m_residual < epsilon) ∧
      (k < n → squaredNorm ((callIterate iterate)^[k] s).m_residual < epsilon) := by
  induction n generalizing s with
  | zero => exact ⟨0, le_refl 0, rfl, fun j hj => absurd hj (Nat.not_lt_zero j), fun h => absurd h (Nat.lt_irrefl 0)⟩
  | succ n ih =>
    by_cases hconv : squaredNorm s.m_residual < epsilon
    · refine ⟨0, Nat.zero_le _, ?_, fun j hj => absurd hj (Nat.not_lt_zero j), fun _ => hconv⟩
      simp [solveLoop, hconv]
    · obtain ⟨k, hk, heq, hbefore, hat⟩ := ih (callIterate iterate s)
      refine ⟨k + 1, Nat.succ_le_succ hk, ?_, ?_, ?_⟩
      · simp only [solveLoop, if_neg hconv, heq, Function.iterate_succ_apply]
      · intro j hj
        cases j with
        | zero => simpa using hconv
        | succ j =>
          rw [Function.iterate_succ_apply]
          exact hbefore j (Nat.lt_of_succ_lt_succ hj)
      · intro hlt
        rw [Function.iterate_succ_apply]
        exact hat (Nat.lt_of_succ_lt_succ hlt)

/-- C4: with a linear system attached, `solve(x)` first stores the residual of `x` and then
calls `iterate` exactly `k` times, where `k ≤ m_maxIterations` is the least number of calls
after which `m_residual.squaredNorm() < m_tolerance * m_tolerance`, and
`k = m_maxIterations` when there is no such number below `m_maxIterations`. In particular
no call is made and `x` is unchanged when the initial residual passes the test, and
exactly `m_maxIterations` calls are made when the test never passes; a solver from the
constructor has `m_maxIterations = 100`. -/
theorem solve_iterate_count {σ : Type} (self : IterativeLinearSolver)
    (iterate : Vectord × Vectord × σ → Vectord × Vectord × σ) (s : SolveState σ)
    (linearSystem : LinearSystem) (h : self.m_linearSystem = some linearSystem) :
    (∃ k, k ≤ self.m_maxIterations ∧
      self.solve iterate s
        = (callIterate iterate)^[k] { s with m_residual := linearSystem.computeResidual s.x } ∧
      (self.solve iterate s).iterateCalls = s.iterateCalls + k ∧
      (∀ j, j < k → ¬ squaredNorm ((callIterate iterate)^[j]
          { s with m_residual := linearSystem.computeResidual s.x }).m_residual
            < self.m_tolerance * self.m_tolerance) ∧
      (k < self.m_maxIterations → squaredNorm ((callIterate iterate)^[k]
          { s with m_residual := linearSystem.computeResidual s.x }).m_residual
            < self.m_tolerance * self.m_tolerance)) ∧
    (squaredNorm (linearSystem.computeResidual s.x) < self.m_tolerance * self.m_tolerance →
      (self.solve iterate s).iterateCalls = s.iterateCalls ∧ (self.solve iterate s).x = s.x) ∧
    ((∀ j, j < self.m_maxIterations → ¬ squaredNorm ((callIterate iterate)^[j]
          { s with m_residual := linearSystem.computeResidual s.x }).m_residual
            < self.m_tolerance * self.m_tolerance) →
      (self.solve iterate s).iterateCalls = s.iterateCalls + self.m_maxIterations) ∧
    (IterativeLinearSolver.new self.m_linearSystem self.m_tolerance).m_maxIterations = 100 := by
  have hsolve : self.solve iterate s
      = solveLoop iterate (self.m_tolerance * self.m_tolerance) self.m_maxIterations
          { s with m_residual := linearSystem.computeResidual s.x } := by
    simp only [IterativeLinearSolver.solve, h]
  obtain ⟨k, hk, heq, hbefore, hat⟩ := solveLoop_spec iterate
    (self.m_tolerance * self.m_tolerance) self.m_maxIterations
    { s with m_residual := linearSystem.computeResidual s.x }
  have hcalls : (self.solve iterate s).iterateCalls = s.iterateCalls + k := by
    rw [hsolve, heq, callIterate_iterateCalls]
  refine ⟨⟨k, hk, hsolve.trans heq, hcalls, hbefore, hat⟩, ?_, ?_, rfl⟩
  · intro hconv
    have hk0 : k = 0 := by
      by_contra hne
      exact hbefore 0 (Nat.pos_of_ne_zero hne) hconv
    subst hk0
    refine ⟨hcalls, ?_⟩
    rw [hsolve, heq]
    rfl
  · intro hnever
    have hkmax : k = self.m_maxIterations := by
      by_contra hne
      have hlt : k < self.m_maxIterations := lt_of_le_of_ne hk hne
      exact hnever k hlt (hat hlt)
    rw [hcalls, hkmax]

theorem solve_iterate_count_witness :
    ((IterativeLinearSolver.new (some { computeResidual := fun _ => [] }) 1).solve
        (fun t : Vectord × Vectord × Unit => t)
        { x := [2], m_residual := [5], derived := (), iterateCalls := 0 }).iterateCalls = 0 ∧
    ((IterativeLinearSolver.new (some { computeResidual := fun _ => [] }) 1).solve
        (fun t : Vectord × Vectord × Unit => t)
        { x := [2], m_residual := [5], derived := (), iterateCalls := 0 }).x = [2] ∧
    ((IterativeLinearSolver.new (some { computeResidual := fun x => x }) 1).solve
        (fun t : Vectord × Vectord × Unit => t)
        { x := [2], m_residual := [5], derived := (), iterateCalls := 0 }).iterateCalls = 100 := by
  have hstay : ∀ j : Nat, ((callIterate (fun t : Vectord × Vectord × Unit => t))^[j]
      { x := [2], m_residual := [2], derived := (), iterateCalls := 0 }).m_residual = [2] := by
    intro j
    induction j with
    | zero => rfl
    | succ j ih =>
      rw [Function.iterate_succ_apply']
      exact ih
  have h0 := (solve_iterate_count
    (IterativeLinearSolver.new (some { computeResidual := fun _ => [] }) 1)
    (fun t : Vectord × Vectord × Unit => t)
    { x := [2], m_residual := [5], derived := (), iterateCalls := 0 }
    { computeResidual := fun _ => [] } rfl).2.1 (by norm_num [squaredNorm, IterativeLinearSolver.new])
  have h100 := (solve_iterate_count
    (IterativeLinearSolver.new (some { computeResidual := fun x => x }) 1)
    (fun t : Vectord × Vectord × Unit => t)
    { x := [2], m_residual := [5], derived := (), iterateCalls := 0 }
    { computeResidual := fun x => x } rfl).2.2.1
    (by
      intro j _
      have hj := hstay j
      simp only [] at hj ⊢
      rw [hj]
      norm_num [squaredNorm, IterativeLinearSolver.new])
  exact ⟨h0.1, h0.2, by simpa [IterativeLinearSolver.new] using h100⟩

/-! ## Properties of Assembler -/

/-- The outer loop of `concatenateMatrix` cannot complete once one of the outer indices it
still has to visit lies outside `Q`. -/
theorem concatenateOuter_faults (order : StorageOrder) (Q : SparseMatrixd) (j n k : Nat)
    (R : SparseMatrixd) (hn : 0 < n) (hk : Q.outerSize order < k + n) :
    ∃ f, concatenateOuter order Q j n k R = .error f := by
  induction n generalizing k R with
  | zero => exact absurd hn (Nat.lt_irrefl 0)
  | succ n ih =>
    by_cases hin : k < Q.outerSize order
    · have hit : Q.innerIterator order k
          = .ok (Q.entries.filter (fun e => decide (outerIndex order e = k))) := by
        simp [SparseMatrixd.innerIterator, hin]
      simp only [concatenateOuter, hit, bind, Except.bind]
      cases hinner : concatenateInner R k j
          (Q.entries.filter (fun e => decide (outerIndex order e = k))) with
      | error f => exact ⟨f, rfl⟩
      | ok R1 => exact ih (k + 1) R1 (by omega) (by omega)
    · refine ⟨Fault.outerIndexOutOfRange k (Q.outerSize order), ?_⟩
      simp [concatenateOuter, SparseMatrixd.innerIterator, hin, bind, Except.bind]

/-- For every row (and column) offset `i > 0`, `concatenateMatrix(Q, R, i, j)` runs into an
outer index outside `Q` (or into an earlier fault), whatever `R` and `j` are, as soon as
`Q` has an outer index at all. -/
theorem concatenateMatrix_faults_of_offset (order : StorageOrder) (Q R : SparseMatrixd)
    (i j : Nat) (hQ : 0 < Q.outerSize order) (hi : 0 < i) :
    ∃ f, concatenateMatrix order Q R i j = .error f :=
  concatenateOuter_faults order Q j (Q.outerSize order) i R hQ (by omega)

/-- C5 (the code at the failing input): for one island of two members with `2 × 2` identity
matrices, `initSystem` does not produce the `4 × 4` matrix with the blocks at offsets `0`
and `2`: copying the second block, `concatenateMatrix(M, A.back(), 2, 2)` asks for the
outer index `2` of the `2 × 2` matrix `M`, out of its range. -/
theorem initSystem_two_identity_blocks (order : StorageOrder) (junk : Nat → ℚ) :
    Assembler.new order junk (some twoIdentityBlocks)
      = .error (Fault.outerIndexOutOfRange 2 2) ∧
    concatenateMatrix order (SparseMatrixd.identity 2)
        { rows := 4, cols := 4, entries := [(0, 0, 1), (1, 1, 1)] } 2 2
      = .error (Fault.outerIndexOutOfRange 2 2) := by
  cases order <;> exact ⟨rfl, rfl⟩

/-- C6 (the code at the failing input): for one island of the single member `(5) x = (r)`,
`initSystem` assembles the matrix `(5)` but leaves `b` as it was allocated, whatever the
right-hand side `r` is: `b.back().segment(size, rhs.size())` assigns nothing. -/
theorem initSystem_rhs_not_copied (order : StorageOrder) (junk : Nat → ℚ) (r : ℚ) :
    (Assembler.new order junk (some (singleMember r))).toOption.map (fun self => (self.A, self.b))
      = some ([{ rows := 1, cols := 1, entries := [(0, 0, 5)] }], [[junk 0]]) := by
  cases order <;> rfl

/-- C7 (the code at the failing input): for two islands of one member each, the second
island's loop runs over the `equationList` that still holds the first island's member, so
the first island's block `(5)` is copied into the second island's `1 × 1` matrix, the
second member is placed at offset `1`, and `concatenateMatrix` asks for the outer index
`1` of its `1 × 1` matrix, out of its range. -/
theorem initSystem_second_island_sees_first (order : StorageOrder) (junk : Nat → ℚ) :
    Assembler.new order junk (some twoIslands) = .error (Fault.outerIndexOutOfRange 1 1) ∧
    gatherIsland twoIslands.getSceneModel [1] ([oneDofSystem 5 7], 0, 0)
      = ([oneDofSystem 5 7, oneDofSystem 6 8], 1, 1) ∧
    concatenateMatrix order (oneDofSystem 5 7).getMatrix { rows := 1, cols := 1, entries := [] } 0 0
      = .ok { rows := 1, cols := 1, entries := [(0, 0, 5)] } ∧
    assembleEquations order (Vectord.uninitialized junk 1) [oneDofSystem 5 7, oneDofSystem 6 8]
        { rows := 1, cols := 1, entries := [] } 0
      = .error (Fault.outerIndexOutOfRange 1 1) := by
  cases order <;> exact ⟨rfl, rfl, rfl, rfl⟩

/-- C8 (the code at the failing input): `concatenateMatrix(Q, R, 1, 1)` for the `1 × 1`
matrix `Q = (5)` and an empty `2 × 2` matrix `R` does not set `R(1, 1) = 5`: the loop
over `k` starts at `i = 1` and builds `InnerIterator it(Q, k)` with that `k`, the outer
index `1`, out of the range of `Q`. -/
theorem concatenateMatrix_offset_out_of_range (order : StorageOrder) :
    concatenateMatrix order { rows := 1, cols := 1, entries := [(0, 0, 5)] }
        { rows := 2, cols := 2, entries := [] } 1 1
      = .error (Fault.outerIndexOutOfRange 1 1) := by
  cases order <;> rfl

/-! ## Properties of TrackingDeviceControl -/

theorem updateTrackingData_currentPos (F : InvertFlag) (self : TrackingDeviceControl)
    (device : DeviceClient) (h : self.m_deviceClient = some device) :
    (self.updateTrackingData F).2.m_currentPos
      = ((self.m_rotationOffset.transformVector
            (invertedPosition F self.m_invertFlags device.getPosition)).scale
          self.m_scaling).add self.m_translationOffset := by
  simp only [TrackingDeviceControl.updateTrackingData, h, invertedPosition]
  cases flagSet self.m_invertFlags F.transX <;> cases flagSet self.m_invertFlags F.transY <;>
    cases flagSet self.m_invertFlags F.transZ <;> rfl

/-- C9: with a device client attached, `updateTrackingData` sets the current position to
`rotationOffset * p * scaling + translationOffset`, where `p` is the raw device position
with the components negated whose flags `transX`, `transY`, `transZ` are set; for the
identity rotation offset, raw position `(1, 0, 0)`, scaling `2` and translation offset
`(0, 1, 0)` this is `(2, 1, 0)`, and `(-2, 1, 0)` when `transX` is set. -/
theorem updateTrackingData_position (F : InvertFlag) (self : TrackingDeviceControl)
    (device : DeviceClient) (h : self.m_deviceClient = some device) :
    (self.updateTrackingData F).2.m_currentPos
      = ((self.m_rotationOffset.transformVector
            (invertedPosition F self.m_invertFlags device.getPosition)).scale
          self.m_scaling).add self.m_translationOffset ∧
    (self.m_rotationOffset = Quatd.Identity → device.getPosition = { x := 1, y := 0, z := 0 } →
      self.m_scaling = 2 → self.m_translationOffset = { x := 0, y := 1, z := 0 } →
      (self.updateTrackingData F).2.m_currentPos
        = if flagSet self.m_invertFlags F.transX then { x := -2, y := 1, z := 0 }
          else { x := 2, y := 1, z := 0 }) := by
  refine ⟨updateTrackingData_currentPos F self device h, ?_⟩
  intro hrot hpos hscale htrans
  rw [updateTrackingData_currentPos F self device h, hrot, hpos, hscale, htrans]
  cases hx : flagSet self.m_invertFlags F.transX <;>
    simp [invertedPosition, hx, Quatd.transformVector, Quatd.Identity, Quatd.vec, Vec3d.cross,
      Vec3d.add, Vec3d.scale, Vec3d.smul]

theorem updateTrackingData_position_witness :
    ((sampleControl (some sampleDevice) 0).updateTrackingData InvertFlag.bitmask).2.m_currentPos
      = { x := 2, y := 1, z := 0 } ∧
    ((sampleControl (some sampleDevice) 1).updateTrackingData InvertFlag.bitmask).2.m_currentPos
      = { x := -2, y := 1, z := 0 } :=
  ⟨(updateTrackingData_position InvertFlag.bitmask
      (sampleControl (some sampleDevice) 0) _ rfl).2 rfl rfl rfl rfl,
   (updateTrackingData_position InvertFlag.bitmask
      (sampleControl (some sampleDevice) 1) _ rfl).2 rfl rfl rfl rfl⟩

/-- C10: `updateTrackingData` returns `false` exactly when no device client is attached,
and then leaves the object (current position, current rotation and up-to-date flag
included) unchanged; otherwise it returns `true` and sets the up-to-date flag. -/
theorem updateTrackingData_return (F : InvertFlag) (self : TrackingDeviceControl) :
    ((self.updateTrackingData F).1 = false ↔ self.m_deviceClient = none) ∧
    (self.m_deviceClient = none → (self.updateTrackingData F).2 = self) ∧
    (self.m_deviceClient ≠ none →
      (self.updateTrackingData F).1 = true ∧
      (self.updateTrackingData F).2.m_trackingDataUptoDate = true) := by
  cases h : self.m_deviceClient with
  | none => simp [TrackingDeviceControl.updateTrackingData, h]
  | some device => simp [TrackingDeviceControl.updateTrackingData, h]

theorem updateTrackingData_return_witness :
    ((sampleControl none 0).updateTrackingData InvertFlag.bitmask).2 = sampleControl none 0 ∧
    ((sampleControl (some sampleDevice) 0).updateTrackingData InvertFlag.bitmask).1 = true ∧
    ((sampleControl (some sampleDevice) 0).updateTrackingData
          InvertFlag.bitmask).2.m_trackingDataUptoDate = true :=
  ⟨(updateTrackingData_return InvertFlag.bitmask (sampleControl none 0)).2.1 rfl,
   (updateTrackingData_return InvertFlag.bitmask
      (sampleControl (some sampleDevice) 0)).2.2 (by simp [sampleControl])⟩

/-! ## Properties of AbstractDynamicalModel -/

/-- C14: `isGeometryValid(g)` is true exactly when `g` is a non-null geometry and the set
of accepted types is empty or contains the type of `g`; `setModelGeometry(g)` stores `g`
when `isGeometryValid(g)` holds and leaves the model as it was otherwise. -/
theorem setModelGeometry_valid_iff {G T : Type} [DecidableEq T] (getType : G → T)
    (self : AbstractDynamicalModel G T) (geometry : Option G) :
    (self.isGeometryValid getType geometry = true ↔
      ∃ g, geometry = some g ∧
        (self.m_validGeometryTypes = [] ∨ getType g ∈ self.m_validGeometryTypes)) ∧
    (self.isGeometryValid getType geometry = true →
      (self.setModelGeometry getType geometry).m_geometry = geometry ∧
      (self.setModelGeometry getType geometry).m_validGeometryTypes
        = self.m_validGeometryTypes) ∧
    (self.isGeometryValid getType geometry = false →
      self.setModelGeometry getType geometry = self) := by
  refine ⟨?_, ?_, ?_⟩
  · cases geometry with
    | none => simp [AbstractDynamicalModel.isGeometryValid]
    | some g =>
      by_cases hempty : self.m_validGeometryTypes = []
      · simp [AbstractDynamicalModel.isGeometryValid, hempty]
      · have hlen : self.m_validGeometryTypes.length ≠ 0 := by
          simpa using hempty
        simp [AbstractDynamicalModel.isGeometryValid, hempty, List.count_eq_zero]
  · intro h
    simp [AbstractDynamicalModel.setModelGeometry, h]
  · intro h
    simp [AbstractDynamicalModel.setModelGeometry, h]

theorem setModelGeometry_valid_iff_witness :
    (({ m_validGeometryTypes := [1, 2], m_geometry := some 7 } :
        AbstractDynamicalModel Nat Nat).setModelGeometry (fun g => g % 3) (some 5)).m_geometry
      = some 5 ∧
    ({ m_validGeometryTypes := [1, 2], m_geometry := some 7 } :
        AbstractDynamicalModel Nat Nat).setModelGeometry (fun g => g % 3) (some 6)
      = { m_validGeometryTypes := [1, 2], m_geometry := some 7 } :=
  ⟨((setModelGeometry_valid_iff (fun g => g % 3)
      ({ m_validGeometryTypes := [1, 2], m_geometry := some 7 } : AbstractDynamicalModel Nat Nat)
      (some 5)).2.1 (by decide)).1,
   (setModelGeometry_valid_iff (fun g => g % 3)
      ({ m_validGeometryTypes := [1, 2], m_geometry := some 7 } : AbstractDynamicalModel Nat Nat)
      (some 6)).2.2 (by decide)⟩

/-! ## Properties of OpenGLWindowStream -/

theorem modifyText_ok (windowTexts : List WindowData) (k : Nat) (f : WindowData → WindowData)
    (d : WindowData) (h : windowTexts[k]? = some d) :
    modifyText windowTexts (k : Int) f = .ok (windowTexts.set k (f d)) := by
  have hneg : ¬ ((k : Int) < 0) := by omega
  simp [modifyText, hneg, h]

theorem nextIndex_ok (k n : Nat) (hn : 1 ≤ n) :
    nextIndex ((k % n : Nat) : Int) (n : Int) = .ok (((k + 1) % n : Nat) : Int) := by
  have hn0 : (n : Int) ≠ 0 := by omega
  have hmod : Int.tmod (((k % n : Nat) : Int) + 1) (n : Int) = (((k + 1) % n : Nat) : Int) := by
    rw [Int.tmod_eq_emod (by omega) (by omega)]
    have : (((k % n : Nat) : Int) + 1) = ((k % n + 1 : Nat) : Int) := by push_cast; ring
    rw [this, ← Int.natCast_mod]
    congr 1
    rw [Nat.add_mod k 1 n, Nat.add_mod (k % n) 1 n, Nat.mod_mod]
  unfold nextIndex
  rw [if_neg hn0, hmod]

/-- One call of `addText(tag, string)` on a stream with `n ≥ 1` slots whose current index
is `k % n`: the string goes to the slot `k % n`, which is enabled, the tag is mapped to
this slot, and the index moves to `(k + 1) % n`, which is also the value returned. -/
theorem addText_step (self : OpenGLWindowStream) (n k : Nat) (hn : 1 ≤ n)
    (htotal : self.totalTexts = (n : Int)) (hlen : self.windowTexts.length = n)
    (hcur : self.currentIndex = ((k % n : Nat) : Int)) (p_tag p_string : List Char) :
    self.addText p_tag p_string = .ok ((((k + 1) % n : Nat) : Int),
      { self with
        tagMap := assocSet p_tag ((k % n : Nat) : Int) self.tagMap,
        windowTexts := self.windowTexts.set (k % n)
          { enabled := true,
            windowString := { string := p_string, x := 0, y := self.lastTextPosition } },
        currentIndex := (((k + 1) % n : Nat) : Int) }) := by
  have hlt : k % n < self.windowTexts.length := by
    rw [hlen]
    exact Nat.mod_lt _ (by omega)
  obtain ⟨d, hd⟩ : ∃ d, self.windowTexts[k % n]? = some d :=
    ⟨self.windowTexts[k % n], List.getElem?_eq_getElem hlt⟩
  have h1 := modifyText_ok self.windowTexts (k % n) (fun d => { d with enabled := true }) d hd
  have hd2 : (self.windowTexts.set (k % n) { d with enabled := true })[k % n]?
      = some { d with enabled := true } := by
    simp [List.getElem?_set, hlt]
  have h2 := modifyText_ok (self.windowTexts.set (k % n) { d with enabled := true }) (k % n)
    (fun d => { d with windowString :=
      { string := p_string, x := 0, y := self.lastTextPosition } }) _ hd2
  simp only [OpenGLWindowStream.addText, hcur, htotal, h1, h2, nextIndex_ok k n hn, bind,
    Except.bind, pure, Except.pure, List.set_set]

/-- C15 (the code at the failing input): on a stream with two slots, `addText("a", "hello")`
stores the string in slot `0` and maps the tag to `0`, but returns `1`, the index after
the increment; `updateText(1, "bye")` then replaces the text of slot `1` and
`updateText("a", "bye")` the text of slot `0`. -/
theorem addText_returns_next_slot :
    (do let s0 ← OpenGLWindowStream.init 2
        let r ← s0.addText ['a'] "hello".toList
        return (r.1, r.2.tagMap.lookup ['a'], r.2.windowTexts.map (fun d : WindowData => d.windowString.string)))
      = .ok (1, some 0, ["hello".toList, []]) ∧
    (do let s0 ← OpenGLWindowStream.init 2
        let r ← s0.addText ['a'] "hello".toList
        let u ← r.2.updateTextByHandle 16 r.1 "bye".toList
        return u.2.windowTexts.map (fun d : WindowData => d.windowString.string))
      = .ok ["hello".toList, "bye".toList] ∧
    (do let s0 ← OpenGLWindowStream.init 2
        let r ← s0.addText ['a'] "hello".toList
        let u ← r.2.updateTextByTag 16 ['a'] "bye".toList
        return u.2.windowTexts.map (fun d : WindowData => d.windowString.string))
      = .ok ["bye".toList, []] := by
  decide

/-- C17: for a string longer than `IMSTK_WINDOW_MAXSTRINGSIZE`, both overloads of
`updateText` return `false` and leave the whole object, the texts, the enabled flags and
the tag map included, unchanged. -/
theorem updateText_rejects_long_string (maxStringSize : Nat) (self : OpenGLWindowStream)
    (p_tag : List Char) (p_textHandle : Int) (p_string : List Char)
    (h : p_string.length > maxStringSize) :
    self.updateTextByTag maxStringSize p_tag p_string = .ok (false, self) ∧
    self.updateTextByHandle maxStringSize p_textHandle p_string = .ok (false, self) := by
  simp [OpenGLWindowStream.updateTextByTag, OpenGLWindowStream.updateTextByHandle, h]

theorem updateText_rejects_long_string_witness :
    sampleStream.updateTextByTag 4 ['a'] "hello".toList = .ok (false, sampleStream) ∧
    sampleStream.updateTextByHandle 4 0 "hello".toList = .ok (false, sampleStream) :=
  updateText_rejects_long_string 4 sampleStream ['a'] 0 "hello".toList (by decide)

theorem addTexts_append (self : OpenGLWindowStream) (l1 l2 : List (List Char × List Char)) :
    self.addTexts (l1 ++ l2) = (self.addTexts l1).bind (fun s => s.addTexts l2) := by
  induction l1 generalizing self with
  | nil => rfl
  | cons c rest ih =>
    obtain ⟨p_tag, p_string⟩ := c
    simp only [List.cons_append, OpenGLWindowStream.addTexts, bind, Except.bind]
    cases self.addText p_tag p_string with
    | error e => rfl
    | ok r => exact ih r.2

theorem mod_ne_of_lt_of_lt (n k m : Nat) (hkm : k < m) (hmk : m < k + n) : k % n ≠ m % n := by
  intro h
  have hdvd : n ∣ m - k := (Nat.modEq_iff_dvd' (Nat.le_of_lt hkm)).1 h
  have hle := Nat.le_of_dvd (by omega) hdvd
  omega

/-- After the calls `addText(tag, string)` of the list `calls` on a fresh stream with
`n ≥ 1` slots, the current index is `calls.length % n` and the slot `k % n` holds the
string of the call number `k`, for each of the last `n` calls. -/
theorem addTexts_invariant (n : Nat) (hn : 1 ≤ n) (calls : List (List Char × List Char)) :
    ∃ s0 s, OpenGLWindowStream.init (n : Int) = .ok s0 ∧ s0.addTexts calls = .ok s ∧
      s.totalTexts = (n : Int) ∧ s.windowTexts.length = n ∧
      s.currentIndex = ((calls.length % n : Nat) : Int) ∧ s.lastTextPosition = 0 ∧
      ∀ k c, calls[k]? = some c → calls.length ≤ k + n →
        s.windowTexts[k % n]? = some
          { enabled := true, windowString := { string := c.2, x := 0, y := 0 } } := by
  have hinit : OpenGLWindowStream.init (n : Int) = .ok
      { totalTexts := (n : Int),
        windowTexts := List.replicate n { enabled := false, windowString := WindowString.new },
        tagMap := [], currentIndex := 0, lastTextPosition := 0, enabled := true } := by
    have hneg : ¬ ((n : Int) < 0) := by omega
    simp [OpenGLWindowStream.init, hneg]
  obtain ⟨s0, h0, ht, hl, hc, hp⟩ : ∃ s0, OpenGLWindowStream.init (n : Int) = .ok s0 ∧
      s0.totalTexts = (n : Int) ∧ s0.windowTexts.length = n ∧ s0.currentIndex = 0 ∧
      s0.lastTextPosition = 0 := ⟨_, hinit, rfl, by simp, rfl, rfl⟩
  refine ⟨s0, ?_⟩
  induction calls using List.reverseRecOn with
  | nil =>
    refine ⟨s0, h0, rfl, ht, hl, by simp [hc], hp, ?_⟩
    intro k c hk
    simp at hk
  | append_singleton calls c ih =>
    obtain ⟨s, hinit', hrun, htotal, hlen, hcur, hlast, hslots⟩ := ih
    obtain ⟨p_tag, p_string⟩ := c
    obtain ⟨s2, hstep, hw, hci, hlp, htt⟩ : ∃ s2,
        s.addText p_tag p_string = .ok ((((calls.length + 1) % n : Nat) : Int), s2) ∧
        s2.windowTexts = s.windowTexts.set (calls.length % n)
          { enabled := true,
            windowString := { string := p_string, x := 0, y := s.lastTextPosition } } ∧
        s2.currentIndex = (((calls.length + 1) % n : Nat) : Int) ∧
        s2.lastTextPosition = s.lastTextPosition ∧ s2.totalTexts = s.totalTexts :=
      ⟨_, addText_step s n calls.length hn htotal hlen hcur p_tag p_string, rfl, rfl, rfl, rfl⟩
    refine ⟨s2, hinit', ?_, ?_⟩
    · rw [addTexts_append, hrun]
      simp only [Except.bind, OpenGLWindowStream.addTexts, bind, hstep]
    · refine ⟨htt.trans htotal, by simp [hw, hlen], by simp [hci], hlp.trans hlast, ?_⟩
      intro k c hk hle
      simp only [List.length_append, List.length_singleton] at hle
      have hmlt : calls.length % n < s.windowTexts.length := by
        rw [hlen]
        exact Nat.mod_lt _ (by omega)
      rw [hw]
      by_cases hkm : k = calls.length
      · subst hkm
        simp only [List.getElem?_concat_length, Option.some.injEq] at hk
        subst hk
        simp [List.getElem?_set, hmlt, hlast]
      · have hklt : k < calls.length := by
          have := (List.getElem?_eq_some.1 hk).1
          simp only [List.length_append, List.length_singleton] at this
          omega
        have hk' : calls[k]? = some c := by
          rw [List.getElem?_append_left hklt] at hk
          exact hk
        have hne := mod_ne_of_lt_of_lt n k calls.length hklt (by omega)
        simp only [List.getElem?_set, if_neg (Ne.symm hne)]
        exact hslots k c hk' (by omega)

/-- C16: on a stream initialised with `totalTexts = n ≥ 1`, the call number `k` of
`addText(tag, string)` (after the `k` calls of `calls`) stores its string in the slot
`k % n` and enables it, leaving the other slots as they were; the current index is in
`[0, n)` after the call; and when `k = n`, the call overwrites slot `0`, which held the
string of the first call. -/
theorem addText_ring_slot (n : Nat) (hn : 1 ≤ n) (calls : List (List Char × List Char))
    (p_tag p_string : List Char) :
    ∃ s0 s1 s2 handle, OpenGLWindowStream.init (n : Int) = .ok s0 ∧
      s0.addTexts calls = .ok s1 ∧ s1.addText p_tag p_string = .ok (handle, s2) ∧
      s2.windowTexts = s1.windowTexts.set (calls.length % n)
        { enabled := true, windowString := { string := p_string, x := 0, y := 0 } } ∧
      calls.length % n < s1.windowTexts.length ∧
      s2.windowTexts.length = n ∧
      0 ≤ s2.currentIndex ∧ s2.currentIndex < (n : Int) ∧
      s2.currentIndex = (((calls.length + 1) % n : Nat) : Int) ∧
      (∀ first, calls.head? = some first → calls.length = n →
        s1.windowTexts[0]? = some
          { enabled := true, windowString := { string := first.2, x := 0, y := 0 } } ∧
        s2.windowTexts[0]? = some
          { enabled := true, windowString := { string := p_string, x := 0, y := 0 } }) := by
  obtain ⟨s0, s1, hinit, hrun, htotal, hlen, hcur, hlast, hslots⟩ := addTexts_invariant n hn calls
  have hstep := addText_step s1 n calls.length hn htotal hlen hcur p_tag p_string
  have hmlt : calls.length % n < s1.windowTexts.length := by
    rw [hlen]
    exact Nat.mod_lt _ (by omega)
  have hlt : (calls.length + 1) % n < n := Nat.mod_lt _ (by omega)
  refine ⟨s0, s1, _, _, hinit, hrun, hstep, by simp [hlast], hmlt, by simp [hlen], ?_, ?_, rfl, ?_⟩
  · exact Int.ofNat_zero_le _
  · exact Int.ofNat_lt.2 hlt
  · intro first hfirst hlength
    have h0 : calls[0]? = some first := by
      cases calls with
      | nil => simp at hfirst
      | cons c rest => simpa using hfirst
    have hold := hslots 0 first h0 (by omega)
    simp only [Nat.zero_mod] at hold
    refine ⟨hold, ?_⟩
    have hpos : 0 < s1.windowTexts.length := by omega
    simp [hlength, List.getElem?_set, hpos, hlast]

theorem addText_ring_slot_witness :
    ∃ s0 s1 s2 handle, OpenGLWindowStream.init ((2 : Nat) : Int) = .ok s0 ∧
      s0.addTexts [(['a'], ['x']), (['b'], ['y'])] = .ok s1 ∧
      s1.addText ['c'] ['z'] = .ok (handle, s2) ∧
      s2.windowTexts = s1.windowTexts.set (2 % 2)
        { enabled := true, windowString := { string := ['z'], x := 0, y := 0 } } ∧
      s2.currentIndex = (((2 + 1) % 2 : Nat) : Int) := by
  obtain ⟨s0, s1, s2, handle, h0, h1, h2, h3, _, _, _, _, h4, _⟩ :=
    addText_ring_slot 2 (by decide) [(['a'], ['x']), (['b'], ['y'])] ['c'] ['z']
  exact ⟨s0, s1, s2, handle, h0, h1, h2, h3, h4⟩

/-! ## Properties of PBDPickingCH -/

theorem lookup_mapAssign_self {β : Type} (k : Nat) (v : β) (m : List (Nat × β)) :
    (mapAssign k v m).lookup k = some v := by
  induction m with
  | nil => simp [mapAssign, List.lookup]
  | cons e rest ih =>
    obtain ⟨k1, v1⟩ := e
    simp only [mapAssign]
    split
    · simp [List.lookup]
    · split
      · simp [List.lookup]
      · rename_i h1 h2
        have hne : (k == k1) = false := by simpa using h2
        simp [List.lookup, hne, ih]

theorem lookup_mapAssign_of_ne {β : Type} (k k2 : Nat) (v : β) (m : List (Nat × β))
    (h : k2 ≠ k) : (mapAssign k v m).lookup k2 = m.lookup k2 := by
  induction m with
  | nil =>
    have hne : (k2 == k) = false := by simpa using h
    simp [mapAssign, List.lookup, hne]
  | cons e rest ih =>
    obtain ⟨k1, v1⟩ := e
    have hne : (k2 == k) = false := by simpa using h
    simp only [mapAssign]
    split
    · simp [List.lookup, hne]
    · split
      · rename_i h1 h2
        subst h2
        simp [List.lookup, hne]
      · simp only [List.lookup]
        cases hk : (k2 == k1) <;> simp [ih]

/-- An offset that is stored is never overwritten by the loop of `addPickConstraints`. -/
theorem pickLoop_preserves {Model : Type} (ops : PbdModelOps Model)
    (normalized : Vec3d → Vec3d) (pickSphere : Sphere)
    (cds : List MeshToAnalyticalCollisionDataElement) (m : List (Nat × Vec3d)) (model : Model)
    (k : Nat) (v : Vec3d) (h : m.lookup k = some v) :
    (pickLoop ops normalized pickSphere cds (m, model)).1.lookup k = some v := by
  induction cds generalizing m model with
  | nil => exact h
  | cons cd rest ih =>
    simp only [pickLoop]
    split
    · rename_i hnone
      apply ih
      have hne : k ≠ cd.nodeIdx := by
        intro heq
        rw [heq] at h
        simp [h] at hnone
      rw [lookup_mapAssign_of_ne _ _ _ _ hne]
      exact h
    · exact ih m model h

/-- After the loop of `addPickConstraints`, every node of the contact list has an offset. -/
theorem pickLoop_covers {Model : Type} (ops : PbdModelOps Model)
    (normalized : Vec3d → Vec3d) (pickSphere : Sphere)
    (cds : List MeshToAnalyticalCollisionDataElement) (m : List (Nat × Vec3d)) (model : Model)
    (cd : MeshToAnalyticalCollisionDataElement) (hcd : cd ∈ cds) :
    ((pickLoop ops normalized pickSphere cds (m, model)).1.lookup cd.nodeIdx).isSome = true := by
  induction cds generalizing m model with
  | nil => simp at hcd
  | cons c rest ih =>
    simp only [pickLoop]
    rcases List.mem_cons.1 hcd with heq | hmem
    · subst heq
      split
      · rw [pickLoop_preserves ops normalized pickSphere rest _ _ cd.nodeIdx _
          (lookup_mapAssign_self _ _ _)]
        rfl
      · rename_i hsome
        cases hl : m.lookup cd.nodeIdx with
        | none => simp [hl] at hsome
        | some v =>
          rw [pickLoop_preserves ops normalized pickSphere rest m model cd.nodeIdx v hl]
          rfl
    · split
      · exact ih _ _ hmem
      · exact ih _ _ hmem

/-- The loop of `addPickConstraints` changes nothing when every node of its contact list
has an offset already, in whatever order the contacts come. -/
theorem pickLoop_noop {Model : Type} (ops : PbdModelOps Model)
    (normalized : Vec3d → Vec3d) (pickSphere : Sphere)
    (cds : List MeshToAnalyticalCollisionDataElement) (m : List (Nat × Vec3d)) (model : Model)
    (h : ∀ cd ∈ cds, (m.lookup cd.nodeIdx).isSome = true) :
    pickLoop ops normalized pickSphere cds (m, model) = (m, model) := by
  induction cds with
  | nil => rfl
  | cons cd rest ih =>
    have hcd := h cd (List.mem_cons_self _ _)
    simp only [pickLoop]
    rw [if_neg (by simp [Option.isSome_iff_ne_none.1 hcd] )]
    exact ih (fun c hc => h c (List.mem_cons_of_mem _ hc))

theorem activatePickConstraints_eq {Model : Type} (ops : PbdModelOps Model)
    (normalized : Vec3d → Vec3d) (self : PBDPickingCH Model) (model : Model)
    (pickSphere : Sphere) (hobj : self.m_pbdObj = some model)
    (hpick : self.m_pickObj = some (CollidingGeometry.sphere pickSphere))
    (hne : self.MAColData.isEmpty = false) :
    self.activatePickConstraints ops normalized = .ok
      { self with
        m_pickedPtIdxOffset := (pickLoop ops normalized pickSphere self.MAColData
          (self.m_pickedPtIdxOffset, model)).1,
        m_pbdObj := some (pickLoop ops normalized pickSphere self.MAColData
          (self.m_pickedPtIdxOffset, model)).2,
        m_isPicking := true } := by
  simp [PBDPickingCH.activatePickConstraints, PBDPickingCH.addPickConstraints, hne, hobj, hpick,
    bind, Except.bind, pure, Except.pure]

/-- C13: `activatePickConstraints` is idempotent on unchanged collision data: calling it
a second time gives the object (picked-node map with its offsets, picking flag, model
with its fixed points) that the first call gave; an offset stored before the call is
still stored after it; and the call succeeds when the PBD object and the picking sphere
are there. -/
theorem activatePickConstraints_idempotent {Model : Type} (ops : PbdModelOps Model)
    (normalized : Vec3d → Vec3d) (self : PBDPickingCH Model) :
    (self.activatePickConstraints ops normalized).bind
        (fun s => s.activatePickConstraints ops normalized)
      = self.activatePickConstraints ops normalized ∧
    (∀ s1, self.activatePickConstraints ops normalized = .ok s1 →
      ∀ k v, self.m_pickedPtIdxOffset.lookup k = some v →
        s1.m_pickedPtIdxOffset.lookup k = some v) ∧
    (∀ model pickSphere, self.m_pbdObj = some model →
      self.m_pickObj = some (CollidingGeometry.sphere pickSphere) →
      ∃ s1, self.activatePickConstraints ops normalized = .ok s1 ∧
        (self.MAColData ≠ [] → s1.m_isPicking = true)) := by
  cases hempty : self.MAColData.isEmpty with
  | true =>
    have hact : self.activatePickConstraints ops normalized = .ok self := by
      simp [PBDPickingCH.activatePickConstraints, hempty, pure, Except.pure]
    refine ⟨by rw [hact]; exact hact, ?_, ?_⟩
    · intro s1 hs1 k v hk
      rw [hact] at hs1
      cases hs1
      exact hk
    · intro model pickSphere _ _
      refine ⟨self, hact, fun hne => ?_⟩
      simp [List.isEmpty_iff] at hempty
      exact absurd hempty hne
  | false =>
    cases hobj : self.m_pbdObj with
    | none =>
      have hact : self.activatePickConstraints ops normalized
          = .error CheckFailure.checkFailed := by
        simp [PBDPickingCH.activatePickConstraints, PBDPickingCH.addPickConstraints, hempty,
          hobj, bind, Except.bind]
      refine ⟨by rw [hact]; rfl, ?_, ?_⟩
      · intro s1 hs1
        rw [hact] at hs1
        cases hs1
      · intro model pickSphere h
        cases h
    | some model =>
      cases hpick : self.m_pickObj with
      | none =>
        have hact : self.activatePickConstraints ops normalized
            = .error CheckFailure.checkFailed := by
          simp [PBDPickingCH.activatePickConstraints, PBDPickingCH.addPickConstraints, hempty,
            hobj, hpick, bind, Except.bind]
        refine ⟨by rw [hact]; rfl, ?_, ?_⟩
        · intro s1 hs1
          rw [hact] at hs1
          cases hs1
        · intro model pickSphere _ h
          cases h
      | some geometry =>
        cases geometry with
        | other =>
          have hact : self.activatePickConstraints ops normalized
              = .error CheckFailure.checkFailed := by
            simp [PBDPickingCH.activatePickConstraints, PBDPickingCH.addPickConstraints, hempty,
              hobj, hpick, bind, Except.bind]
          refine ⟨by rw [hact]; rfl, ?_, ?_⟩
          · intro s1 hs1
            rw [hact] at hs1
            cases hs1
          · intro model pickSphere _ h
            cases h
        | sphere pickSphere =>
          have hact := activatePickConstraints_eq ops normalized self model pickSphere hobj
            hpick hempty
          refine ⟨?_, ?_, ?_⟩
          · rw [hact]
            simp only [Except.bind]
            refine (activatePickConstraints_eq ops normalized _ _ pickSphere rfl ?_ ?_).trans ?_
            · exact hpick
            · exact hempty
            simp only
            rw [pickLoop_noop ops normalized pickSphere self.MAColData _ _
              (fun cd hcd => pickLoop_covers ops normalized pickSphere self.MAColData _ _ cd hcd)]
          · intro s1 hs1 k v hk
            rw [hact] at hs1
            cases hs1
            exact pickLoop_preserves ops normalized pickSphere _ _ _ k v hk
          · intro model' pickSphere' _ _
            exact ⟨_, hact, fun _ => rfl⟩

theorem activatePickConstraints_idempotent_witness :
    (∃ s1, samplePicking.activatePickConstraints sampleOps id = .ok s1 ∧
      (samplePicking.MAColData ≠ [] → s1.m_isPicking = true)) ∧
    (samplePicking.activatePickConstraints sampleOps id).bind
        (fun s => s.activatePickConstraints sampleOps id)
      = samplePicking.activatePickConstraints sampleOps id :=
  ⟨(activatePickConstraints_idempotent sampleOps id samplePicking).2.2 [] _ rfl rfl,
   (activatePickConstraints_idempotent sampleOps id samplePicking).1⟩

/-! ## Properties of LaparoscopicToolController -/

/-- C18 (counterexample): the state reached from construction by `setMaxJawAngle(0)` has
the jaw angle `PI / 6`, above the maximum jaw angle `0`. -/
theorem setMaxJawAngle_breaks_bound :
    ¬ (((LaparoscopicToolController.new PI WORLD_ORIGIN).run
          [JawOp.setMaxJawAngle 0]).getJawAngle
        ≤ ((LaparoscopicToolController.new PI WORLD_ORIGIN).run
          [JawOp.setMaxJawAngle 0]).getMaxJawAngle) := by
  norm_num [LaparoscopicToolController.run, LaparoscopicToolController.apply,
    LaparoscopicToolController.setMaxJawAngle, LaparoscopicToolController.new,
    LaparoscopicToolController.getJawAngle, LaparoscopicToolController.getMaxJawAngle, PI]

theorem updateJaw_bounds (self : LaparoscopicToolController) (open_ : Bool)
    (h : 0 ≤ self.m_maxJawAngle) :
    0 ≤ (self.updateJaw open_).m_jawAngle ∧
      (self.updateJaw open_).m_jawAngle ≤ (self.updateJaw open_).m_maxJawAngle := by
  simp only [LaparoscopicToolController.updateJaw]
  exact ⟨le_max_left _ _, max_le h (min_le_right _ _)⟩

/-- C18 (amended): the freshly constructed controller has jaw angle and maximum jaw angle
`PI / 6` and per-frame change `6e-5`; and in every state reached from construction by the
public operations, `0 ≤ getJawAngle() ≤ getMaxJawAngle()`, provided that each
`setMaxJawAngle(maxAngle)` is called with `maxAngle` at least the jaw angle of the
moment. -/
theorem jawAngle_bounds (PI : ℚ) (axis : Vec3d) (hPI : 0 ≤ PI) (ops : List JawOp)
    (h : maxAngleRespected (LaparoscopicToolController.new PI axis) ops) :
    (LaparoscopicToolController.new PI axis).getMaxJawAngle = PI / 6 ∧
    (LaparoscopicToolController.new PI axis).getJawAngle = PI / 6 ∧
    (LaparoscopicToolController.new PI axis).m_change = 6 / 100000 ∧
    0 ≤ ((LaparoscopicToolController.new PI axis).run ops).getJawAngle ∧
    ((LaparoscopicToolController.new PI axis).run ops).getJawAngle
      ≤ ((LaparoscopicToolController.new PI axis).run ops).getMaxJawAngle := by
  have key : ∀ (ops : List JawOp) (s : LaparoscopicToolController),
      0 ≤ s.m_jawAngle → s.m_jawAngle ≤ s.m_maxJawAngle → maxAngleRespected s ops →
      0 ≤ (s.run ops).m_jawAngle ∧ (s.run ops).m_jawAngle ≤ (s.run ops).m_maxJawAngle := by
    intro ops
    induction ops with
    | nil => exact fun s h0 h1 _ => ⟨h0, h1⟩
    | cons op rest ih =>
      intro s h0 h1 hr
      obtain ⟨hop, hrest⟩ := hr
      simp only [LaparoscopicToolController.run]
      cases op with
      | setMaxJawAngle maxAngle => exact ih _ h0 hop hrest
      | setJawAngleChange dAngle => exact ih _ h0 h1 hrest
      | setJawRotationAxis axis => exact ih _ h0 h1 hrest
      | updateJaw open_ =>
        have hb := updateJaw_bounds s open_ (le_trans h0 h1)
        exact ih _ hb.1 hb.2 hrest
  have h0 : 0 ≤ (LaparoscopicToolController.new PI axis).m_jawAngle := by
    simp only [LaparoscopicToolController.new]
    linarith
  have hk := key ops _ h0 (le_refl _) h
  exact ⟨rfl, rfl, rfl, hk.1, hk.2⟩

theorem jawAngle_bounds_witness :
    0 ≤ ((LaparoscopicToolController.new PI WORLD_ORIGIN).run
      [JawOp.updateJaw false, JawOp.setMaxJawAngle 1, JawOp.setJawAngleChange 2,
        JawOp.updateJaw true]).getJawAngle ∧
    ((LaparoscopicToolController.new PI WORLD_ORIGIN).run
      [JawOp.updateJaw false, JawOp.setMaxJawAngle 1, JawOp.setJawAngleChange 2,
        JawOp.updateJaw true]).getJawAngle
      ≤ ((LaparoscopicToolController.new PI WORLD_ORIGIN).run
      [JawOp.updateJaw false, JawOp.setMaxJawAngle 1, JawOp.setJawAngleChange 2,
        JawOp.updateJaw true]).getMaxJawAngle :=
  (jawAngle_bounds PI WORLD_ORIGIN (by norm_num [PI])
    [JawOp.updateJaw false, JawOp.setMaxJawAngle 1, JawOp.setJawAngleChange 2,
      JawOp.updateJaw true]
    (by
      simp only [maxAngleRespected, LaparoscopicToolController.apply,
        LaparoscopicToolController.updateJaw, LaparoscopicToolController.new,
        LaparoscopicToolController.setMaxJawAngle, LaparoscopicToolController.setJawAngleChange]
      norm_num [PI])).2.2.2

/-! ## Properties of SurfaceMeshCut -/

theorem pointOnPlaneSide_cases (m_Plane : Plane) (m_Epsilon : ℚ) (pt : Vec3d) :
    pointOnPlaneSide m_Plane m_Epsilon pt = 1 ∨ pointOnPlaneSide m_Plane m_Epsilon pt = -1 ∨
      pointOnPlaneSide m_Plane m_Epsilon pt = 0 := by
  unfold pointOnPlaneSide
  simp only
  split
  · exact Or.inl rfl
  · split
    · exact Or.inr (Or.inl rfl)
    · exact Or.inr (Or.inr rfl)

theorem TriangleSides.cases {m_Plane : Plane} {m_Epsilon : ℚ} {vertices : List Vec3d}
    {tri : Vec3i} {q0 q1 q2 : Vec3d} {s0 s1 s2 : Int}
    (h : TriangleSides m_Plane m_Epsilon vertices tri q0 q1 q2 s0 s1 s2) :
    (s0 = 1 ∨ s0 = -1 ∨ s0 = 0) ∧ (s1 = 1 ∨ s1 = -1 ∨ s1 = 0) ∧ (s2 = 1 ∨ s2 = -1 ∨ s2 = 0) :=
  ⟨h.e0 ▸ pointOnPlaneSide_cases _ _ _, h.e1 ▸ pointOnPlaneSide_cases _ _ _,
    h.e2 ▸ pointOnPlaneSide_cases _ _ _⟩

/-- A triangle with a lone vertex `tri[j]` gets one `EDGE_EDGE` record. -/
theorem cutTriangle_edge_edge {m_Plane : Plane} {m_Epsilon : ℚ} {vertices : List Vec3d}
    {tri : Vec3i} {q0 q1 q2 : Vec3d} {s0 s1 s2 : Int}
    (h : TriangleSides m_Plane m_Epsilon vertices tri q0 q1 q2 s0 s1 s2)
    (i : Nat) (st : CutGen) (j : Nat) (hj : j < 3) (hp : loneVertex (sideAt s0 s1 s2) j) :
    cutTriangle m_Plane m_Epsilon vertices i tri st = .ok
      { st with cutData := st.cutData ++ [edgeEdgeRecord m_Plane i tri (posAt q0 q1 q2) j] } := by
  obtain ⟨c0, c1, c2⟩ := h.cases
  obtain ⟨h0, h1, h2, e0, e1, e2⟩ := h
  obtain ⟨hlone, ha, hb⟩ := hp
  rcases c0 with c0 | c0 | c0 <;> rcases c1 with c1 | c1 | c1 <;>
  rcases c2 with c2 | c2 | c2 <;> subst c0 <;> subst c1 <;> subst c2 <;>
  interval_cases j <;>
  simp [sideAt] at hlone ha hb <;>
  simp [cutTriangle, vertexAt, Vec3i.get, h0, h1, h2, e0, e1, e2, forJ, cutCase3, sideAt, posAt,
    edgeEdgeRecord, bind, Except.bind, pure, Except.pure]

/-- A triangle with the vertex `tri[j]` on the plane and the other two on opposite sides
gets one `EDGE_VERT` record. -/
theorem cutTriangle_edge_vert {m_Plane : Plane} {m_Epsilon : ℚ} {vertices : List Vec3d}
    {tri : Vec3i} {q0 q1 q2 : Vec3d} {s0 s1 s2 : Int}
    (h : TriangleSides m_Plane m_Epsilon vertices tri q0 q1 q2 s0 s1 s2)
    (i : Nat) (st : CutGen) (j : Nat) (hj : j < 3) (hp : vertexOnPlane (sideAt s0 s1 s2) j) :
    cutTriangle m_Plane m_Epsilon vertices i tri st = .ok
      { st with cutData := st.cutData ++ [edgeVertRecord m_Plane i tri (posAt q0 q1 q2) j] } := by
  obtain ⟨c0, c1, c2⟩ := h.cases
  obtain ⟨h0, h1, h2, e0, e1, e2⟩ := h
  obtain ⟨hlone, ha, hb⟩ := hp
  rcases c0 with c0 | c0 | c0 <;> rcases c1 with c1 | c1 | c1 <;>
  rcases c2 with c2 | c2 | c2 <;> subst c0 <;> subst c1 <;> subst c2 <;>
  interval_cases j <;>
  simp [sideAt] at hlone ha hb <;>
  simp [cutTriangle, vertexAt, Vec3i.get, h0, h1, h2, e0, e1, e2, forJ, cutCase2, sideAt, posAt,
    edgeVertRecord, bind, Except.bind, pure, Except.pure]

/-- A triangle that the plane does not cross gets no record. -/
theorem cutTriangle_no_crossing {m_Plane : Plane} {m_Epsilon : ℚ} {vertices : List Vec3d}
    {tri : Vec3i} {q0 q1 q2 : Vec3d} {s0 s1 s2 : Int}
    (h : TriangleSides m_Plane m_Epsilon vertices tri q0 q1 q2 s0 s1 s2)
    (i : Nat) (st : CutGen) (hp : noCrossing (sideAt s0 s1 s2)) :
    cutTriangle m_Plane m_Epsilon vertices i tri st = .ok st := by
  obtain ⟨c0, c1, c2⟩ := h.cases
  obtain ⟨h0, h1, h2, e0, e1, e2⟩ := h
  rcases hp with ⟨ha, hb⟩ | ⟨j, hj, hz, ha, hb⟩
  · rcases c0 with c0 | c0 | c0 <;> rcases c1 with c1 | c1 | c1 <;>
    rcases c2 with c2 | c2 | c2 <;> subst c0 <;> subst c1 <;> subst c2 <;>
    simp [sideAt] at ha hb <;>
    simp [cutTriangle, vertexAt, Vec3i.get, h0, h1, h2, e0, e1, e2, forJ, sideAt,
      bind, Except.bind, pure, Except.pure]
  · rcases c0 with c0 | c0 | c0 <;> rcases c1 with c1 | c1 | c1 <;>
    rcases c2 with c2 | c2 | c2 <;> subst c0 <;> subst c1 <;> subst c2 <;>
    interval_cases j <;>
    simp [sideAt] at hz ha hb <;>
    simp [cutTriangle, vertexAt, Vec3i.get, h0, h1, h2, e0, e1, e2, forJ, sideAt,
      bind, Except.bind, pure, Except.pure]

/-- A triangle with the edge opposite to `tri[j]` on the plane gets a `VERT_VERT` record
when the reversed edge is in `repeatEdges`; otherwise the edge is entered there. -/
theorem cutTriangle_vert_vert {m_Plane : Plane} {m_Epsilon : ℚ} {vertices : List Vec3d}
    {tri : Vec3i} {q0 q1 q2 : Vec3d} {s0 s1 s2 : Int}
    (h : TriangleSides m_Plane m_Epsilon vertices tri q0 q1 q2 s0 s1 s2)
    (i : Nat) (st : CutGen) (j : Nat) (hj : j < 3) (hp : edgeOnPlane (sideAt s0 s1 s2) j) :
    cutTriangle m_Plane m_Epsilon vertices i tri st = .ok
      (if (tri.get ((j + 2) % 3), tri.get ((j + 1) % 3)) ∈ st.repeatEdges then
        { st with cutData := st.cutData ++ [vertVertRecord i tri (posAt q0 q1 q2) j] }
      else if (tri.get ((j + 1) % 3), tri.get ((j + 2) % 3)) ∈ st.repeatEdges then st
      else { st with repeatEdges :=
        st.repeatEdges ++ [(tri.get ((j + 1) % 3), tri.get ((j + 2) % 3))] }) := by
  obtain ⟨c0, c1, c2⟩ := h.cases
  obtain ⟨h0, h1, h2, e0, e1, e2⟩ := h
  obtain ⟨hlone, ha, hb⟩ := hp
  by_cases hm1 : (tri.get ((j + 2) % 3), tri.get ((j + 1) % 3)) ∈ st.repeatEdges
  · rcases c0 with c0 | c0 | c0 <;> rcases c1 with c1 | c1 | c1 <;>
    rcases c2 with c2 | c2 | c2 <;> subst c0 <;> subst c1 <;> subst c2 <;>
    interval_cases j <;>
    simp [sideAt] at hlone ha hb <;>
    simp [Vec3i.get] at hm1 <;>
    simp [cutTriangle, vertexAt, Vec3i.get, h0, h1, h2, e0, e1, e2, forJ, cutCase1, sideAt,
      posAt, vertVertRecord, bind, Except.bind, pure, Except.pure, hm1]
  · by_cases hm2 : (tri.get ((j + 1) % 3), tri.get ((j + 2) % 3)) ∈ st.repeatEdges
    · rcases c0 with c0 | c0 | c0 <;> rcases c1 with c1 | c1 | c1 <;>
      rcases c2 with c2 | c2 | c2 <;> subst c0 <;> subst c1 <;> subst c2 <;>
      interval_cases j <;>
      simp [sideAt] at hlone ha hb <;>
      simp [Vec3i.get] at hm1 hm2 <;>
      simp [cutTriangle, vertexAt, Vec3i.get, h0, h1, h2, e0, e1, e2, forJ, cutCase1, sideAt,
        posAt, vertVertRecord, bind, Except.bind, pure, Except.pure, hm1, hm2]
    · rcases c0 with c0 | c0 | c0 <;> rcases c1 with c1 | c1 | c1 <;>
      rcases c2 with c2 | c2 | c2 <;> subst c0 <;> subst c1 <;> subst c2 <;>
      interval_cases j <;>
      simp [sideAt] at hlone ha hb <;>
      simp [Vec3i.get] at hm1 hm2 <;>
      simp [cutTriangle, vertexAt, Vec3i.get, h0, h1, h2, e0, e1, e2, forJ, cutCase1, sideAt,
        posAt, vertVertRecord, bind, Except.bind, pure, Except.pure, hm1, hm2]

/-- The four situations of a triangle with respect to the plane are exhaustive. -/
theorem sides_classification (s0 s1 s2 : Int) (c0 : s0 = 1 ∨ s0 = -1 ∨ s0 = 0)
    (c1 : s1 = 1 ∨ s1 = -1 ∨ s1 = 0) (c2 : s2 = 1 ∨ s2 = -1 ∨ s2 = 0) :
    noCrossing (sideAt s0 s1 s2) ∨ (∃ j, j < 3 ∧ loneVertex (sideAt s0 s1 s2) j) ∨
      (∃ j, j < 3 ∧ vertexOnPlane (sideAt s0 s1 s2) j) ∨
      (∃ j, j < 3 ∧ edgeOnPlane (sideAt s0 s1 s2) j) := by
  rcases c0 with c0 | c0 | c0 <;> rcases c1 with c1 | c1 | c1 <;>
  rcases c2 with c2 | c2 | c2 <;> subst c0 <;> subst c1 <;> subst c2 <;>
  first
  | (refine Or.inl (Or.inl ?_); simp [sideAt]; done)
  | (refine Or.inl (Or.inr ⟨0, by decide, ?_⟩); simp [sideAt]; done)
  | (refine Or.inl (Or.inr ⟨1, by decide, ?_⟩); simp [sideAt]; done)
  | (refine Or.inl (Or.inr ⟨2, by decide, ?_⟩); simp [sideAt]; done)
  | (refine Or.inr (Or.inl ⟨0, by decide, ?_⟩); simp [loneVertex, sideAt]; done)
  | (refine Or.inr (Or.inl ⟨1, by decide, ?_⟩); simp [loneVertex, sideAt]; done)
  | (refine Or.inr (Or.inl ⟨2, by decide, ?_⟩); simp [loneVertex, sideAt]; done)
  | (refine Or.inr (Or.inr (Or.inl ⟨0, by decide, ?_⟩)); simp [vertexOnPlane, sideAt]; done)
  | (refine Or.inr (Or.inr (Or.inl ⟨1, by decide, ?_⟩)); simp [vertexOnPlane, sideAt]; done)
  | (refine Or.inr (Or.inr (Or.inl ⟨2, by decide, ?_⟩)); simp [vertexOnPlane, sideAt]; done)
  | (refine Or.inr (Or.inr (Or.inr ⟨0, by decide, ?_⟩)); simp [edgeOnPlane, sideAt]; done)
  | (refine Or.inr (Or.inr (Or.inr ⟨1, by decide, ?_⟩)); simp [edgeOnPlane, sideAt]; done)
  | (refine Or.inr (Or.inr (Or.inr ⟨2, by decide, ?_⟩)); simp [edgeOnPlane, sideAt])

theorem vertexPos_spec (vertices : List Vec3d) (id : Nat) (h : id < vertices.length) :
    vertices[id]? = some (vertexPos vertices id) := by
  simp [vertexPos, List.getD_eq_getElem?_getD, List.getElem?_eq_getElem h]

theorem posAt_triPos (vertices : List Vec3d) (tri : Vec3i) :
    posAt (triPos vertices tri 0) (triPos vertices tri 1) (triPos vertices tri 2)
      = triPos vertices tri := by
  funext j
  simp only [posAt, triPos, Vec3i.get]
  split
  · simp
  · split
    · simp
    · rename_i h0 h1
      simp [h0, h1]

theorem sideAt_triSide (m_Plane : Plane) (m_Epsilon : ℚ) (vertices : List Vec3d) (tri : Vec3i) :
    sideAt (triSide m_Plane m_Epsilon vertices tri 0) (triSide m_Plane m_Epsilon vertices tri 1)
      (triSide m_Plane m_Epsilon vertices tri 2) = triSide m_Plane m_Epsilon vertices tri := by
  funext j
  simp only [sideAt, triSide, triPos, Vec3i.get]
  split
  · simp
  · split
    · simp
    · rename_i h0 h1
      simp [h0, h1]

theorem triangleSides_of_valid (m_Plane : Plane) (m_Epsilon : ℚ) (vertices : List Vec3d)
    (tri : Vec3i) (hv : validTriangle vertices tri) :
    TriangleSides m_Plane m_Epsilon vertices tri (triPos vertices tri 0) (triPos vertices tri 1)
      (triPos vertices tri 2) (triSide m_Plane m_Epsilon vertices tri 0)
      (triSide m_Plane m_Epsilon vertices tri 1) (triSide m_Plane m_Epsilon vertices tri 2) :=
  { h0 := vertexPos_spec vertices tri.v0 hv.1
    h1 := vertexPos_spec vertices tri.v1 hv.2.1
    h2 := vertexPos_spec vertices tri.v2 hv.2.2
    e0 := rfl
    e1 := rfl
    e2 := rfl }

theorem triSide_cases (m_Plane : Plane) (m_Epsilon : ℚ) (vertices : List Vec3d) (tri : Vec3i)
    (j : Nat) : triSide m_Plane m_Epsilon vertices tri j = 1 ∨
      triSide m_Plane m_Epsilon vertices tri j = -1 ∨
      triSide m_Plane m_Epsilon vertices tri j = 0 :=
  pointOnPlaneSide_cases _ _ _

/-- One round of the loop of `generateCutData` on a triangle with valid indices: it
succeeds, appends at most one record, and the record and the set of edges are as
`StepOutcome` says. -/
theorem cutTriangle_step (m_Plane : Plane) (m_Epsilon : ℚ) (vertices : List Vec3d)
    (tri : Vec3i) (hv : validTriangle vertices tri) (i : Nat) (st : CutGen) :
    ∃ recs E1, cutTriangle m_Plane m_Epsilon vertices i tri st
        = .ok { cutData := st.cutData ++ recs, repeatEdges := E1 } ∧
      StepOutcome m_Plane m_Epsilon vertices i tri st.repeatEdges recs E1 := by
  have h := triangleSides_of_valid m_Plane m_Epsilon vertices tri hv
  have hs := sideAt_triSide m_Plane m_Epsilon vertices tri
  have hq := posAt_triPos vertices tri
  rcases sides_classification _ _ _ (triSide_cases m_Plane m_Epsilon vertices tri 0)
      (triSide_cases m_Plane m_Epsilon vertices tri 1)
      (triSide_cases m_Plane m_Epsilon vertices tri 2) with hn | ⟨j, hj, hp⟩ | ⟨j, hj, hp⟩ |
      ⟨j, hj, hp⟩
  · refine ⟨[], st.repeatEdges, ?_, Or.inl ⟨hs ▸ hn, rfl, rfl⟩⟩
    rw [cutTriangle_no_crossing h i st hn]
    simp
  · have hc := cutTriangle_edge_edge h i st j hj hp
    rw [hs] at hp
    rw [hq] at hc
    exact ⟨_, st.repeatEdges, hc, Or.inr (Or.inl ⟨j, hj, hp, rfl, rfl⟩)⟩
  · have hc := cutTriangle_edge_vert h i st j hj hp
    rw [hs] at hp
    rw [hq] at hc
    exact ⟨_, st.repeatEdges, hc, Or.inr (Or.inr (Or.inl ⟨j, hj, hp, rfl, rfl⟩))⟩
  · have hc := cutTriangle_vert_vert h i st j hj hp
    rw [hs] at hp
    rw [hq] at hc
    by_cases hm1 : (tri.get ((j + 2) % 3), tri.get ((j + 1) % 3)) ∈ st.repeatEdges
    · rw [if_pos hm1] at hc
      exact ⟨_, st.repeatEdges, hc,
        Or.inr (Or.inr (Or.inr ⟨j, hj, hp, Or.inl ⟨hm1, rfl, rfl⟩⟩))⟩
    · rw [if_neg hm1] at hc
      by_cases hm2 : (tri.get ((j + 1) % 3), tri.get ((j + 2) % 3)) ∈ st.repeatEdges
      · rw [if_pos hm2] at hc
        refine ⟨[], st.repeatEdges, ?_,
          Or.inr (Or.inr (Or.inr ⟨j, hj, hp, Or.inr ⟨hm1, rfl, Or.inl rfl⟩⟩))⟩
        rw [hc]
        simp
      · rw [if_neg hm2] at hc
        refine ⟨[], _, ?_,
          Or.inr (Or.inr (Or.inr ⟨j, hj, hp, Or.inr ⟨hm1, rfl, Or.inr rfl⟩⟩))⟩
        rw [hc]
        simp

theorem noCrossing_not_loneVertex (sd : Nat → Int) (j : Nat) (hj : j < 3)
    (hn : noCrossing sd) (hp : loneVertex sd j) : False := by
  obtain ⟨h1, h2, h3⟩ := hp
  rcases hn with ⟨ha, hb⟩ | ⟨k, hk, hz, ha, hb⟩
  · interval_cases j <;> simp at h1 h2 h3 <;> omega
  · interval_cases j <;> interval_cases k <;> simp at h1 h2 h3 hz ha hb <;> omega

theorem noCrossing_not_vertexOnPlane (sd : Nat → Int) (j : Nat) (hj : j < 3)
    (hn : noCrossing sd) (hp : vertexOnPlane sd j) : False := by
  obtain ⟨h1, h2, h3⟩ := hp
  rcases hn with ⟨ha, hb⟩ | ⟨k, hk, hz, ha, hb⟩
  · interval_cases j <;> simp at h1 h2 h3 <;> omega
  · interval_cases j <;> interval_cases k <;> simp at h1 h2 h3 hz ha hb <;> omega

theorem noCrossing_not_edgeOnPlane (sd : Nat → Int) (j : Nat) (hj : j < 3)
    (hn : noCrossing sd) (hp : edgeOnPlane sd j) : False := by
  obtain ⟨h1, h2, h3⟩ := hp
  rcases hn with ⟨ha, hb⟩ | ⟨k, hk, hz, ha, hb⟩
  · interval_cases j <;> simp at h1 h2 h3 <;> omega
  · interval_cases j <;> interval_cases k <;> simp at h1 h2 h3 hz ha hb <;> omega

theorem loneVertex_not_vertexOnPlane (sd : Nat → Int) (j k : Nat) (hj : j < 3) (hk : k < 3)
    (hp : loneVertex sd j) (hq : vertexOnPlane sd k) : False := by
  obtain ⟨h1, h2, h3⟩ := hp
  obtain ⟨g1, g2, g3⟩ := hq
  interval_cases j <;> interval_cases k <;> simp at h1 h2 h3 g1 g2 g3 <;> omega

theorem loneVertex_not_edgeOnPlane (sd : Nat → Int) (j k : Nat) (hj : j < 3) (hk : k < 3)
    (hp : loneVertex sd j) (hq : edgeOnPlane sd k) : False := by
  obtain ⟨h1, h2, h3⟩ := hp
  obtain ⟨g1, g2, g3⟩ := hq
  interval_cases j <;> interval_cases k <;> simp at h1 h2 h3 g1 g2 g3 <;> omega

theorem vertexOnPlane_not_edgeOnPlane (sd : Nat → Int) (j k : Nat) (hj : j < 3) (hk : k < 3)
    (hp : vertexOnPlane sd j) (hq : edgeOnPlane sd k) : False := by
  obtain ⟨h1, h2, h3⟩ := hp
  obtain ⟨g1, g2, g3⟩ := hq
  interval_cases j <;> interval_cases k <;> simp at h1 h2 h3 g1 g2 g3 <;> omega

theorem loneVertex_unique (sd : Nat → Int) (j k : Nat) (hj : j < 3) (hk : k < 3)
    (hp : loneVertex sd j) (hq : loneVertex sd k) : j = k := by
  obtain ⟨h1, h2, h3⟩ := hp
  obtain ⟨g1, g2, g3⟩ := hq
  interval_cases j <;> interval_cases k <;> simp at h1 h2 h3 g1 g2 g3 ⊢ <;> omega

theorem vertexOnPlane_unique (sd : Nat → Int) (j k : Nat) (hj : j < 3) (hk : k < 3)
    (hp : vertexOnPlane sd j) (hq : vertexOnPlane sd k) : j = k := by
  obtain ⟨h1, h2, h3⟩ := hp
  obtain ⟨g1, g2, g3⟩ := hq
  interval_cases j <;> interval_cases k <;> simp at h1 h2 h3 g1 g2 g3 ⊢ <;> omega

/-- What a round of the loop of `generateCutData` appends and leaves, read off
`StepOutcome`. -/
theorem stepOutcome_facts {m_Plane : Plane} {m_Epsilon : ℚ} {vertices : List Vec3d} {i : Nat}
    {tri : Vec3i} {E : List (Nat × Nat)} {recs : List CutData} {E1 : List (Nat × Nat)}
    (h : StepOutcome m_Plane m_Epsilon vertices i tri E recs E1) :
    recs.length ≤ 1 ∧
    (∀ c ∈ recs, c.triId = i ∧ RecordOf m_Plane m_Epsilon vertices i tri c ∧
      (c.cutType = CutType.VERT_VERT → (c.ptIds.2, c.ptIds.1) ∈ E)) ∧
    (∀ e ∈ E1, e ∈ E ∨ ∃ j, j < 3 ∧ e = (tri.get ((j + 1) % 3), tri.get ((j + 2) % 3))) ∧
    (∀ e ∈ E, e ∈ E1) ∧
    (∀ j, j < 3 → loneVertex (triSide m_Plane m_Epsilon vertices tri) j →
      edgeEdgeRecord m_Plane i tri (triPos vertices tri) j ∈ recs) ∧
    (∀ j, j < 3 → vertexOnPlane (triSide m_Plane m_Epsilon vertices tri) j →
      edgeVertRecord m_Plane i tri (triPos vertices tri) j ∈ recs) ∧
    (noCrossing (triSide m_Plane m_Epsilon vertices tri) → recs = []) := by
  rcases h with ⟨hn, rfl, rfl⟩ | ⟨j, hj, hp, rfl, rfl⟩ | ⟨j, hj, hp, rfl, rfl⟩ |
    ⟨j, hj, hp, ⟨hm, rfl, rfl⟩ | ⟨hm, rfl, hE⟩⟩
  · refine ⟨by simp, by simp, fun e he => Or.inl he, fun e he => he, ?_, ?_, fun _ => rfl⟩
    · exact fun k hk hq => (noCrossing_not_loneVertex _ k hk hn hq).elim
    · exact fun k hk hq => (noCrossing_not_vertexOnPlane _ k hk hn hq).elim
  · refine ⟨by simp, ?_, fun e he => Or.inl he, fun e he => he, ?_, ?_, ?_⟩
    · intro c hc
      simp only [List.mem_singleton] at hc
      subst hc
      exact ⟨rfl, Or.inl ⟨j, hj, hp, rfl⟩, fun ht => by simp [edgeEdgeRecord] at ht⟩
    · intro k hk hq
      rw [loneVertex_unique _ k j hk hj hq hp]
      simp
    · exact fun k hk hq => (loneVertex_not_vertexOnPlane _ j k hj hk hp hq).elim
    · exact fun hn => (noCrossing_not_loneVertex _ j hj hn hp).elim
  · refine ⟨by simp, ?_, fun e he => Or.inl he, fun e he => he, ?_, ?_, ?_⟩
    · intro c hc
      simp only [List.mem_singleton] at hc
      subst hc
      exact ⟨rfl, Or.inr (Or.inl ⟨j, hj, hp, rfl⟩), fun ht => by simp [edgeVertRecord] at ht⟩
    · exact fun k hk hq => (loneVertex_not_vertexOnPlane _ k j hk hj hq hp).elim
    · intro k hk hq
      rw [vertexOnPlane_unique _ k j hk hj hq hp]
      simp
    · exact fun hn => (noCrossing_not_vertexOnPlane _ j hj hn hp).elim
  · refine ⟨by simp, ?_, fun e he => Or.inl he, fun e he => he, ?_, ?_, ?_⟩
    · intro c hc
      simp only [List.mem_singleton] at hc
      subst hc
      exact ⟨rfl, Or.inr (Or.inr ⟨j, hj, hp, rfl⟩), fun _ => hm⟩
    · exact fun k hk hq => (loneVertex_not_edgeOnPlane _ k j hk hj hq hp).elim
    · exact fun k hk hq => (vertexOnPlane_not_edgeOnPlane _ k j hk hj hq hp).elim
    · exact fun hn => (noCrossing_not_edgeOnPlane _ j hj hn hp).elim
  · refine ⟨by simp, by simp, ?_, ?_, ?_, ?_, fun _ => rfl⟩
    · intro e he
      rcases hE with rfl | rfl
      · exact Or.inl he
      · rcases List.mem_append.1 he with he | he
        · exact Or.inl he
        · simp only [List.mem_singleton] at he
          exact Or.inr ⟨j, hj, he⟩
    · intro e he
      rcases hE with rfl | rfl
      · exact he
      · exact List.mem_append_left _ he
    · exact fun k hk hq => (loneVertex_not_edgeOnPlane _ k j hk hj hq hp).elim
    · exact fun k hk hq => (vertexOnPlane_not_edgeOnPlane _ k j hk hj hq hp).elim

/-- The loop of `generateCutData` over triangles with valid indices: it succeeds, keeps
the records it found, and every record it adds belongs to one of the triangles. -/
theorem cutTriangles_spec (m_Plane : Plane) (m_Epsilon : ℚ) (vertices : List Vec3d)
    (tris : List Vec3i) (hvalid : ∀ tri ∈ tris, validTriangle vertices tri) (i0 : Nat)
    (st : CutGen) :
    ∃ st1, cutTriangles m_Plane m_Epsilon vertices i0 tris st = .ok st1 ∧
      (∀ c ∈ st.cutData, c ∈ st1.cutData) ∧
      (∀ c ∈ st1.cutData, c ∈ st.cutData ∨ ∃ k tri, tris[k]? = some tri ∧ c.triId = i0 + k ∧
        RecordOf m_Plane m_Epsilon vertices (i0 + k) tri c ∧
        (c.cutType = CutType.VERT_VERT → (c.ptIds.2, c.ptIds.1) ∈ st.repeatEdges ∨
          ∃ k1 tri1 j1, k1 < k ∧ tris[k1]? = some tri1 ∧ j1 < 3 ∧
            (tri1.get ((j1 + 1) % 3), tri1.get ((j1 + 2) % 3)) = (c.ptIds.2, c.ptIds.1))) ∧
      (∀ e ∈ st1.repeatEdges, e ∈ st.repeatEdges ∨ ∃ k : Nat, ∃ tri : Vec3i, ∃ j : Nat, tris[k]? = some tri ∧ j < 3 ∧
        e = (tri.get ((j + 1) % 3), tri.get ((j + 2) % 3))) ∧
      (∀ k tri, tris[k]? = some tri → ∀ j, j < 3 →
        (loneVertex (triSide m_Plane m_Epsilon vertices tri) j →
          edgeEdgeRecord m_Plane (i0 + k) tri (triPos vertices tri) j ∈ st1.cutData) ∧
        (vertexOnPlane (triSide m_Plane m_Epsilon vertices tri) j →
          edgeVertRecord m_Plane (i0 + k) tri (triPos vertices tri) j ∈ st1.cutData)) ∧
      (∀ i, (st1.cutData.filter (fun c => decide (c.triId = i))).length ≤
        (st.cutData.filter (fun c => decide (c.triId = i))).length +
          (if i0 ≤ i ∧ i < i0 + tris.length then 1 else 0)) := by
  induction tris generalizing i0 st with
  | nil =>
    refine ⟨st, rfl, fun c hc => hc, fun c hc => Or.inl hc, fun e he => Or.inl he, ?_, ?_⟩
    · intro k tri hk
      simp at hk
    · intro i
      simp
  | cons tri rest ih =>
    obtain ⟨recs, E1, hstep, hout⟩ := cutTriangle_step m_Plane m_Epsilon vertices tri
      (hvalid tri (List.mem_cons_self _ _)) i0 st
    obtain ⟨hlen, hrec, hE1, hEsub, hEE, hEV, _⟩ := stepOutcome_facts hout
    obtain ⟨st1, hrun, hP, hL1, hLE, hL2, hL3⟩ :=
      ih (fun t ht => hvalid t (List.mem_cons_of_mem _ ht)) (i0 + 1)
        { cutData := st.cutData ++ recs, repeatEdges := E1 }
    refine ⟨st1, ?_, ?_, ?_, ?_, ?_, ?_⟩
    · simp only [cutTriangles, hstep, bind, Except.bind]
      exact hrun
    · exact fun c hc => hP c (List.mem_append_left _ hc)
    · intro c hc
      rcases hL1 c hc with hc1 | ⟨k, tri1, hk, hid, hrecord, hvv⟩
      · rcases List.mem_append.1 hc1 with hc2 | hc2
        · exact Or.inl hc2
        · obtain ⟨hid, hrecord, hvv⟩ := hrec c hc2
          exact Or.inr ⟨0, tri, by simp, hid, hrecord, fun ht => Or.inl (hvv ht)⟩
      · have heq : i0 + 1 + k = i0 + (k + 1) := by omega
        rw [heq] at hid hrecord
        refine Or.inr ⟨k + 1, tri1, by rw [List.getElem?_cons_succ]; exact hk, hid, hrecord, fun ht => ?_⟩
        rcases hvv ht with hin | ⟨k1, tri2, j1, hk1, htri2, hj1, hedge⟩
        · rcases hE1 _ hin with hin1 | ⟨j, hj, hedge⟩
          · exact Or.inl hin1
          · exact Or.inr ⟨0, tri, j, Nat.succ_pos k, by simp, hj, hedge.symm⟩
        · exact Or.inr ⟨k1 + 1, tri2, j1, by omega, by rw [List.getElem?_cons_succ]; exact htri2, hj1, hedge⟩
    · intro e he
      rcases hLE e he with hin | ⟨k, tri1, j, hk, hj, hedge⟩
      · rcases hE1 _ hin with hin1 | ⟨j, hj, hedge⟩
        · exact Or.inl hin1
        · exact Or.inr ⟨0, tri, j, by simp, hj, hedge⟩
      · exact Or.inr ⟨k + 1, tri1, j, by rw [List.getElem?_cons_succ]; exact hk, hj, hedge⟩
    · intro k tri1 hk j hj
      cases k with
      | zero =>
        simp only [List.getElem?_cons_zero, Option.some.injEq] at hk
        subst hk
        exact ⟨fun hp => hP _ (List.mem_append_right _ (hEE j hj hp)),
          fun hp => hP _ (List.mem_append_right _ (hEV j hj hp))⟩
      | succ k =>
        have heq : i0 + (k + 1) = i0 + 1 + k := by omega
        rw [heq]
        exact hL2 k tri1 (by rw [List.getElem?_cons_succ] at hk; exact hk) j hj
    · intro i
      have hcount : (recs.filter (fun c => decide (c.triId = i))).length
          ≤ (if i = i0 then 1 else 0) := by
        by_cases hi : i = i0
        · rw [if_pos hi]
          exact le_trans (List.length_filter_le _ _) hlen
        · rw [if_neg hi]
          have hnil : recs.filter (fun c => decide (c.triId = i)) = [] := by
            rw [List.filter_eq_nil_iff]
            intro c hc
            have := (hrec c hc).1
            simp only [decide_eq_true_eq]
            omega
          simp [hnil]
      have h3 := hL3 i
      simp only [List.filter_append, List.length_append, List.length_cons] at h3 ⊢
      split_ifs at h3 hcount ⊢ <;> omega

theorem loneVertex_iff (sd : Nat → Int) (c0 : sd 0 = 1 ∨ sd 0 = -1 ∨ sd 0 = 0)
    (c1 : sd 1 = 1 ∨ sd 1 = -1 ∨ sd 1 = 0) (c2 : sd 2 = 1 ∨ sd 2 = -1 ∨ sd 2 = 0) :
    (∃ j, j < 3 ∧ loneVertex sd j) ↔
      (sd 0 ≠ 0 ∧ sd 1 ≠ 0 ∧ sd 2 ≠ 0 ∧ ¬ (sd 0 = sd 1 ∧ sd 1 = sd 2)) := by
  constructor
  · rintro ⟨j, hj, h1, h2, h3⟩
    interval_cases j <;> simp at h1 h2 h3 <;> refine ⟨?_, ?_, ?_, ?_⟩ <;> omega
  · rintro ⟨h0, h1, h2, hne⟩
    by_cases h12 : sd 1 = sd 2
    · exact ⟨0, by decide, h0, by simp only [Nat.zero_add, Nat.reduceMod]; omega,
        by simp only [Nat.zero_add, Nat.reduceMod]; omega⟩
    · by_cases h02 : sd 0 = sd 2
      · exact ⟨1, by decide, h1, by simp only [Nat.reduceAdd, Nat.reduceMod]; omega,
          by simp only [Nat.reduceAdd, Nat.reduceMod]; omega⟩
      · exact ⟨2, by decide, h2, by simp only [Nat.reduceAdd, Nat.reduceMod]; omega,
          by simp only [Nat.reduceAdd, Nat.reduceMod]; omega⟩

theorem generateCutData_eq (m_Plane : Plane) (m_Epsilon : ℚ) (vertices : List Vec3d)
    (triangles : List Vec3i) (st : CutGen)
    (h : cutTriangles m_Plane m_Epsilon vertices 0 triangles { cutData := [], repeatEdges := [] }
      = .ok st) :
    generateCutData m_Plane m_Epsilon vertices triangles = .ok st.cutData := by
  simp [generateCutData, h, bind, Except.bind, pure, Except.pure]

/-- On a mesh whose triangles have valid indices, `generateCutData` succeeds and every
record it makes is the record of the triangle `c.triId`; a `VERT_VERT` record comes with
an earlier triangle that has the same edge in the reverse direction. -/
theorem generateCutData_records (m_Plane : Plane) (m_Epsilon : ℚ) (vertices : List Vec3d)
    (triangles : List Vec3i) (hvalid : ∀ tri ∈ triangles, validTriangle vertices tri) :
    ∃ cutData, generateCutData m_Plane m_Epsilon vertices triangles = .ok cutData ∧
      (∀ c ∈ cutData, ∃ tri, triangles[c.triId]? = some tri ∧
        RecordOf m_Plane m_Epsilon vertices c.triId tri c ∧
        (c.cutType = CutType.VERT_VERT →
          ∃ k1 tri1 j1, k1 < c.triId ∧ triangles[k1]? = some tri1 ∧ j1 < 3 ∧
            (tri1.get ((j1 + 1) % 3), tri1.get ((j1 + 2) % 3)) = (c.ptIds.2, c.ptIds.1))) ∧
      (∀ k tri, triangles[k]? = some tri → ∀ j, j < 3 →
        (loneVertex (triSide m_Plane m_Epsilon vertices tri) j →
          edgeEdgeRecord m_Plane k tri (triPos vertices tri) j ∈ cutData) ∧
        (vertexOnPlane (triSide m_Plane m_Epsilon vertices tri) j →
          edgeVertRecord m_Plane k tri (triPos vertices tri) j ∈ cutData)) ∧
      (∀ i, i < triangles.length →
        (cutData.filter (fun c => decide (c.triId = i))).length ≤ 1) := by
  obtain ⟨st1, hrun, _, hL1, _, hL2, hL3⟩ := cutTriangles_spec m_Plane m_Epsilon vertices
    triangles hvalid 0 { cutData := [], repeatEdges := [] }
  refine ⟨st1.cutData, generateCutData_eq _ _ _ _ _ hrun, ?_, ?_, ?_⟩
  · intro c hc
    rcases hL1 c hc with hc0 | ⟨k, tri, hk, hid, hrecord, hvv⟩
    · simp at hc0
    · simp only [Nat.zero_add] at hid hrecord
      subst hid
      refine ⟨tri, hk, hrecord, fun ht => ?_⟩
      rcases hvv ht with h0 | h1
      · simp at h0
      · exact h1
  · intro k tri hk j hj
    have := hL2 k tri hk j hj
    simpa only [Nat.zero_add] using this
  · intro i hi
    have := hL3 i
    simp only [List.filter_nil, List.length_nil, Nat.zero_add] at this
    split_ifs at this <;> omega

theorem recordOf_facts {m_Plane : Plane} {m_Epsilon : ℚ} {vertices : List Vec3d} {i : Nat}
    {tri : Vec3i} {c : CutData} (h : RecordOf m_Plane m_Epsilon vertices i tri c) :
    (c.cutType = CutType.EDGE_EDGE ∨ c.cutType = CutType.EDGE_VERT ∨
      c.cutType = CutType.VERT_VERT) ∧
    (c.cutType = CutType.EDGE_EDGE → ∃ j, j < 3 ∧
      loneVertex (triSide m_Plane m_Epsilon vertices tri) j ∧
      c = edgeEdgeRecord m_Plane i tri (triPos vertices tri) j) ∧
    (c.cutType = CutType.EDGE_VERT → ∃ j, j < 3 ∧
      vertexOnPlane (triSide m_Plane m_Epsilon vertices tri) j ∧
      c = edgeVertRecord m_Plane i tri (triPos vertices tri) j) ∧
    (c.cutType = CutType.VERT_VERT → ∃ j, j < 3 ∧
      edgeOnPlane (triSide m_Plane m_Epsilon vertices tri) j ∧
      c = vertVertRecord i tri (triPos vertices tri) j) ∧
    ¬ noCrossing (triSide m_Plane m_Epsilon vertices tri) := by
  rcases h with ⟨j, hj, hp, rfl⟩ | ⟨j, hj, hp, rfl⟩ | ⟨j, hj, hp, rfl⟩
  · exact ⟨Or.inl rfl, fun _ => ⟨j, hj, hp, rfl⟩, fun ht => by simp [edgeEdgeRecord] at ht,
      fun ht => by simp [edgeEdgeRecord] at ht, fun hn => noCrossing_not_loneVertex _ j hj hn hp⟩
  · exact ⟨Or.inr (Or.inl rfl), fun ht => by simp [edgeVertRecord] at ht,
      fun _ => ⟨j, hj, hp, rfl⟩, fun ht => by simp [edgeVertRecord] at ht,
      fun hn => noCrossing_not_vertexOnPlane _ j hj hn hp⟩
  · exact ⟨Or.inr (Or.inr rfl), fun ht => by simp [vertVertRecord] at ht,
      fun ht => by simp [vertVertRecord] at ht, fun _ => ⟨j, hj, hp, rfl⟩,
      fun hn => noCrossing_not_edgeOnPlane _ j hj hn hp⟩

/-- C19: on a mesh whose triangles have valid indices, `generateCutData` records at most
one cut per triangle, of a type decided by the sides of its three vertices: `EDGE_EDGE`
exactly when the three are off the plane and not all on the same side; `EDGE_VERT`
exactly when one vertex is on the plane and the other two are on opposite sides;
`VERT_VERT` only when two vertices are on the plane and an earlier triangle has the same
edge in the reverse direction; and no record when the plane does not cross the triangle
(all on the plane, all on one side, or one on the plane and two on the same side). -/
theorem generateCutData_classification (m_Plane : Plane) (m_Epsilon : ℚ)
    (vertices : List Vec3d) (triangles : List Vec3i)
    (hvalid : ∀ tri ∈ triangles, validTriangle vertices tri) :
    ∃ cutData, generateCutData m_Plane m_Epsilon vertices triangles = .ok cutData ∧
      (∀ c ∈ cutData, c.triId < triangles.length ∧
        (c.cutType = CutType.EDGE_EDGE ∨ c.cutType = CutType.EDGE_VERT ∨
          c.cutType = CutType.VERT_VERT)) ∧
      ∀ i tri, triangles[i]? = some tri →
        (cutData.filter (fun c => decide (c.triId = i))).length ≤ 1 ∧
        ((∃ c ∈ cutData, c.triId = i ∧ c.cutType = CutType.EDGE_EDGE) ↔
          (triSide m_Plane m_Epsilon vertices tri 0 ≠ 0 ∧
            triSide m_Plane m_Epsilon vertices tri 1 ≠ 0 ∧
            triSide m_Plane m_Epsilon vertices tri 2 ≠ 0 ∧
            ¬ (triSide m_Plane m_Epsilon vertices tri 0 = triSide m_Plane m_Epsilon vertices tri 1 ∧
              triSide m_Plane m_Epsilon vertices tri 1
                = triSide m_Plane m_Epsilon vertices tri 2))) ∧
        ((∃ c ∈ cutData, c.triId = i ∧ c.cutType = CutType.EDGE_VERT) ↔
          ∃ j, j < 3 ∧ vertexOnPlane (triSide m_Plane m_Epsilon vertices tri) j) ∧
        (∀ c ∈ cutData, c.triId = i → c.cutType = CutType.VERT_VERT →
          (∃ j, j < 3 ∧ edgeOnPlane (triSide m_Plane m_Epsilon vertices tri) j ∧
            c.ptIds = (tri.get ((j + 1) % 3), tri.get ((j + 2) % 3))) ∧
          ∃ k1 tri1 j1, k1 < i ∧ triangles[k1]? = some tri1 ∧ j1 < 3 ∧
            (tri1.get ((j1 + 1) % 3), tri1.get ((j1 + 2) % 3)) = (c.ptIds.2, c.ptIds.1)) ∧
        (noCrossing (triSide m_Plane m_Epsilon vertices tri) →
          ∀ c ∈ cutData, c.triId ≠ i) := by
  obtain ⟨cutData, hgen, hrec, hex, hcount⟩ :=
    generateCutData_records m_Plane m_Epsilon vertices triangles hvalid
  have hown : ∀ c ∈ cutData, ∀ i tri, triangles[i]? = some tri → c.triId = i →
      RecordOf m_Plane m_Epsilon vertices i tri c := by
    intro c hc i tri hi hid
    obtain ⟨tri1, htri1, hrecord, _⟩ := hrec c hc
    rw [hid, hi] at htri1
    cases htri1
    rw [hid] at hrecord
    exact hrecord
  refine ⟨cutData, hgen, ?_, ?_⟩
  · intro c hc
    obtain ⟨tri, htri, hrecord, _⟩ := hrec c hc
    exact ⟨(List.getElem?_eq_some.1 htri).1, (recordOf_facts hrecord).1⟩
  · intro i tri hi
    have hlt : i < triangles.length := (List.getElem?_eq_some.1 hi).1
    refine ⟨hcount i hlt, ?_, ?_, ?_, ?_⟩
    · rw [← loneVertex_iff _ (triSide_cases _ _ _ _ 0) (triSide_cases _ _ _ _ 1)
        (triSide_cases _ _ _ _ 2)]
      constructor
      · rintro ⟨c, hc, hid, ht⟩
        obtain ⟨j, hj, hp, _⟩ := (recordOf_facts (hown c hc i tri hi hid)).2.1 ht
        exact ⟨j, hj, hp⟩
      · rintro ⟨j, hj, hp⟩
        exact ⟨_, (hex i tri hi j hj).1 hp, rfl, rfl⟩
    · constructor
      · rintro ⟨c, hc, hid, ht⟩
        obtain ⟨j, hj, hp, _⟩ := (recordOf_facts (hown c hc i tri hi hid)).2.2.1 ht
        exact ⟨j, hj, hp⟩
      · rintro ⟨j, hj, hp⟩
        exact ⟨_, (hex i tri hi j hj).2 hp, rfl, rfl⟩
    · intro c hc hid ht
      obtain ⟨j, hj, hp, hceq⟩ := (recordOf_facts (hown c hc i tri hi hid)).2.2.2.1 ht
      refine ⟨⟨j, hj, hp, by rw [hceq]; rfl⟩, ?_⟩
      obtain ⟨_, _, _, hvv⟩ := hrec c hc
      rw [hid] at hvv
      exact hvv ht
    · intro hn c hc hid
      exact (recordOf_facts (hown c hc i tri hi hid)).2.2.2.2 hn

theorem generateCutData_classification_witness :
    ∃ cutData, generateCutData samplePlane 0 sampleVertices sampleTriangles = .ok cutData ∧
      (cutData.filter (fun c => decide (c.triId = 1))).length ≤ 1 ∧
      cutData.map (fun c => (c.cutType, c.triId, c.ptIds))
        = [(CutType.VERT_VERT, 1, (1, 0)), (CutType.EDGE_VERT, 2, (2, 3))] := by
  obtain ⟨cutData, hgen, _, h⟩ := generateCutData_classification samplePlane 0 sampleVertices
    sampleTriangles (by simp [sampleTriangles, sampleVertices, validTriangle])
  refine ⟨cutData, hgen, (h 1 { v0 := 1, v1 := 0, v2 := 2 } rfl).1, ?_⟩
  have hval : (generateCutData samplePlane 0 sampleVertices sampleTriangles).map
      (fun l => l.map (fun c => (c.cutType, c.triId, c.ptIds)))
      = .ok [(CutType.VERT_VERT, 1, (1, 0)), (CutType.EDGE_VERT, 2, (2, 3))] := by
    norm_num [generateCutData, cutTriangles, cutTriangle, forJ, cutCase1, cutCase2, cutCase3,
      sampleTriangles, sampleVertices, samplePlane, vertexAt, Vec3i.get, pointOnPlaneSide,
      Vec3d.dot, Vec3d.sub, sideAt, bind, Except.bind, pure, Except.pure, Except.map]
  rw [hgen] at hval
  simpa [Except.map] using hval

/-- The interpolation of `generateCutData` on an edge whose endpoints are on opposite
sides of the plane, for a tolerance `m_Epsilon ≥ 0`. -/
theorem cutCoord_spec (m_Plane : Plane) (m_Epsilon : ℚ) (heps : 0 ≤ m_Epsilon)
    (p0 p1 : Vec3d) (s : Int) (hs : s ≠ 0)
    (h0 : pointOnPlaneSide m_Plane m_Epsilon p0 = s)
    (h1 : pointOnPlaneSide m_Plane m_Epsilon p1 = -s) :
    InterpolatedCut m_Plane.getPosition m_Plane.getNormal p0 p1
      (cutCoord m_Plane.getPosition m_Plane.getNormal p0 p1) := by
  obtain ⟨p, n⟩ := m_Plane
  obtain ⟨px, py, pz⟩ := p
  obtain ⟨nx, ny, nz⟩ := n
  obtain ⟨ax, ay, az⟩ := p0
  obtain ⟨bx, byy, bz⟩ := p1
  simp only [pointOnPlaneSide, Vec3d.dot, Vec3d.sub] at h0 h1
  have hsigns : (0 < nx * (ax - px) + ny * (ay - py) + nz * (az - pz) ∧
        nx * (bx - px) + ny * (byy - py) + nz * (bz - pz) < 0) ∨
      (nx * (ax - px) + ny * (ay - py) + nz * (az - pz) < 0 ∧
        0 < nx * (bx - px) + ny * (byy - py) + nz * (bz - pz)) := by
    split_ifs at h0 h1 <;> first
      | (left; constructor <;> linarith)
      | (right; constructor <;> linarith)
      | (exfalso; omega)
  have hD : (bx - ax) * nx + (byy - ay) * ny + (bz - az) * nz
      = (nx * (bx - px) + ny * (byy - py) + nz * (bz - pz))
        - (nx * (ax - px) + ny * (ay - py) + nz * (az - pz)) := by ring
  have hN : (px - ax) * nx + (py - ay) * ny + (pz - az) * nz
      = - (nx * (ax - px) + ny * (ay - py) + nz * (az - pz)) := by ring
  have hDne : (bx - ax) * nx + (byy - ay) * ny + (bz - az) * nz ≠ 0 := by
    rw [hD]
    rcases hsigns with ⟨ha, hb⟩ | ⟨ha, hb⟩ <;> intro h <;> linarith
  simp only [InterpolatedCut, cutCoord, Vec3d.dot, Vec3d.sub, Vec3d.add, Vec3d.smul]
  refine ⟨hDne, ?_, ?_, ?_, ?_⟩
  · simp only [Vec3d.mk.injEq]
    refine ⟨by ring, by ring, by ring⟩
  · field_simp
    ring
  · rw [hN, hD]
    rcases hsigns with ⟨ha, hb⟩ | ⟨ha, hb⟩
    · exact div_pos_of_neg_of_neg (by linarith) (by linarith)
    · exact div_pos (by linarith) (by linarith)
  · rw [hN, hD]
    rcases hsigns with ⟨ha, hb⟩ | ⟨ha, hb⟩
    · rw [div_lt_one_of_neg (by linarith)]
      linarith
    · rw [div_lt_one (by linarith)]
      linarith

/-- C20: for a tolerance `m_Epsilon ≥ 0`, on a mesh whose triangles have valid indices,
every `EDGE_VERT` and `EDGE_EDGE` record of `generateCutData` has cut coordinates that are
interpolated on the crossed edges of its triangle with a nonzero divisor
`(p1 - p0).n`, lie on the plane, and have their parameter `t` strictly between `0` and
`1`: the edge between the two recorded points for `EDGE_VERT`, the two edges from the
recorded points to the lone vertex for `EDGE_EDGE`. -/
theorem cutCoords_interpolated (m_Plane : Plane) (m_Epsilon : ℚ) (vertices : List Vec3d)
    (triangles : List Vec3i) (hvalid : ∀ tri ∈ triangles, validTriangle vertices tri)
    (heps : 0 ≤ m_Epsilon) :
    ∃ cutData, generateCutData m_Plane m_Epsilon vertices triangles = .ok cutData ∧
      ∀ c ∈ cutData, ∃ tri, triangles[c.triId]? = some tri ∧
        (c.cutType = CutType.EDGE_VERT → ∃ j, j < 3 ∧
          c.ptIds = (tri.get ((j + 1) % 3), tri.get ((j + 2) % 3)) ∧
          InterpolatedCut m_Plane.getPosition m_Plane.getNormal
            (triPos vertices tri ((j + 1) % 3)) (triPos vertices tri ((j + 2) % 3))
            c.cutCoords.1) ∧
        (c.cutType = CutType.EDGE_EDGE → ∃ j, j < 3 ∧
          c.ptIds = (tri.get ((j + 1) % 3), tri.get ((j + 2) % 3)) ∧
          InterpolatedCut m_Plane.getPosition m_Plane.getNormal
            (triPos vertices tri ((j + 1) % 3)) (triPos vertices tri j) c.cutCoords.1 ∧
          InterpolatedCut m_Plane.getPosition m_Plane.getNormal
            (triPos vertices tri ((j + 2) % 3)) (triPos vertices tri j) c.cutCoords.2) := by
  obtain ⟨cutData, hgen, hrec, _, _⟩ :=
    generateCutData_records m_Plane m_Epsilon vertices triangles hvalid
  refine ⟨cutData, hgen, fun c hc => ?_⟩
  obtain ⟨tri, htri, hrecord, _⟩ := hrec c hc
  refine ⟨tri, htri, ?_, ?_⟩
  · intro ht
    obtain ⟨j, hj, ⟨_, ha, hb⟩, hceq⟩ := (recordOf_facts hrecord).2.2.1 ht
    refine ⟨j, hj, by rw [hceq]; rfl, ?_⟩
    rw [hceq]
    exact cutCoord_spec m_Plane m_Epsilon heps _ _ _ ha rfl hb
  · intro ht
    obtain ⟨j, hj, ⟨hlone, ha, hb⟩, hceq⟩ := (recordOf_facts hrecord).2.1 ht
    refine ⟨j, hj, by rw [hceq]; rfl, ?_, ?_⟩
    · rw [hceq]
      refine cutCoord_spec m_Plane m_Epsilon heps _ _ (-triSide m_Plane m_Epsilon vertices tri j)
        (by simpa using hlone) ha ?_
      simp only [neg_neg]
      rfl
    · rw [hceq]
      refine cutCoord_spec m_Plane m_Epsilon heps _ _ (-triSide m_Plane m_Epsilon vertices tri j)
        (by simpa using hlone) hb ?_
      simp only [neg_neg]
      rfl

theorem cutCoords_interpolated_witness :
    ∃ cutData, generateCutData samplePlane 0 sampleVertices sampleTriangles = .ok cutData ∧
      ∀ c ∈ cutData, ∃ tri, sampleTriangles[c.triId]? = some tri ∧
        (c.cutType = CutType.EDGE_VERT → ∃ j, j < 3 ∧
          c.ptIds = (tri.get ((j + 1) % 3), tri.get ((j + 2) % 3)) ∧
          InterpolatedCut samplePlane.getPosition samplePlane.getNormal
            (triPos sampleVertices tri ((j + 1) % 3)) (triPos sampleVertices tri ((j + 2) % 3))
            c.cutCoords.1) := by
  obtain ⟨cutData, hgen, h⟩ := cutCoords_interpolated samplePlane 0 sampleVertices
    sampleTriangles (by simp [sampleTriangles, sampleVertices, validTriangle]) (le_refl 0)
  refine ⟨cutData, hgen, fun c hc => ?_⟩
  obtain ⟨tri, htri, hev, _⟩ := h c hc
  exact ⟨tri, htri, hev⟩

theorem generateCutData_single_edge_edge (m_Plane : Plane) (m_Epsilon : ℚ)
    (vertices : List Vec3d) (tri : Vec3i) (hv : validTriangle vertices tri) (j : Nat)
    (hj : j < 3) (hp : loneVertex (triSide m_Plane m_Epsilon vertices tri) j) :
    generateCutData m_Plane m_Epsilon vertices [tri]
      = .ok [edgeEdgeRecord m_Plane 0 tri (triPos vertices tri) j] := by
  have h := triangleSides_of_valid m_Plane m_Epsilon vertices tri hv
  have hc := cutTriangle_edge_edge h 0 { cutData := [], repeatEdges := [] } j hj
    (by rw [sideAt_triSide]; exact hp)
  rw [posAt_triPos] at hc
  simp [generateCutData, cutTriangles, hc, bind, Except.bind, pure, Except.pure]

/-- The step of `refinement` for the `EDGE_EDGE` record of a single triangle with three
different vertex indices. -/
theorem refinement_edge_edge_record (m_Plane : Plane) (vertices : List Vec3d) (tri : Vec3i)
    (pos : Nat → Vec3d)
    (hd : tri.v0 ≠ tri.v1 ∧ tri.v1 ≠ tri.v2 ∧ tri.v0 ≠ tri.v2) (j : Nat) (hj : j < 3) :
    refinement [edgeEdgeRecord m_Plane 0 tri pos j] [tri] vertices []
      = .ok ([{ v0 := tri.get j, v1 := vertices.length, v2 := vertices.length + 1 },
              { v0 := vertices.length, v1 := tri.get ((j + 1) % 3),
                v2 := tri.get ((j + 2) % 3) },
              { v0 := vertices.length, v1 := tri.get ((j + 2) % 3),
                v2 := vertices.length + 1 }],
             vertices ++
              [cutCoord m_Plane.getPosition m_Plane.getNormal (pos ((j + 1) % 3)) (pos j),
               cutCoord m_Plane.getPosition m_Plane.getNormal (pos ((j + 2) % 3)) (pos j)],
             [(vertices.length, false), (vertices.length + 1, false)]) := by
  obtain ⟨h01, h12, h02⟩ := hd
  have h10 := Ne.symm h01
  have h21 := Ne.symm h12
  have h20 := Ne.symm h02
  have hb0 : ((tri.v0, tri.v2) == (tri.v0, tri.v1)) = false := by simpa using h21
  have hb1 : ((tri.v1, tri.v0) == (tri.v1, tri.v2)) = false := by simpa using h02
  have hb2 : ((tri.v2, tri.v1) == (tri.v2, tri.v0)) = false := by simpa using h10
  have hb3 : (vertices.length + 1 == vertices.length) = false := by simp
  interval_cases j <;>
  simp [refinement, refineLoop, refineStep, edgeEdgeRecord, triangleAt, thirdPoint, addNewPoint,
    Vec3i.get, assocSet, markCutVert, cutVertsAssign, List.lookup, bind, Except.bind, pure,
    Except.pure, h01, h12, h02, h10, h21, h20, hb0, hb1, hb2, hb3]

/-- C11: for a mesh with the single triangle `tri`, of three different valid vertex
indices, whose vertices are all off the plane and not all on the same side,
`generateCutData` followed by `refinement` gives three triangles, the slot of `tri` now
holding (lone vertex, new0, new1) and the two appended ones being (new0, a, b) and
(new0, b, new1), and two appended vertices new0 and new1, the interpolated cuts of the
edges from a and from b to the lone vertex; the vertices that were there are unchanged. -/
theorem refinement_single_triangle (m_Plane : Plane) (m_Epsilon : ℚ) (vertices : List Vec3d)
    (tri : Vec3i) (hv : validTriangle vertices tri)
    (hd : tri.v0 ≠ tri.v1 ∧ tri.v1 ≠ tri.v2 ∧ tri.v0 ≠ tri.v2)
    (hoff : triSide m_Plane m_Epsilon vertices tri 0 ≠ 0 ∧
      triSide m_Plane m_Epsilon vertices tri 1 ≠ 0 ∧
      triSide m_Plane m_Epsilon vertices tri 2 ≠ 0 ∧
      ¬ (triSide m_Plane m_Epsilon vertices tri 0 = triSide m_Plane m_Epsilon vertices tri 1 ∧
        triSide m_Plane m_Epsilon vertices tri 1 = triSide m_Plane m_Epsilon vertices tri 2)) :
    ∃ j, j < 3 ∧ loneVertex (triSide m_Plane m_Epsilon vertices tri) j ∧
      (generateCutData m_Plane m_Epsilon vertices [tri]).bind
          (fun m_CutData => refinement m_CutData [tri] vertices [])
        = .ok ([{ v0 := tri.get j, v1 := vertices.length, v2 := vertices.length + 1 },
                { v0 := vertices.length, v1 := tri.get ((j + 1) % 3),
                  v2 := tri.get ((j + 2) % 3) },
                { v0 := vertices.length, v1 := tri.get ((j + 2) % 3),
                  v2 := vertices.length + 1 }],
               vertices ++
                [cutCoord m_Plane.getPosition m_Plane.getNormal
                  (triPos vertices tri ((j + 1) % 3)) (triPos vertices tri j),
                 cutCoord m_Plane.getPosition m_Plane.getNormal
                  (triPos vertices tri ((j + 2) % 3)) (triPos vertices tri j)],
               [(vertices.length, false), (vertices.length + 1, false)]) := by
  obtain ⟨j, hj, hp⟩ := (loneVertex_iff _ (triSide_cases _ _ _ _ 0) (triSide_cases _ _ _ _ 1)
    (triSide_cases _ _ _ _ 2)).2 hoff
  refine ⟨j, hj, hp, ?_⟩
  rw [generateCutData_single_edge_edge m_Plane m_Epsilon vertices tri hv j hj hp]
  exact refinement_edge_edge_record m_Plane vertices tri _ hd j hj

theorem refinement_single_triangle_witness :
    ∃ j, j < 3 ∧
      loneVertex (triSide samplePlane 0 cutTriangleVertices { v0 := 0, v1 := 1, v2 := 2 }) j ∧
      (generateCutData samplePlane 0 cutTriangleVertices [{ v0 := 0, v1 := 1, v2 := 2 }]).bind
          (fun m_CutData =>
            refinement m_CutData [{ v0 := 0, v1 := 1, v2 := 2 }] cutTriangleVertices [])
        = .ok ([{ v0 := Vec3i.get { v0 := 0, v1 := 1, v2 := 2 } j,
                  v1 := cutTriangleVertices.length, v2 := cutTriangleVertices.length + 1 },
                { v0 := cutTriangleVertices.length,
                  v1 := Vec3i.get { v0 := 0, v1 := 1, v2 := 2 } ((j + 1) % 3),
                  v2 := Vec3i.get { v0 := 0, v1 := 1, v2 := 2 } ((j + 2) % 3) },
                { v0 := cutTriangleVertices.length,
                  v1 := Vec3i.get { v0 := 0, v1 := 1, v2 := 2 } ((j + 2) % 3),
                  v2 := cutTriangleVertices.length + 1 }],
               cutTriangleVertices ++
                [cutCoord samplePlane.getPosition samplePlane.getNormal
                  (triPos cutTriangleVertices { v0 := 0, v1 := 1, v2 := 2 } ((j + 1) % 3))
                  (triPos cutTriangleVertices { v0 := 0, v1 := 1, v2 := 2 } j),
                 cutCoord samplePlane.getPosition samplePlane.getNormal
                  (triPos cutTriangleVertices { v0 := 0, v1 := 1, v2 := 2 } ((j + 2) % 3))
                  (triPos cutTriangleVertices { v0 := 0, v1 := 1, v2 := 2 } j)],
               [(cutTriangleVertices.length, false), (cutTriangleVertices.length + 1, false)]) :=
  refinement_single_triangle samplePlane 0 cutTriangleVertices { v0 := 0, v1 := 1, v2 := 2 }
    (by simp [validTriangle, cutTriangleVertices]) (by decide)
    (by norm_num [triSide, triPos, vertexPos, Vec3i.get, cutTriangleVertices, samplePlane,
      pointOnPlaneSide, Vec3d.dot, Vec3d.sub])

theorem nonRepeatLoop_ok (triangles : List Vec3i) (ts : List Nat)
    (h : ∀ t ∈ ts, t < triangles.length) (acc : List Nat) :
    ∃ r, nonRepeatLoop triangles ts acc = .ok r := by
  induction ts generalizing acc with
  | nil => exact ⟨acc, rfl⟩
  | cons t rest ih =>
    have ht := h t (List.mem_cons_self _ _)
    simp only [nonRepeatLoop, triangleAt, List.getElem?_eq_getElem ht, bind, Except.bind]
    exact ih (fun u hu => h u (List.mem_cons_of_mem _ hu)) _

theorem vertexOnBoundary_ok (triangles : List Vec3i) (triSet : List Nat)
    (h : ∀ t ∈ triSet, t < triangles.length) :
    ∃ b, vertexOnBoundary triangles triSet = .ok b := by
  obtain ⟨r, hr⟩ := nonRepeatLoop_ok triangles triSet h []
  exact ⟨decide (r.length ≥ 2), by simp [vertexOnBoundary, hr, bind, Except.bind, pure, Except.pure]⟩

theorem validTriangle_replaceVert (vertices : List Vec3d) (tri : Vec3i) (cutVert newPtId : Nat)
    (hv : validTriangle vertices tri) (hnew : newPtId < vertices.length) :
    validTriangle vertices (replaceVert tri cutVert newPtId) := by
  obtain ⟨h0, h1, h2⟩ := hv
  simp only [replaceVert, Vec3i.get, Vec3i.set]
  split_ifs <;> simp_all [validTriangle]

/-- The loop of `splitVerts` over the triangles around a split vertex: it succeeds, and
each triangle of the list that has a vertex on the negative side of the plane gets the new
point for the split vertex, the other triangles being left as they are. -/
theorem splitFan_spec (m_Plane : Plane) (m_Epsilon : ℚ) (vertices : List Vec3d)
    (cutVert newPtId : Nat) (hnew : newPtId < vertices.length) (ts : List Nat)
    (triangles : List Vec3i) (hnodup : ts.Nodup) (hrange : ∀ t ∈ ts, t < triangles.length)
    (hvalid : ∀ tri ∈ triangles, validTriangle vertices tri) :
    ∃ triangles1, splitFan m_Plane m_Epsilon vertices cutVert newPtId ts triangles
        = .ok triangles1 ∧ triangles1.length = triangles.length ∧
      ∀ t tri, triangles[t]? = some tri → triangles1[t]? = some
        (if t ∈ ts ∧ onNegativeSide m_Plane m_Epsilon vertices tri then
          replaceVert tri cutVert newPtId else tri) := by
  induction ts generalizing triangles with
  | nil =>
    refine ⟨triangles, rfl, rfl, fun t tri ht => ?_⟩
    simp [ht]
  | cons t rest ih =>
    have ht := hrange t (List.mem_cons_self _ _)
    obtain ⟨htrest, hnodup1⟩ := List.nodup_cons.1 hnodup
    obtain ⟨tri0, htri⟩ : ∃ tri0, triangles[t]? = some tri0 :=
      ⟨triangles[t], List.getElem?_eq_getElem ht⟩
    have hv : validTriangle vertices tri0 := by
      obtain ⟨hlt, heq⟩ := List.getElem?_eq_some.1 htri
      exact hvalid _ (heq ▸ List.getElem_mem hlt)
    have h0 := vertexPos_spec vertices tri0.v0 hv.1
    have h1 := vertexPos_spec vertices tri0.v1 hv.2.1
    have h2 := vertexPos_spec vertices tri0.v2 hv.2.2
    have hstep : splitFan m_Plane m_Epsilon vertices cutVert newPtId (t :: rest) triangles
        = splitFan m_Plane m_Epsilon vertices cutVert newPtId rest
            (if onNegativeSide m_Plane m_Epsilon vertices tri0 then
              triangles.set t (replaceVert tri0 cutVert newPtId) else triangles) := by
      simp only [splitFan, triangleAt, htri, vertexAt, Vec3i.get, bind, Except.bind]
      simp only [Nat.reduceEqDiff, ↓reduceIte, OfNat.ofNat_ne_zero, OfNat.ofNat_ne_one,
        one_ne_zero, h0, h1, h2]
      rfl
    rw [hstep]
    by_cases hneg : onNegativeSide m_Plane m_Epsilon vertices tri0
    · rw [if_pos hneg]
      have hvalid1 : ∀ tri ∈ triangles.set t (replaceVert tri0 cutVert newPtId),
          validTriangle vertices tri := by
        intro tri hmem
        rcases List.mem_or_eq_of_mem_set hmem with h | h
        · exact hvalid tri h
        · rw [h]
          exact validTriangle_replaceVert vertices _ _ _ hv hnew
      obtain ⟨triangles1, hrun, hlen, hspec⟩ := ih
        (triangles.set t (replaceVert tri0 cutVert newPtId)) hnodup1
        (fun u hu => by
          rw [List.length_set]
          exact hrange u (List.mem_cons_of_mem _ hu)) hvalid1
      refine ⟨triangles1, hrun, by rw [hlen, List.length_set], ?_⟩
      intro u tri hu
      by_cases hut : u = t
      · subst hut
        rw [htri] at hu
        cases hu
        have := hspec u (replaceVert tri0 cutVert newPtId)
          (by simp [List.getElem?_set, ht])
        rw [this, if_neg (fun h => htrest h.1), if_pos ⟨List.mem_cons_self _ _, hneg⟩]
      · have := hspec u tri (by rw [List.getElem?_set_ne (Ne.symm hut)]; exact hu)
        rw [this]
        simp only [List.mem_cons, hut, false_or]
    · rw [if_neg hneg]
      obtain ⟨triangles1, hrun, hlen, hspec⟩ := ih triangles hnodup1
        (fun u hu => hrange u (List.mem_cons_of_mem _ hu)) hvalid
      refine ⟨triangles1, hrun, hlen, ?_⟩
      intro u tri hu
      rw [hspec u tri hu]
      by_cases hut : u = t
      · subst hut
        rw [htri] at hu
        cases hu
        rw [if_neg (fun h => htrest h.1), if_neg (fun h => hneg h.2)]
      · simp only [List.mem_cons, hut, false_or]

/-- C12 (counterexample): `requestUpdate` on the mesh of the single triangle `(0, 1, 2)`
with the vertices `(-1, 0, 0)`, `(1, 0, 0)`, `(1, 1, 0)` and the plane `x = 0`.
`generateCutData` and `refinement` give the triangles `(0, 3, 4)`, `(3, 1, 2)`, `(3, 2, 4)`
with the new vertices `3` and `4` on the plane, on two edges of the boundary of the mesh,
and the cutting path `3`, `4` (both flags `false`). `vertexOnBoundary` is true for both,
and `splitVerts` duplicates both: the copies `5` and `6` are appended, and the triangle on
the negative side is redirected to them. -/
theorem requestUpdate_boundary_vertices_split :
    (generateCutData samplePlane 0 cutTriangleVertices [{ v0 := 0, v1 := 1, v2 := 2 }]).bind
        (fun m_CutData =>
          refinement m_CutData [{ v0 := 0, v1 := 1, v2 := 2 }] cutTriangleVertices [])
      = .ok ([{ v0 := 0, v1 := 3, v2 := 4 }, { v0 := 3, v1 := 1, v2 := 2 },
              { v0 := 3, v1 := 2, v2 := 4 }],
             cutTriangleVertices ++ [{ x := 0, y := 0, z := 0 }, { x := 0, y := 1 / 2, z := 0 }],
             [(3, false), (4, false)]) ∧
    vertexOnBoundary [{ v0 := 0, v1 := 3, v2 := 4 }, { v0 := 3, v1 := 1, v2 := 2 },
        { v0 := 3, v1 := 2, v2 := 4 }] [0, 1, 2] = .ok true ∧
    vertexOnBoundary [{ v0 := 0, v1 := 3, v2 := 4 }, { v0 := 3, v1 := 1, v2 := 2 },
        { v0 := 3, v1 := 2, v2 := 4 }] [0, 2] = .ok true ∧
    requestUpdate samplePlane 0 [{ v0 := 0, v1 := 1, v2 := 2 }] cutTriangleVertices
      = .ok ([{ v0 := 0, v1 := 5, v2 := 6 }, { v0 := 3, v1 := 1, v2 := 2 },
              { v0 := 3, v1 := 2, v2 := 4 }],
             cutTriangleVertices ++ [{ x := 0, y := 0, z := 0 }, { x := 0, y := 1 / 2, z := 0 },
               { x := 0, y := 0, z := 0 }, { x := 0, y := 1 / 2, z := 0 }]) := by
  have hgen : generateCutData samplePlane 0 cutTriangleVertices [{ v0 := 0, v1 := 1, v2 := 2 }]
      = .ok [edgeEdgeRecord samplePlane 0 { v0 := 0, v1 := 1, v2 := 2 }
          (triPos cutTriangleVertices { v0 := 0, v1 := 1, v2 := 2 }) 0] :=
    generateCutData_single_edge_edge samplePlane 0 cutTriangleVertices
      { v0 := 0, v1 := 1, v2 := 2 } (by simp [validTriangle, cutTriangleVertices]) 0
      (by decide)
      (by norm_num [loneVertex, triSide, triPos, vertexPos, Vec3i.get, cutTriangleVertices,
        samplePlane, pointOnPlaneSide, Vec3d.dot, Vec3d.sub])
  have href : refinement [edgeEdgeRecord samplePlane 0 { v0 := 0, v1 := 1, v2 := 2 }
        (triPos cutTriangleVertices { v0 := 0, v1 := 1, v2 := 2 }) 0]
        [{ v0 := 0, v1 := 1, v2 := 2 }] cutTriangleVertices []
      = .ok ([{ v0 := 0, v1 := 3, v2 := 4 }, { v0 := 3, v1 := 1, v2 := 2 },
              { v0 := 3, v1 := 2, v2 := 4 }],
             cutTriangleVertices ++ [{ x := 0, y := 0, z := 0 }, { x := 0, y := 1 / 2, z := 0 }],
             [(3, false), (4, false)]) := by
    rw [refinement_edge_edge_record samplePlane cutTriangleVertices { v0 := 0, v1 := 1, v2 := 2 }
      _ (by decide) 0 (by decide)]
    norm_num [Vec3i.get, cutTriangleVertices, triPos, vertexPos, cutCoord, samplePlane,
      Vec3d.dot, Vec3d.sub, Vec3d.add, Vec3d.smul]
  refine ⟨?_, by decide, by decide, ?_⟩
  · rw [hgen]
    exact href
  · simp only [requestUpdate, hgen, href, bind, Except.bind]
    norm_num [splitVerts, buildNeighbors, neighborInsert, setInsert, splitLoop, splitVert,
      vertexOnBoundary, nonRepeatLoop, toggle, triangleAt, vertexAt, splitFan, replaceVert,
      Vec3i.get, Vec3i.set, cutTriangleVertices, samplePlane, pointOnPlaneSide, Vec3d.dot,
      Vec3d.sub, bind, Except.bind, pure, Except.pure, List.replicate]

/-- C12 (amended): for a vertex `v` of the cutting path, with the triangles `triSet` around
it, `splitVerts` leaves the vertex shared, nothing appended and no triangle rewritten,
when its flag is `false` and `vertexOnBoundary` is false for it (an end of the cut inside
the surface); otherwise, when the flag is `true` or `vertexOnBoundary` is true, it appends
one copy of the vertex and redirects to the copy the triangles of `triSet` that have a
vertex on the negative side of the plane, leaving the other triangles as they are. -/
theorem splitVert_spec (m_Plane : Plane) (m_Epsilon : ℚ)
    (vertexNeighborTriangles : List (List Nat)) (v : Nat) (flag : Bool)
    (triangles : List Vec3i) (vertices : List Vec3d) (triSet : List Nat)
    (hset : vertexNeighborTriangles[v]? = some triSet) (hnodup : triSet.Nodup)
    (hrange : ∀ t ∈ triSet, t < triangles.length)
    (hvalid : ∀ tri ∈ triangles, validTriangle vertices tri) (hv : v < vertices.length) :
    ∃ onBoundary, vertexOnBoundary triangles triSet = .ok onBoundary ∧
      (flag = false ∧ onBoundary = false →
        splitVert m_Plane m_Epsilon vertexNeighborTriangles (v, flag) (triangles, vertices)
          = .ok (triangles, vertices)) ∧
      (flag = true ∨ onBoundary = true →
        ∃ triangles1,
          splitVert m_Plane m_Epsilon vertexNeighborTriangles (v, flag) (triangles, vertices)
            = .ok (triangles1, vertices ++ [vertexPos vertices v]) ∧
          triangles1.length = triangles.length ∧
          ∀ t tri, triangles[t]? = some tri → triangles1[t]? = some
            (if t ∈ triSet ∧
                onNegativeSide m_Plane m_Epsilon (vertices ++ [vertexPos vertices v]) tri then
              replaceVert tri v vertices.length else tri)) := by
  obtain ⟨b, hb⟩ := vertexOnBoundary_ok triangles triSet hrange
  refine ⟨b, hb, ?_, ?_⟩
  · rintro ⟨hflag, hb0⟩
    subst hflag
    subst hb0
    simp [splitVert, hset, hb, bind, Except.bind, pure, Except.pure]
  · intro hsplit
    have hvalid1 : ∀ tri ∈ triangles, validTriangle (vertices ++ [vertexPos vertices v]) tri := by
      intro tri htri
      obtain ⟨h0, h1, h2⟩ := hvalid tri htri
      simp only [validTriangle, List.length_append, List.length_singleton]
      omega
    obtain ⟨triangles1, hrun, hlen, hspec⟩ := splitFan_spec m_Plane m_Epsilon
      (vertices ++ [vertexPos vertices v]) v vertices.length (by simp) triSet triangles hnodup
      hrange hvalid1
    refine ⟨triangles1, ?_, hlen, hspec⟩
    have hcopy : vertexAt vertices v = .ok (vertexPos vertices v) := by
      simp [vertexAt, vertexPos_spec vertices v hv]
    cases flag with
    | true =>
      simp [splitVert, hset, hcopy, hrun, bind, Except.bind, pure, Except.pure]
    | false =>
      have hb1 : b = true := by
        rcases hsplit with h | h
        · cases h
        · exact h
      subst hb1
      simp [splitVert, hset, hb, hcopy, hrun, bind, Except.bind, pure, Except.pure]

theorem splitVert_spec_witness :
    ∃ onBoundary, vertexOnBoundary tetraTriangles [0, 1, 2] = .ok onBoundary ∧
      (true = true ∨ onBoundary = true →
        ∃ triangles1,
          splitVert samplePlane 0 [[0, 1, 2], [0, 2, 3], [0, 1, 3], [1, 2, 3]] (0, true)
              (tetraTriangles, tetraVertices)
            = .ok (triangles1, tetraVertices ++ [vertexPos tetraVertices 0]) ∧
          triangles1.length = tetraTriangles.length) := by
  obtain ⟨b, hb, _, h⟩ := splitVert_spec samplePlane 0 [[0, 1, 2], [0, 2, 3], [0, 1, 3], [1, 2, 3]]
    0 true tetraTriangles tetraVertices [0, 1, 2] rfl (by decide) (by decide)
    (by simp [tetraTriangles, tetraVertices, validTriangle]) (by decide)
  refine ⟨b, hb, fun hs => ?_⟩
  obtain ⟨triangles1, h1, h2, _⟩ := h hs
  exact ⟨triangles1, h1, h2⟩

theorem mem_setInsert (x y : Nat) (s : List Nat) : y ∈ setInsert x s ↔ y = x ∨ y ∈ s := by
  induction s with
  | nil => simp [setInsert]
  | cons z zs ih =>
    unfold setInsert
    split_ifs with h1 h2
    · simp
    · subst h2
      simp
    · simp only [List.mem_cons, ih]
      tauto

theorem sorted_setInsert (x : Nat) (s : List Nat) (hs : s.Sorted (· < ·)) :
    (setInsert x s).Sorted (· < ·) := by
  induction s with
  | nil => simp [setInsert]
  | cons z zs ih =>
    have hz := List.sorted_cons.mp hs
    unfold setInsert
    split_ifs with h1 h2
    · refine List.sorted_cons.mpr ⟨?_, hs⟩
      intro b hb
      rcases List.mem_cons.mp hb with rfl | hb
      · exact h1
      · exact lt_trans h1 (hz.1 b hb)
    · exact hs
    · refine List.sorted_cons.mpr ⟨?_, ih hz.2⟩
      intro b hb
      rcases (mem_setInsert x b zs).mp hb with rfl | hb
      · omega
      · exact hz.1 b hb

theorem neighborInsert_spec (B : Nat) (l : List (List Nat)) (v k : Nat) (hv : v < l.length)
    (hk : k < B) (hl : ∀ s ∈ l, s.Sorted (· < ·) ∧ ∀ t ∈ s, t < B) :
    ∃ l1, neighborInsert l v k = .ok l1 ∧ l1.length = l.length ∧
      ∀ s ∈ l1, s.Sorted (· < ·) ∧ ∀ t ∈ s, t < B := by
  have hget : l[v]? = some l[v] := List.getElem?_eq_getElem hv
  refine ⟨l.set v (setInsert k l[v]), by simp [neighborInsert, hget], by simp, ?_⟩
  intro s hs
  rcases List.mem_or_eq_of_mem_set hs with h | h
  · exact hl s h
  · subst h
    have h0 := hl l[v] (List.getElem_mem hv)
    refine ⟨sorted_setInsert k _ h0.1, ?_⟩
    intro t ht
    rcases (mem_setInsert k t _).mp ht with rfl | ht
    · exact hk
    · exact h0.2 t ht

/-- The loop of `splitVerts` that builds `vertexNeighborTriangles` ends without a fault when
every triangle has its three indices in the vertex array, and each set it builds holds
different triangle ids (a `std::set`), all below the bound `B` on the triangle ids. -/
theorem buildNeighbors_spec (B : Nat) : ∀ (ts : List Vec3i) (k : Nat) (l : List (List Nat)),
    k + ts.length ≤ B →
    (∀ tri ∈ ts, tri.v0 < l.length ∧ tri.v1 < l.length ∧ tri.v2 < l.length) →
    (∀ s ∈ l, s.Sorted (· < ·) ∧ ∀ t ∈ s, t < B) →
    ∃ l1, buildNeighbors k ts l = .ok l1 ∧ l1.length = l.length ∧
      ∀ s ∈ l1, s.Sorted (· < ·) ∧ ∀ t ∈ s, t < B := by
  intro ts
  induction ts with
  | nil =>
    intro k l _ _ hl
    exact ⟨l, rfl, rfl, hl⟩
  | cons tri rest ih =>
    intro k l hk hts hl
    have htri := hts tri (List.mem_cons_self _ _)
    have hkB : k < B := by
      simp only [List.length_cons] at hk
      omega
    obtain ⟨l1, h1, hlen1, hl1⟩ := neighborInsert_spec B l (tri.get 0) k
      (by simpa [Vec3i.get] using htri.1) hkB hl
    obtain ⟨l2, h2, hlen2, hl2⟩ := neighborInsert_spec B l1 (tri.get 1) k
      (by rw [hlen1]; simpa [Vec3i.get] using htri.2.1) hkB hl1
    obtain ⟨l3, h3, hlen3, hl3⟩ := neighborInsert_spec B l2 (tri.get 2) k
      (by rw [hlen2, hlen1]; simpa [Vec3i.get] using htri.2.2) hkB hl2
    obtain ⟨l4, h4, hlen4, hl4⟩ := ih (k + 1) l3
      (by simp only [List.length_cons] at hk; omega)
      (fun t ht => by
        rw [hlen3, hlen2, hlen1]
        exact hts t (List.mem_cons_of_mem _ ht)) hl3
    refine ⟨l4, ?_, by rw [hlen4, hlen3, hlen2, hlen1], hl4⟩
    simp [buildNeighbors, h1, h2, h3, h4, bind, Except.bind]

/-- The sets of triangles that `splitVerts` builds for a mesh whose triangles have their
indices in the vertex array: one set for each vertex, of different triangle ids, each the
index of a triangle. -/
theorem splitVerts_neighbors (triangles : List Vec3i) (vertices : List Vec3d)
    (hvalid : ∀ tri ∈ triangles, validTriangle vertices tri) :
    ∃ vertexNeighborTriangles : List (List Nat),
      buildNeighbors 0 triangles (List.replicate vertices.length [])
        = .ok vertexNeighborTriangles ∧
      vertexNeighborTriangles.length = vertices.length ∧
      ∀ (v : Nat) (triSet : List Nat), vertexNeighborTriangles[v]? = some triSet →
        triSet.Nodup ∧ ∀ t ∈ triSet, t < triangles.length := by
  obtain ⟨l1, h1, hlen, hl⟩ := buildNeighbors_spec triangles.length triangles 0
    (List.replicate vertices.length []) (by omega)
    (fun tri htri => by simpa [validTriangle] using hvalid tri htri)
    (fun s hs => by
      rw [List.eq_of_mem_replicate hs]
      simp)
  refine ⟨l1, h1, by simpa using hlen, ?_⟩
  intro v triSet hv
  obtain ⟨hv1, hv2⟩ := List.getElem?_eq_some.mp hv
  have hmem : triSet ∈ l1 := hv2 ▸ List.getElem_mem hv1
  exact ⟨(hl triSet hmem).1.nodup, (hl triSet hmem).2⟩

/-! ## Further properties of OpenGLWindowStream -/

/-- C25 (the code at the failing input): on a stream with two slots in which only the tag
`"a"` was added, `updateText("b", "bye")` returns `true`, replaces the text of slot `0`,
the slot of `"a"`, and enters the tag `"b"` in the tag map with the index `0`. -/
theorem updateText_unknown_tag_overwrites :
    (do let s0 ← OpenGLWindowStream.init 2
        let r ← s0.addText ['a'] "hello".toList
        let u ← r.2.updateTextByTag 16 ['b'] "bye".toList
        return (u.1, u.2.windowTexts.map (fun d : WindowData => d.windowString.string),
          u.2.tagMap))
      = .ok (true, ["bye".toList, []], [(['a'], 0), (['b'], 0)]) := by
  decide

/-- For a tag that is not in the tag map and a string within the size limit,
`updateText(tag, string)` returns `true` and replaces the text of slot `0`. -/
theorem updateTextByTag_unknown_tag (maxStringSize : Nat) (self : OpenGLWindowStream)
    (p_tag p_string : List Char) (d : WindowData) (hsize : p_string.length ≤ maxStringSize)
    (htag : self.tagMap.lookup p_tag = none) (hslot : self.windowTexts[0]? = some d) :
    self.updateTextByTag maxStringSize p_tag p_string
      = .ok (true, { self with
          tagMap := self.tagMap ++ [(p_tag, 0)],
          windowTexts := self.windowTexts.set 0
            { d with windowString := { d.windowString with string := p_string } } }) := by
  have h1 : ¬ p_string.length > maxStringSize := by omega
  simp [OpenGLWindowStream.updateTextByTag, tagMapIndex, htag, h1, modifyText, hslot, bind,
    Except.bind, pure, Except.pure]

/-! ## Properties of WindowConsole -/

/-- C27 (the code at the failing input): on a console with two slots,
`addText("a", "hello")` stores the string in slot `0` and moves `currentIndex` to `1`;
`getLastEntry()` then reads slot `1` and returns the empty string. On a console with one
slot it returns the string added. -/
theorem getLastEntry_reads_next_slot :
    (do let c ← WindowConsole.new 2
        let r ← c.addText ['a'] "hello".toList
        let last ← r.2.getLastEntry
        return (last, r.2.currentIndex,
          r.2.windowTexts.map (fun d : WindowData => d.windowString.string)))
      = .ok ([], 1, ["hello".toList, []]) ∧
    (do let c ← WindowConsole.new 1
        let r ← c.addText ['a'] "hello".toList
        r.2.getLastEntry)
      = .ok "hello".toList := by
  decide

/-! ## Properties of smAABB -/

/-- After `reset()`, `extend(b)` gives the minimum corner of `b` when its coordinates are
at most `FLT_MAX`, and the coefficient-wise maximum of `FLT_MIN` and the maximum corner of
`b`. -/
theorem reset_extend_eq (self b : smAABB)
    (h : b.aabbMin.x ≤ FLT_MAX ∧ b.aabbMin.y ≤ FLT_MAX ∧ b.aabbMin.z ≤ FLT_MAX) :
    (self.reset.extend b).aabbMin = b.aabbMin ∧
    (self.reset.extend b).aabbMax
      = { x := max FLT_MIN b.aabbMax.x, y := max FLT_MIN b.aabbMax.y,
          z := max FLT_MIN b.aabbMax.z } := by
  obtain ⟨hx, hy, hz⟩ := h
  refine ⟨?_, rfl⟩
  simp only [smAABB.extend, smAABB.reset, Vec3d.cwiseMin, min_eq_right hx, min_eq_right hy,
    min_eq_right hz]

/-- C30 (the code at the failing input): for the box with the corners `(-2, -2, -2)` and
`(-1, -1, -1)`, `reset()` followed by `extend(b)` gives the minimum corner of `b`, but the
maximum corner `(FLT_MIN, FLT_MIN, FLT_MIN)`, with `FLT_MIN = 2^-126 > 0`, which is not
the maximum corner of `b`. -/
theorem reset_extend_negative_box (self : smAABB) :
    (self.reset.extend negativeBox).aabbMin = negativeBox.aabbMin ∧
    (self.reset.extend negativeBox).aabbMax = { x := FLT_MIN, y := FLT_MIN, z := FLT_MIN } ∧
    (self.reset.extend negativeBox).aabbMax ≠ negativeBox.aabbMax ∧
    0 < FLT_MIN := by
  have hpos : (0 : ℚ) < FLT_MIN := by norm_num [FLT_MIN]
  have hmin : (-2 : ℚ) ≤ FLT_MAX := by norm_num [FLT_MAX]
  have hmax : max FLT_MIN (-1 : ℚ) = FLT_MIN := max_eq_left (by linarith)
  have h2 : (self.reset.extend negativeBox).aabbMax
      = { x := FLT_MIN, y := FLT_MIN, z := FLT_MIN } := by
    simp only [smAABB.extend, smAABB.reset, Vec3d.cwiseMax, negativeBox, hmax]
  refine ⟨?_, h2, ?_, hpos⟩
  · simp only [smAABB.extend, smAABB.reset, Vec3d.cwiseMin, negativeBox, min_eq_right hmin]
  · rw [h2]
    intro h
    have hx : FLT_MIN = (-1 : ℚ) := by
      have := congrArg Vec3d.x h
      simpa [negativeBox] using this
    linarith

/-! ## Properties of makeClothGeometry -/

theorem sizeBound_eq (n : Nat) (h1 : 1 ≤ n) (h2 : n < 2 ^ 31) : sizeBound n = n - 1 := by
  unfold sizeBound
  have h3 : ((n : Int) - 1) % 2 ^ 64 = (n : Int) - 1 := by
    apply Int.emod_eq_of_lt <;> omega
  rw [h3]
  omega

theorem foldl_append_flatMap {α β : Type} (f : α → List β) (l : List α) (init : List β) :
    l.foldl (fun acc x => acc ++ f x) init = init ++ l.flatMap f := by
  induction l generalizing init with
  | nil => simp
  | cons a l ih => simp [ih]

theorem clothTriangles_eq (nRows nCols : Nat) :
    clothTriangles nRows nCols = (List.range (sizeBound nRows)).flatMap (fun i =>
      (List.range (sizeBound nCols)).flatMap (fun j => clothCell nCols i j)) := by
  unfold clothTriangles
  simp only [foldl_append_flatMap]
  simp

theorem length_clothCell (nCols i j : Nat) : (clothCell nCols i j).length = 2 := by
  unfold clothCell
  split_ifs <;> rfl

/-- Blocks of the same length `c`: the element `c * k + r` of their concatenation is the
element `r` of the block `k`. -/
theorem getElem?_flatMap_const {α β : Type} (f : α → List β) (c : Nat)
    (hc : ∀ a, (f a).length = c) (l : List α) (k r : Nat) (hr : r < c) :
    (l.flatMap f)[c * k + r]? = (l[k]?).bind (fun a => (f a)[r]?) := by
  induction l generalizing k with
  | nil => simp
  | cons a l ih =>
    cases k with
    | zero =>
      simp only [List.flatMap_cons, Nat.mul_zero, Nat.zero_add, List.getElem?_cons_zero,
        Option.some_bind]
      rw [List.getElem?_append_left (by rw [hc]; exact hr)]
    | succ k =>
      simp only [List.flatMap_cons, List.getElem?_cons_succ]
      rw [List.getElem?_append_right (by rw [hc]; nlinarith)]
      have : c * (k + 1) + r - (f a).length = c * k + r := by
        rw [hc, Nat.mul_succ]
        omega
      rw [this, ih]

theorem length_flatMap_const {α β : Type} (f : α → List β) (c : Nat)
    (hc : ∀ a, (f a).length = c) (l : List α) : (l.flatMap f).length = c * l.length := by
  induction l with
  | nil => simp
  | cons a l ih => simp [ih, hc, Nat.mul_succ, Nat.add_comm]


/-- A loop of assignments `v[idx j] = g j` for `j = 0, ..., m - 1`, the indices `idx j` all
different: the elements assigned, the others, and the length. -/
theorem foldl_set_range {α : Type} (idx : Nat → Nat) (g : Nat → α) (m : Nat) (v0 : List α)
    (hinj : ∀ j j1, j < m → j1 < m → idx j = idx j1 → j = j1) :
    ((List.range m).foldl (fun v j => v.set (idx j) (g j)) v0).length = v0.length ∧
    (∀ j, j < m → idx j < v0.length →
      ((List.range m).foldl (fun v j => v.set (idx j) (g j)) v0)[idx j]? = some (g j)) ∧
    (∀ k, (∀ j, j < m → idx j ≠ k) →
      ((List.range m).foldl (fun v j => v.set (idx j) (g j)) v0)[k]? = v0[k]?) := by
  induction m with
  | zero => simp
  | succ m ih =>
    obtain ⟨h1, h2, h3⟩ := ih (fun j j1 hj hj1 => hinj j j1 (by omega) (by omega))
    rw [List.range_succ, List.foldl_append]
    simp only [List.foldl_cons, List.foldl_nil, List.length_set]
    refine ⟨h1, ?_, ?_⟩
    · intro j hj hlt
      by_cases hjm : j = m
      · subst hjm
        rw [List.getElem?_set_self (by rw [h1]; exact hlt)]
      · have hne : idx m ≠ idx j := fun h => hjm (hinj j m hj (by omega) h.symm)
        rw [List.getElem?_set_ne hne]
        exact h2 j (by omega) hlt
    · intro k hk
      rw [List.getElem?_set_ne (hk m (by omega))]
      exact h3 k (fun j hj => hk j (by omega))

theorem clothRows_spec (nCols nRows : Nat) (pos : Nat → Nat → Vec3d) (v0 : List Vec3d)
    (hlen : v0.length = nRows * nCols) (n : Nat) (hn : n ≤ nRows) :
    ((List.range n).foldl (fun vertList i =>
      (List.range nCols).foldl (fun vertList j =>
        vertList.set (i * nCols + j) (pos i j)) vertList) v0).length = nRows * nCols ∧
    ∀ i j, i < n → j < nCols →
      ((List.range n).foldl (fun vertList i =>
        (List.range nCols).foldl (fun vertList j =>
          vertList.set (i * nCols + j) (pos i j)) vertList) v0)[i * nCols + j]?
        = some (pos i j) := by
  induction n with
  | zero => simp [hlen]
  | succ n ih =>
    obtain ⟨h1, h2⟩ := ih (by omega)
    rw [List.range_succ, List.foldl_append]
    simp only [List.foldl_cons, List.foldl_nil]
    obtain ⟨g1, g2, g3⟩ := foldl_set_range (fun j => n * nCols + j) (pos n) nCols
      ((List.range n).foldl (fun vertList i =>
        (List.range nCols).foldl (fun vertList j =>
          vertList.set (i * nCols + j) (pos i j)) vertList) v0)
      (fun j j1 _ _ h => by dsimp only at h; omega)
    refine ⟨by rw [g1, h1], ?_⟩
    intro i j hi hj
    by_cases hin : i = n
    · subst hin
      refine g2 j hj ?_
      rw [h1]
      have : (i + 1) * nCols ≤ nRows * nCols := Nat.mul_le_mul_right _ hn
      rw [Nat.succ_mul] at this
      omega
    · have hlt : i < n := by omega
      rw [g3 (i * nCols + j) ?_]
      · exact h2 i j hlt hj
      · intro j1 hj1
        dsimp only
        have : (i + 1) * nCols ≤ n * nCols := Nat.mul_le_mul_right _ hlt
        rw [Nat.succ_mul] at this
        omega

theorem clothVertices_spec (width height : ℚ) (nRows nCols : Nat) :
    (clothVertices width height nRows nCols).length = nRows * nCols ∧
    ∀ i j, i < nRows → j < nCols →
      (clothVertices width height nRows nCols)[i * nCols + j]?
        = some { x := height / ((nRows : ℚ) - 1) * i, y := 1,
                 z := width / ((nCols : ℚ) - 1) * j } := by
  have h := clothRows_spec nCols nRows
    (fun i j => { x := height / ((nRows : ℚ) - 1) * i, y := 1,
                  z := width / ((nCols : ℚ) - 1) * j })
    (List.replicate (nRows * nCols) WORLD_ORIGIN) (by simp) nRows (le_refl _)
  exact h

theorem clothVertexPos (width height : ℚ) (nRows nCols : Nat) (i j : Nat) (hi : i < nRows)
    (hj : j < nCols) :
    vertexPos (clothVertices width height nRows nCols) (i * nCols + j)
      = { x := height / ((nRows : ℚ) - 1) * i, y := 1, z := width / ((nCols : ℚ) - 1) * j } := by
  have h := (clothVertices_spec width height nRows nCols).2 i j hi hj
  simp [vertexPos, List.getD, h]

theorem mem_clothTriangles (nRows nCols : Nat) (hr : 1 ≤ nRows) (hc : 1 ≤ nCols)
    (hint : nRows * nCols < 2 ^ 31) (tri : Vec3i) :
    tri ∈ clothTriangles nRows nCols ↔
      ∃ i j, i < nRows - 1 ∧ j < nCols - 1 ∧ tri ∈ clothCell nCols i j := by
  have h1 : nRows < 2 ^ 31 := by nlinarith
  have h2 : nCols < 2 ^ 31 := by nlinarith
  rw [clothTriangles_eq, sizeBound_eq nRows hr h1, sizeBound_eq nCols hc h2]
  simp only [List.mem_flatMap, List.mem_range]
  constructor
  · rintro ⟨i, hi, j, hj, h⟩
    exact ⟨i, j, hi, hj, h⟩
  · rintro ⟨i, j, hi, hj, h⟩
    exact ⟨i, hi, j, hj, h⟩

theorem getElem?_clothTriangles (nRows nCols : Nat) (hr : 1 ≤ nRows) (hc : 1 ≤ nCols)
    (hint : nRows * nCols < 2 ^ 31) (i j r : Nat) (hi : i < nRows - 1) (hj : j < nCols - 1)
    (hr2 : r < 2) :
    (clothTriangles nRows nCols)[2 * (i * (nCols - 1) + j) + r]? = (clothCell nCols i j)[r]? := by
  have h1 : nRows < 2 ^ 31 := by nlinarith
  have h2 : nCols < 2 ^ 31 := by nlinarith
  rw [clothTriangles_eq, sizeBound_eq nRows hr h1, sizeBound_eq nCols hc h2]
  have hidx : 2 * (i * (nCols - 1) + j) + r = (2 * (nCols - 1)) * i + (2 * j + r) := by ring
  rw [hidx, getElem?_flatMap_const _ (2 * (nCols - 1)) ?_ _ i (2 * j + r) (by omega)]
  · rw [List.getElem?_range hi]
    simp only [Option.some_bind]
    rw [getElem?_flatMap_const _ 2 (fun j => length_clothCell nCols i j) _ j r hr2,
      List.getElem?_range hj]
    rfl
  · intro a
    rw [length_flatMap_const _ 2 (fun j => length_clothCell nCols a j)]
    simp


theorem clothCell_cases (nCols i j : Nat) :
    clothCell nCols i j
        = [{ v0 := i * nCols + j, v1 := (i + 1) * nCols + j, v2 := i * nCols + (j + 1) },
           { v0 := (i + 1) * nCols + (j + 1), v1 := i * nCols + (j + 1),
             v2 := (i + 1) * nCols + j }] ∨
    clothCell nCols i j
        = [{ v0 := (i + 1) * nCols + j, v1 := (i + 1) * nCols + (j + 1), v2 := i * nCols + j },
           { v0 := (i + 1) * nCols + (j + 1), v1 := i * nCols + (j + 1),
             v2 := i * nCols + j }] := by
  have e2 : i * nCols + j + nCols = (i + 1) * nCols + j := by ring
  have e3 : i * nCols + j + 1 = i * nCols + (j + 1) := by ring
  have e4 : (i + 1) * nCols + j + 1 = (i + 1) * nCols + (j + 1) := by ring
  unfold clothCell
  simp only [e2, e3, e4]
  split_ifs
  · exact Or.inl rfl
  · exact Or.inr rfl

theorem clothCell_triangle (width height : ℚ) (nRows nCols : Nat) (hc : 2 ≤ nCols)
    (i j : Nat) (hi : i < nRows - 1) (hj : j < nCols - 1) (tri : Vec3i)
    (htri : tri ∈ clothCell nCols i j) :
    tri.v0 ≠ tri.v1 ∧ tri.v1 ≠ tri.v2 ∧ tri.v0 ≠ tri.v2 ∧
    tri.v0 < nRows * nCols ∧ tri.v1 < nRows * nCols ∧ tri.v2 < nRows * nCols ∧
    meshNormal (clothVertices width height nRows nCols) tri
      = { x := 0, y := -(height / ((nRows : ℚ) - 1) * (width / ((nCols : ℚ) - 1))), z := 0 } := by
  have hb : (i + 2) * nCols ≤ nRows * nCols := Nat.mul_le_mul_right _ (by omega)
  have hb1 : (i + 2) * nCols = i * nCols + 2 * nCols := by ring
  have hb2 : (i + 1) * nCols = i * nCols + nCols := by ring
  have p00 := clothVertexPos width height nRows nCols i j (by omega) (by omega)
  have p10 := clothVertexPos width height nRows nCols (i + 1) j (by omega) (by omega)
  have p01 := clothVertexPos width height nRows nCols i (j + 1) (by omega) (by omega)
  have p11 := clothVertexPos width height nRows nCols (i + 1) (j + 1) (by omega) (by omega)
  rcases clothCell_cases nCols i j with h | h <;> rw [h] at htri <;>
    simp only [List.mem_cons, List.mem_singleton, List.not_mem_nil, or_false] at htri <;>
    rcases htri with rfl | rfl <;>
    refine ⟨by dsimp only; omega, by dsimp only; omega, by dsimp only; omega,
      by dsimp only; omega, by dsimp only; omega, by dsimp only; omega, ?_⟩ <;>
    simp only [meshNormal, triangleNormal, p00, p10, p01, p11, Vec3d.sub, Vec3d.cross,
      Vec3d.mk.injEq] <;>
    push_cast <;>
    refine ⟨by ring, by ring, by ring⟩

/-- C28: for `nRows, nCols ≥ 2` (with `nRows * nCols` within the range of `int`) and
positive `width` and `height`, `makeClothGeometry` makes `nRows * nCols` vertices and
`2 * (nRows - 1) * (nCols - 1)` triangles; every triangle has three different indices
below `nRows * nCols` and the normal `(0, -dx * dy, 0)`, with `dx * dy > 0`, in the
direction `-y`; and the two triangles of the cell `(i, j)`, at the places
`2 * (i * (nCols - 1) + j)` and the next, have the four corners of the cell among their
indices. -/
theorem makeClothGeometry_spec (width height : ℚ) (nRows nCols : Nat) (hr : 2 ≤ nRows)
    (hc : 2 ≤ nCols) (hw : 0 < width) (hh : 0 < height) (hint : nRows * nCols < 2 ^ 31) :
    (makeClothGeometry width height nRows nCols).1.length = nRows * nCols ∧
    (makeClothGeometry width height nRows nCols).2.length = 2 * (nRows - 1) * (nCols - 1) ∧
    0 < height / ((nRows : ℚ) - 1) * (width / ((nCols : ℚ) - 1)) ∧
    (∀ tri ∈ (makeClothGeometry width height nRows nCols).2,
      tri.v0 ≠ tri.v1 ∧ tri.v1 ≠ tri.v2 ∧ tri.v0 ≠ tri.v2 ∧
      tri.v0 < nRows * nCols ∧ tri.v1 < nRows * nCols ∧ tri.v2 < nRows * nCols ∧
      meshNormal (makeClothGeometry width height nRows nCols).1 tri
        = { x := 0, y := -(height / ((nRows : ℚ) - 1) * (width / ((nCols : ℚ) - 1))),
            z := 0 }) ∧
    (∀ i j, i < nRows - 1 → j < nCols - 1 →
      ∃ t0 t1,
        (makeClothGeometry width height nRows nCols).2[2 * (i * (nCols - 1) + j)]? = some t0 ∧
        (makeClothGeometry width height nRows nCols).2[2 * (i * (nCols - 1) + j) + 1]?
          = some t1 ∧
        ∀ corner ∈ [i * nCols + j, (i + 1) * nCols + j, i * nCols + (j + 1),
            (i + 1) * nCols + (j + 1)],
          corner ∈ [t0.v0, t0.v1, t0.v2] ∨ corner ∈ [t1.v0, t1.v1, t1.v2]) := by
  have h1 : nRows < 2 ^ 31 := by nlinarith
  have h2 : nCols < 2 ^ 31 := by nlinarith
  have hr1 : (0 : ℚ) < (nRows : ℚ) - 1 := by
    have : (2 : ℚ) ≤ nRows := by exact_mod_cast hr
    linarith
  have hc1 : (0 : ℚ) < (nCols : ℚ) - 1 := by
    have : (2 : ℚ) ≤ nCols := by exact_mod_cast hc
    linarith
  refine ⟨(clothVertices_spec width height nRows nCols).1, ?_,
    mul_pos (div_pos hh hr1) (div_pos hw hc1), ?_, ?_⟩
  · show (clothTriangles nRows nCols).length = _
    rw [clothTriangles_eq, sizeBound_eq nRows (by omega) h1, sizeBound_eq nCols (by omega) h2,
      length_flatMap_const _ (2 * (nCols - 1)) (fun a => by
        rw [length_flatMap_const _ 2 (fun j => length_clothCell nCols a j)]
        simp)]
    simp only [List.length_range]
    ring
  · intro tri htri
    obtain ⟨i, j, hi, hj, hcell⟩ :=
      (mem_clothTriangles nRows nCols (by omega) (by omega) hint tri).1 htri
    exact clothCell_triangle width height nRows nCols hc i j hi hj tri hcell
  · intro i j hi hj
    have g0 := getElem?_clothTriangles nRows nCols (by omega) (by omega) hint i j 0 hi hj
      (by omega)
    have g1 := getElem?_clothTriangles nRows nCols (by omega) (by omega) hint i j 1 hi hj
      (by omega)
    rw [Nat.add_zero] at g0
    rcases clothCell_cases nCols i j with h | h <;> rw [h] at g0 g1
    · exact ⟨_, _, g0, g1, by simp⟩
    · exact ⟨_, _, g0, g1, by simp⟩

theorem makeClothGeometry_spec_witness :
    (makeClothGeometry 50 50 16 16).1.length = 16 * 16 ∧
    (makeClothGeometry 50 50 16 16).2.length = 2 * (16 - 1) * (16 - 1) :=
  ⟨(makeClothGeometry_spec 50 50 16 16 (by decide) (by decide) (by norm_num) (by norm_num)
      (by norm_num)).1,
   (makeClothGeometry_spec 50 50 16 16 (by decide) (by decide) (by norm_num) (by norm_num)
      (by norm_num)).2.1⟩

/-! ## Properties of smSurfaceTree -/

theorem sizeOf_children_lt (c child : SurfaceTreeCell) (h : child ∈ c.children) :
    sizeOf child < sizeOf c := by
  have h1 : some child ∈ c.getChildNodes := by
    simpa [SurfaceTreeCell.children] using h
  cases c
  have := List.sizeOf_lt_of_mem h1
  simp only [SurfaceTreeCell.mk.sizeOf_spec, Option.some.sizeOf_spec,
    SurfaceTreeCell.getChildNodes] at this ⊢
  omega

/-- A loop over an array of pointers that skips the null ones is a loop over the child
cells. -/
theorem forEachChild_eq {β : Type} (l : List (Option SurfaceTreeCell))
    (f : SurfaceTreeCell → β → β) (b : β) :
    forEachChild l (fun c _ result => f c result) b
      = (l.filterMap id).foldl (fun result c => f c result) b := by
  have key : ∀ (m : List { x // x ∈ l }) (b : β),
      m.foldl (fun result child =>
        match child with
        | ⟨none, _⟩ => result
        | ⟨some c, _⟩ => f c result) b
        = ((m.map Subtype.val).filterMap id).foldl (fun result c => f c result) b := by
    intro m
    induction m with
    | nil => intro b; rfl
    | cons a m ih =>
      intro b
      rcases a with ⟨_ | c, ha⟩
      · simpa using ih b
      · simpa using ih (f c b)
  unfold forEachChild
  rw [key l.attach b, List.attach_map_subtype_val]

theorem leaves_eq (c : SurfaceTreeCell) :
    c.leaves = if c.getIsLeaf then [c] else c.children.flatMap SurfaceTreeCell.leaves := by
  rw [SurfaceTreeCell.leaves, forEachChild_eq, foldl_append_flatMap]
  rfl

theorem cells_eq (c : SurfaceTreeCell) :
    c.cells = c :: c.children.flatMap SurfaceTreeCell.cells := by
  rw [SurfaceTreeCell.cells, forEachChild_eq, foldl_append_flatMap]
  rfl

/-- The function `getIntersectingNodes` with its loops over the child cells. -/
theorem getIntersectingNodes_eq (overlap : smAABB → smAABB → Bool)
    (left right : SurfaceTreeCell) (result : List (SurfaceTreeCell × SurfaceTreeCell)) :
    getIntersectingNodes overlap left right result =
      if ¬ overlap left.getAabb right.getAabb then result
      else if left.getIsLeaf ∧ right.getIsLeaf then result ++ [(left, right)]
      else if left.getIsLeaf then
        right.children.foldl (fun result c => getIntersectingNodes overlap left c result) result
      else if right.getIsLeaf then
        left.children.foldl (fun result c => getIntersectingNodes overlap c right result) result
      else
        right.children.foldl (fun result rc =>
          left.children.foldl (fun result lc => getIntersectingNodes overlap lc rc result)
            result) result := by
  rw [getIntersectingNodes]
  simp only [forEachChild_eq]
  rfl


theorem foldl_eq_append_flatMap {α β : Type} (f : List β → α → List β) (g : α → List β)
    (l : List α) (h : ∀ a ∈ l, ∀ res, f res a = res ++ g a) (res : List β) :
    l.foldl f res = res ++ l.flatMap g := by
  induction l generalizing res with
  | nil => simp
  | cons a l ih =>
    simp only [List.foldl_cons, List.flatMap_cons]
    rw [h a (List.mem_cons_self _ _), ih (fun b hb => h b (List.mem_cons_of_mem _ hb))]
    simp

/-- The calls of `getIntersectingNodes` only append to `result`. -/
theorem getIntersectingNodes_append (overlap : smAABB → smAABB → Bool) :
    ∀ (n : Nat) (left right : SurfaceTreeCell), sizeOf left + sizeOf right = n →
      ∀ result, getIntersectingNodes overlap left right result
        = result ++ getIntersectingNodes overlap left right [] := by
  intro n
  induction n using Nat.strong_induction_on with
  | _ n ih =>
    intro left right hn result
    rw [getIntersectingNodes_eq overlap left right result,
      getIntersectingNodes_eq overlap left right []]
    have hL : ∀ c ∈ right.children, ∀ res, getIntersectingNodes overlap left c res
        = res ++ getIntersectingNodes overlap left c [] := by
      intro c hc res
      have := sizeOf_children_lt right c hc
      exact ih (sizeOf left + sizeOf c) (by omega) left c rfl res
    have hR : ∀ c ∈ left.children, ∀ res, getIntersectingNodes overlap c right res
        = res ++ getIntersectingNodes overlap c right [] := by
      intro c hc res
      have := sizeOf_children_lt left c hc
      exact ih (sizeOf c + sizeOf right) (by omega) c right rfl res
    have hB : ∀ rc ∈ right.children, ∀ res,
        left.children.foldl (fun result lc => getIntersectingNodes overlap lc rc result) res
          = res ++ left.children.foldl
            (fun result lc => getIntersectingNodes overlap lc rc result) [] := by
      intro rc hrc res
      have inner : ∀ lc ∈ left.children, ∀ res, getIntersectingNodes overlap lc rc res
          = res ++ getIntersectingNodes overlap lc rc [] := by
        intro lc hlc res
        have h1 := sizeOf_children_lt left lc hlc
        have h2 := sizeOf_children_lt right rc hrc
        exact ih (sizeOf lc + sizeOf rc) (by omega) lc rc rfl res
      rw [foldl_eq_append_flatMap _ _ _ inner res, foldl_eq_append_flatMap _ _ _ inner []]
      simp
    split_ifs
    · simp
    · rw [foldl_eq_append_flatMap _ _ _ hL result, foldl_eq_append_flatMap _ _ _ hL []]
      simp
    · rw [foldl_eq_append_flatMap _ _ _ hR result, foldl_eq_append_flatMap _ _ _ hR []]
      simp
    · rw [foldl_eq_append_flatMap _ _ _ hB result, foldl_eq_append_flatMap _ _ _ hB []]
      simp
    · simp

/-- The pairs that `getIntersectingNodes` finds, by the kind of the two cells. -/
theorem getIntersectingNodes_nil (overlap : smAABB → smAABB → Bool)
    (left right : SurfaceTreeCell) :
    getIntersectingNodes overlap left right [] =
      if ¬ overlap left.getAabb right.getAabb then []
      else if left.getIsLeaf ∧ right.getIsLeaf then [(left, right)]
      else if left.getIsLeaf then
        right.children.flatMap (fun c => getIntersectingNodes overlap left c [])
      else if right.getIsLeaf then
        left.children.flatMap (fun c => getIntersectingNodes overlap c right [])
      else
        right.children.flatMap (fun rc =>
          left.children.flatMap (fun lc => getIntersectingNodes overlap lc rc [])) := by
  have happ := fun l r res => getIntersectingNodes_append overlap _ l r rfl res
  rw [getIntersectingNodes_eq overlap left right []]
  split_ifs
  · rfl
  · rw [foldl_eq_append_flatMap _ (fun c => getIntersectingNodes overlap left c []) _
      (fun c _ res => happ left c res)]
    simp
  · rw [foldl_eq_append_flatMap _ (fun c => getIntersectingNodes overlap c right []) _
      (fun c _ res => happ c right res)]
    simp
  · rw [foldl_eq_append_flatMap _ (fun rc =>
        left.children.flatMap (fun lc => getIntersectingNodes overlap lc rc [])) _
      (fun rc _ res => by
        rw [foldl_eq_append_flatMap _ (fun lc => getIntersectingNodes overlap lc rc []) _
          (fun lc _ res => happ lc rc res)])]
    simp
  · rfl


theorem mem_cells_self (c : SurfaceTreeCell) : c ∈ c.cells := by
  rw [cells_eq]
  exact List.mem_cons_self _ _

theorem cells_child_subset (c child : SurfaceTreeCell) (h : child ∈ c.children) :
    ∀ d ∈ child.cells, d ∈ c.cells := by
  intro d hd
  rw [cells_eq c]
  exact List.mem_cons_of_mem _ (List.mem_flatMap.2 ⟨child, h, hd⟩)

theorem leaves_subset_cells : ∀ (n : Nat) (c : SurfaceTreeCell), sizeOf c = n →
    ∀ d ∈ c.leaves, d ∈ c.cells := by
  intro n
  induction n using Nat.strong_induction_on with
  | _ n ih =>
    intro c hn d hd
    rw [leaves_eq] at hd
    split_ifs at hd with hleaf
    · rw [List.mem_singleton] at hd
      rw [hd]
      exact mem_cells_self c
    · obtain ⟨child, hchild, hd1⟩ := List.mem_flatMap.1 hd
      have hlt := sizeOf_children_lt c child hchild
      exact cells_child_subset c child hchild d (ih _ (by omega) child rfl d hd1)

theorem nested_child (c child : SurfaceTreeCell) (h : child ∈ c.children) (hn : c.nested) :
    child.nested :=
  fun d hd e he => hn d (cells_child_subset c child h d hd) e he

theorem nested_leaf (c : SurfaceTreeCell) (hn : c.nested) (a : SurfaceTreeCell)
    (ha : a ∈ c.leaves) : c.getAabb.contains a.getAabb :=
  hn c (mem_cells_self c) a (leaves_subset_cells _ c rfl a ha)

/-- Every pair that `getIntersectingNodes` finds is made of a leaf of the left tree and a
leaf of the right tree whose boxes pass the overlap test. -/
theorem getIntersectingNodes_sound (overlap : smAABB → smAABB → Bool) :
    ∀ (n : Nat) (left right : SurfaceTreeCell), sizeOf left + sizeOf right = n →
      ∀ p ∈ getIntersectingNodes overlap left right [],
        p.1 ∈ left.leaves ∧ p.2 ∈ right.leaves ∧ p.1.getIsLeaf = true ∧
          p.2.getIsLeaf = true ∧ overlap p.1.getAabb p.2.getAabb = true := by
  intro n
  induction n using Nat.strong_induction_on with
  | _ n ih =>
    intro left right hn p hp
    rw [getIntersectingNodes_nil] at hp
    split_ifs at hp with hov hboth hl hr
    · rw [List.mem_singleton] at hp
      subst hp
      refine ⟨?_, ?_, hboth.1, hboth.2, hov⟩
      · rw [leaves_eq, if_pos hboth.1]
        exact List.mem_singleton_self _
      · rw [leaves_eq, if_pos hboth.2]
        exact List.mem_singleton_self _
    · obtain ⟨c, hc, hp1⟩ := List.mem_flatMap.1 hp
      have hlt := sizeOf_children_lt right c hc
      obtain ⟨h1, h2, h3⟩ := ih _ (by omega) left c rfl p hp1
      have hnr : ¬ right.getIsLeaf = true := fun h => hboth ⟨hl, h⟩
      refine ⟨h1, ?_, h3⟩
      rw [leaves_eq right, if_neg hnr]
      exact List.mem_flatMap.2 ⟨c, hc, h2⟩
    · obtain ⟨c, hc, hp1⟩ := List.mem_flatMap.1 hp
      have hlt := sizeOf_children_lt left c hc
      obtain ⟨h1, h2, h3⟩ := ih _ (by omega) c right rfl p hp1
      refine ⟨?_, h2, h3⟩
      rw [leaves_eq left, if_neg hl]
      exact List.mem_flatMap.2 ⟨c, hc, h1⟩
    · obtain ⟨rc, hrc, hp1⟩ := List.mem_flatMap.1 hp
      obtain ⟨lc, hlc, hp2⟩ := List.mem_flatMap.1 hp1
      have hlt1 := sizeOf_children_lt left lc hlc
      have hlt2 := sizeOf_children_lt right rc hrc
      obtain ⟨h1, h2, h3⟩ := ih _ (by omega) lc rc rfl p hp2
      refine ⟨?_, ?_, h3⟩
      · rw [leaves_eq left, if_neg hl]
        exact List.mem_flatMap.2 ⟨lc, hlc, h1⟩
      · rw [leaves_eq right, if_neg hr]
        exact List.mem_flatMap.2 ⟨rc, hrc, h2⟩
    · simp at hp

theorem product_append_left {α β : Type} (X1 X2 : List α) (Y : List β) :
    (X1 ++ X2).product Y = X1.product Y ++ X2.product Y := by
  simp [List.product, List.flatMap_append]

theorem product_append_perm {α β : Type} (X : List α) (Y1 Y2 : List β) :
    (X.product (Y1 ++ Y2)).Perm (X.product Y1 ++ X.product Y2) := by
  induction X with
  | nil => simp [List.product]
  | cons a X ih =>
    have e : ∀ Y : List β, (a :: X).product Y = Y.map (Prod.mk a) ++ X.product Y := by
      intro Y
      simp [List.product]
    rw [e, e, e, List.map_append]
    have h1 : (List.map (Prod.mk a) Y1 ++ List.map (Prod.mk a) Y2 ++ X.product (Y1 ++ Y2)).Perm
        (List.map (Prod.mk a) Y1 ++ List.map (Prod.mk a) Y2 ++ (X.product Y1 ++ X.product Y2)) :=
      List.Perm.append_left _ ih
    refine h1.trans ?_
    rw [List.append_assoc, List.append_assoc]
    refine List.Perm.append_left _ ?_
    exact List.perm_append_comm_assoc _ _ _

/-- The pairs of `X` and the concatenation of the lists `g y` that pass a test, and the
concatenation of the pairs of `X` and `g y` that pass it. -/
theorem flatMap_filter_product_right {α β γ : Type} (P : α × β → Bool) (X : List α)
    (g : γ → List β) (R : List γ) :
    (R.flatMap (fun y => (X.product (g y)).filter P)).Perm
      ((X.product (R.flatMap g)).filter P) := by
  induction R with
  | nil => simp [List.product]
  | cons y R ih =>
    simp only [List.flatMap_cons]
    refine (List.Perm.append_left _ ih).trans ?_
    rw [← List.filter_append]
    exact ((product_append_perm X (g y) (R.flatMap g)).filter P).symm

theorem flatMap_filter_product_left {α β γ : Type} (P : α × β → Bool) (Y : List β)
    (g : γ → List α) (L : List γ) :
    L.flatMap (fun x => ((g x).product Y).filter P)
      = ((L.flatMap g).product Y).filter P := by
  induction L with
  | nil => simp [List.product]
  | cons x L ih =>
    simp only [List.flatMap_cons, product_append_left, List.filter_append, ih]

/-- On trees in which the box of every cell contains the boxes of its descendants, with an
overlap test that agrees with containment, `getIntersectingNodes` finds the pairs of a
leaf of the left tree and a leaf of the right tree that pass the test, each once. -/
theorem getIntersectingNodes_complete (overlap : smAABB → smAABB → Bool)
    (hmono : overlapMonotone overlap) :
    ∀ (n : Nat) (left right : SurfaceTreeCell), sizeOf left + sizeOf right = n →
      left.nested → right.nested →
      (getIntersectingNodes overlap left right []).Perm
        ((left.leaves.product right.leaves).filter
          (fun p => overlap p.1.getAabb p.2.getAabb)) := by
  intro n
  induction n using Nat.strong_induction_on with
  | _ n ih =>
    intro left right hn hnl hnr
    rw [getIntersectingNodes_nil]
    split_ifs with hov hboth hl hr
    · rw [leaves_eq left, if_pos hboth.1, leaves_eq right, if_pos hboth.2]
      simp [List.product, hov]
    · have hnr1 : ¬ right.getIsLeaf = true := fun h => hboth ⟨hl, h⟩
      rw [leaves_eq right, if_neg hnr1]
      refine (List.Perm.flatMap_left _ (fun c hc => ?_)).trans
        (flatMap_filter_product_right _ left.leaves SurfaceTreeCell.leaves right.children)
      have hlt := sizeOf_children_lt right c hc
      exact ih _ (by omega) left c rfl hnl (nested_child right c hc hnr)
    · rw [leaves_eq left, if_neg hl, ← flatMap_filter_product_left]
      refine List.Perm.flatMap_left _ (fun c hc => ?_)
      have hlt := sizeOf_children_lt left c hc
      exact ih _ (by omega) c right rfl (nested_child left c hc hnl) hnr
    · rw [leaves_eq left, if_neg hl, leaves_eq right, if_neg hr]
      refine (List.Perm.flatMap_left _ (fun rc hrc => ?_)).trans
        (flatMap_filter_product_right _ (left.children.flatMap SurfaceTreeCell.leaves)
          SurfaceTreeCell.leaves right.children)
      rw [← flatMap_filter_product_left]
      refine List.Perm.flatMap_left _ (fun lc hlc => ?_)
      have hlt1 := sizeOf_children_lt left lc hlc
      have hlt2 := sizeOf_children_lt right rc hrc
      exact ih _ (by omega) lc rc rfl (nested_child left lc hlc hnl)
        (nested_child right rc hrc hnr)
    · have hempty : (left.leaves.product right.leaves).filter
          (fun p => overlap p.1.getAabb p.2.getAabb) = [] := by
        rw [List.filter_eq_nil_iff]
        rintro ⟨a, b⟩ hab
        obtain ⟨ha, hb⟩ := List.pair_mem_product.1 hab
        intro h
        exact hov (hmono _ _ _ _ (nested_leaf left hnl a ha) (nested_leaf right hnr b hb) h)
      rw [hempty]

theorem intervalOverlap_monotone : overlapMonotone intervalOverlap := by
  intro a b c d hac hbd h
  obtain ⟨a1, a2, a3, a4, a5, a6⟩ := hac
  obtain ⟨b1, b2, b3, b4, b5, b6⟩ := hbd
  simp only [intervalOverlap, decide_eq_true_eq] at h ⊢
  obtain ⟨h1, h2, h3, h4, h5, h6⟩ := h
  refine ⟨?_, ?_, ?_, ?_, ?_, ?_⟩ <;> linarith

/-- C29: `getIntersectingNodes` is a total function on finite trees of cells. Every pair it
returns is made of a leaf of the left tree and a leaf of the right tree (cells with the
leaf flag set, reached through cells without it) whose boxes pass the overlap test. And
when the box of every cell contains the boxes of its descendants, in both trees, and the
overlap test agrees with containment, the pairs returned are the pairs of a leaf of the
left tree and a leaf of the right tree that pass the test, each one once. -/
theorem getIntersectingNodes_leaf_pairs (overlap : smAABB → smAABB → Bool)
    (root otherRoot : SurfaceTreeCell) :
    (∀ p ∈ smSurfaceTree.getIntersectingNodes overlap root otherRoot,
      p.1 ∈ root.leaves ∧ p.2 ∈ otherRoot.leaves ∧ p.1.getIsLeaf = true ∧
        p.2.getIsLeaf = true ∧ overlap p.1.getAabb p.2.getAabb = true) ∧
    (overlapMonotone overlap → root.nested → otherRoot.nested →
      (smSurfaceTree.getIntersectingNodes overlap root otherRoot).Perm
        ((root.leaves.product otherRoot.leaves).filter
          (fun p => overlap p.1.getAabb p.2.getAabb))) :=
  ⟨getIntersectingNodes_sound overlap _ root otherRoot rfl,
   fun hmono h1 h2 => getIntersectingNodes_complete overlap hmono _ root otherRoot rfl h1 h2⟩

theorem sampleTree_nested : sampleTree.nested := by
  intro c hc d hd
  simp [cells_eq, sampleTree, SurfaceTreeCell.children, SurfaceTreeCell.getChildNodes] at hc
  rcases hc with rfl | rfl | rfl <;>
    simp [cells_eq, SurfaceTreeCell.children, SurfaceTreeCell.getChildNodes] at hd
  · rcases hd with rfl | rfl | rfl <;>
      norm_num [smAABB.contains, SurfaceTreeCell.getAabb, cubeBox]
  · subst hd
    norm_num [smAABB.contains, SurfaceTreeCell.getAabb, cubeBox]
  · subst hd
    norm_num [smAABB.contains, SurfaceTreeCell.getAabb, cubeBox]

theorem sampleLeaf_nested : sampleLeaf.nested := by
  intro c hc d hd
  simp [cells_eq, sampleLeaf, SurfaceTreeCell.children, SurfaceTreeCell.getChildNodes] at hc
  subst hc
  simp [cells_eq, SurfaceTreeCell.children, SurfaceTreeCell.getChildNodes] at hd
  subst hd
  norm_num [smAABB.contains, SurfaceTreeCell.getAabb, cubeBox]

theorem getIntersectingNodes_leaf_pairs_witness :
    (smSurfaceTree.getIntersectingNodes intervalOverlap sampleTree sampleLeaf).Perm
      ((sampleTree.leaves.product sampleLeaf.leaves).filter
        (fun p => intervalOverlap p.1.getAabb p.2.getAabb)) :=
  (getIntersectingNodes_leaf_pairs intervalOverlap sampleTree sampleLeaf).2
    intervalOverlap_monotone sampleTree_nested sampleLeaf_nested

/-- The pairs found for the sample trees: the second leaf of the first tree with the leaf
that is the second tree. -/
theorem getIntersectingNodes_sample :
    smSurfaceTree.getIntersectingNodes intervalOverlap sampleTree sampleLeaf
      = [(.mk (cubeBox 3 4) true [], sampleLeaf)] := by
  have h1 : getIntersectingNodes intervalOverlap (.mk (cubeBox 0 1) true []) sampleLeaf []
      = [] := by
    rw [getIntersectingNodes_nil]
    norm_num [SurfaceTreeCell.getAabb, intervalOverlap, cubeBox, sampleLeaf]
  have h2 : getIntersectingNodes intervalOverlap (.mk (cubeBox 3 4) true []) sampleLeaf []
      = [(.mk (cubeBox 3 4) true [], sampleLeaf)] := by
    rw [getIntersectingNodes_nil]
    norm_num [SurfaceTreeCell.getAabb, SurfaceTreeCell.getIsLeaf, intervalOverlap, cubeBox,
      sampleLeaf]
  unfold smSurfaceTree.getIntersectingNodes
  rw [getIntersectingNodes_nil]
  have hc : sampleTree.children
      = [.mk (cubeBox 0 1) true [], .mk (cubeBox 3 4) true []] := rfl
  rw [hc]
  simp only [List.flatMap_cons, List.flatMap_nil, h1, h2]
  norm_num [SurfaceTreeCell.getAabb, SurfaceTreeCell.getIsLeaf, intervalOverlap, cubeBox,
    sampleLeaf, sampleTree]

/-! ## Properties of smCamera -/

/-- After `setOrientation(q)` on a camera whose view matrix is not marked dirty,
`getViewMat()` returns the matrix cached before the call, whatever `q` is. -/
theorem setOrientation_keeps_cached_view (m : CameraMath) (c : smCamera) (q : Quatd)
    (h : c.viewDirty = false) :
    ((c.setOrientation q).getViewMat m).1 = c.view := by
  simp [smCamera.getViewMat, smCamera.setOrientation, h]

/-- C26 (the code at the failing input): on a camera whose view matrix has been fetched,
after `setOrientation` with the half turn about `z` the up vector is `(0, -1, 0)`, but
`getViewMat()` still returns the matrix made for the up vector `(0, 1, 0)`, which is not
`lookAt(getPos(), getFocus(), getUpVec())`. The square root is taken with
`sqrt(1) = 1`. -/
theorem setOrientation_leaves_view_stale (m : CameraMath) (hsqrt : m.sqrt 1 = 1) :
    (((viewedCamera m).run m [CameraOp.setOrientation halfTurnZ]).getUpVec m).1
      = { x := 0, y := -1, z := 0 } ∧
    (((viewedCamera m).run m [CameraOp.setOrientation halfTurnZ]).getViewMat m).1
      = [[1, 0, 0, 0], [0, 1, 0, 0], [0, 0, 1, 0], [0, 0, 0, 1]] ∧
    ((viewedCamera m).run m [CameraOp.setOrientation halfTurnZ]).freshView m
      = [[-1, 0, 0, 0], [0, -1, 0, 0], [0, 0, 1, 0], [0, 0, 0, 1]] ∧
    (((viewedCamera m).run m [CameraOp.setOrientation halfTurnZ]).getViewMat m).1
      ≠ ((viewedCamera m).run m [CameraOp.setOrientation halfTurnZ]).freshView m := by
  have e1 : (((viewedCamera m).run m [CameraOp.setOrientation halfTurnZ]).getViewMat m).1
      = [[1, 0, 0, 0], [0, 1, 0, 0], [0, 0, 1, 0], [0, 0, 0, 1]] := by
    norm_num [viewedCamera, smCamera.run, smCamera.apply, smCamera.getViewMat,
      smCamera.setOrientation, smCamera.new, smCamera.genViewMat, smCamera.getUpVec,
      smCamera.getOrientation, smCamera.setViewMat, smCamera.lookAt, smCamera.getPos,
      smCamera.getFocus, Vec3d.normalized, Vec3d.norm, Vec3d.sub, Vec3d.cross, Vec3d.dot,
      Quatd.transformVector, Quatd.vec, Quatd.Identity, Vec3d.add, Vec3d.smul, UnitY, hsqrt]
  have e2 : ((viewedCamera m).run m [CameraOp.setOrientation halfTurnZ]).freshView m
      = [[-1, 0, 0, 0], [0, -1, 0, 0], [0, 0, 1, 0], [0, 0, 0, 1]] := by
    norm_num [viewedCamera, smCamera.run, smCamera.apply, smCamera.getViewMat,
      smCamera.setOrientation, smCamera.new, smCamera.genViewMat, smCamera.getUpVec,
      smCamera.getOrientation, smCamera.setViewMat, smCamera.lookAt, smCamera.getPos,
      smCamera.getFocus, Vec3d.normalized, Vec3d.norm, Vec3d.sub, Vec3d.cross, Vec3d.dot,
      Quatd.transformVector, Quatd.vec, Quatd.Identity, Vec3d.add, Vec3d.smul, UnitY, hsqrt,
      smCamera.freshView, halfTurnZ]
  refine ⟨?_, e1, e2, ?_⟩
  · norm_num [viewedCamera, smCamera.run, smCamera.apply, smCamera.getViewMat,
      smCamera.setOrientation, smCamera.new, smCamera.genViewMat, smCamera.getUpVec,
      smCamera.getOrientation, smCamera.setViewMat, Quatd.transformVector, Quatd.vec,
      Vec3d.cross, Vec3d.add, Vec3d.smul, UnitY, halfTurnZ]
  · rw [e1, e2]
    decide

theorem setOrientation_leaves_view_stale_witness :
    (((viewedCamera sampleMath).run sampleMath
        [CameraOp.setOrientation halfTurnZ]).getViewMat sampleMath).1
      ≠ ((viewedCamera sampleMath).run sampleMath
        [CameraOp.setOrientation halfTurnZ]).freshView sampleMath :=
  (setOrientation_leaves_view_stale sampleMath (by
    show Rat.sqrt 1 = 1
    have h := Rat.sqrt_eq 1
    rw [mul_one, abs_one] at h
    exact h)).2.2.2

/-! ## Further properties of SurfaceMeshCut -/

theorem toggle_spec (S : List Nat) (p : Nat) (hS : S.Sorted (· < ·)) :
    (toggle S p).Sorted (· < ·) ∧ ∀ x, x ∈ toggle S p ↔ (x ∈ S ↔ x ≠ p) := by
  unfold toggle
  split_ifs with hp
  · refine ⟨hS.sublist (List.erase_sublist _ _), fun x => ?_⟩
    rw [hS.nodup.mem_erase_iff]
    constructor
    · rintro ⟨hne, hx⟩
      exact ⟨fun _ => hne, fun _ => hx⟩
    · intro h
      by_cases hxp : x = p
      · subst hxp
        exact absurd (h.1 hp) (by simp)
      · exact ⟨hxp, h.2 hxp⟩
  · refine ⟨sorted_setInsert p S hS, fun x => ?_⟩
    rw [mem_setInsert]
    constructor
    · rintro (rfl | hx)
      · exact ⟨fun h => absurd h hp, fun h => absurd rfl h⟩
      · exact ⟨fun _ hxp => hp (hxp ▸ hx), fun _ => hx⟩
    · intro h
      by_cases hxp : x = p
      · exact Or.inl hxp
      · exact Or.inr (h.2 hxp)

theorem xor_three (A P0 P1 P2 : Prop) (h01 : ¬ (P0 ∧ P1)) (h12 : ¬ (P1 ∧ P2))
    (h02 : ¬ (P0 ∧ P2)) :
    ((((A ↔ ¬ P0) ↔ ¬ P1) ↔ ¬ P2) ↔ (A ↔ ¬ (P0 ∨ P1 ∨ P2))) := by
  by_cases a : A <;> by_cases p0 : P0 <;> by_cases p1 : P1 <;> by_cases p2 : P2 <;>
    simp_all

theorem xor_step (A E P : Prop) :
    (P → (((A ↔ ¬ P) ↔ E) ↔ (A ↔ ¬ E))) ∧ (¬ P → (((A ↔ ¬ P) ↔ E) ↔ (A ↔ E))) := by
  by_cases a : A <;> by_cases e : E <;> by_cases p : P <;> simp_all

/-- The three rounds of the inner loop of `vertexOnBoundary` for a triangle with three
different indices: its vertices are added when absent and removed when present. -/
theorem toggle_triangle (S0 : List Nat) (tri : Vec3i) (hS0 : S0.Sorted (· < ·))
    (hd : tri.v0 ≠ tri.v1 ∧ tri.v1 ≠ tri.v2 ∧ tri.v0 ≠ tri.v2) :
    (toggle (toggle (toggle S0 (tri.get 0)) (tri.get 1)) (tri.get 2)).Sorted (· < ·) ∧
    ∀ x, x ∈ toggle (toggle (toggle S0 (tri.get 0)) (tri.get 1)) (tri.get 2) ↔
      (x ∈ S0 ↔ ¬ (x = tri.v0 ∨ x = tri.v1 ∨ x = tri.v2)) := by
  obtain ⟨d01, d12, d02⟩ := hd
  obtain ⟨s1, m1⟩ := toggle_spec S0 (tri.get 0) hS0
  obtain ⟨s2, m2⟩ := toggle_spec _ (tri.get 1) s1
  obtain ⟨s3, m3⟩ := toggle_spec _ (tri.get 2) s2
  refine ⟨s3, fun x => ?_⟩
  rw [m3 x, m2 x, m1 x]
  exact xor_three _ _ _ _ (fun h => d01 (h.1.symm.trans h.2)) (fun h => d12 (h.1.symm.trans h.2))
    (fun h => d02 (h.1.symm.trans h.2))

/-- The loop of `vertexOnBoundary` keeps the vertices that occur an odd number of times
in the triangles of `triSet`, for triangles with three different indices. -/
theorem nonRepeatLoop_spec (triangles : List Vec3i) (triSet : List Nat)
    (hrange : ∀ t ∈ triSet, t < triangles.length)
    (hd : ∀ t ∈ triSet, ∀ tri, triangles[t]? = some tri →
      tri.v0 ≠ tri.v1 ∧ tri.v1 ≠ tri.v2 ∧ tri.v0 ≠ tri.v2)
    (S0 : List Nat) (hS0 : S0.Sorted (· < ·)) :
    ∃ S, nonRepeatLoop triangles triSet S0 = .ok S ∧ S.Sorted (· < ·) ∧
      ∀ x, x ∈ S ↔ (x ∈ S0 ↔ Even (incidentCount triangles triSet x)) := by
  induction triSet generalizing S0 with
  | nil =>
    refine ⟨S0, rfl, hS0, fun x => ?_⟩
    simp [incidentCount]
  | cons t rest ih =>
    have ht := hrange t (List.mem_cons_self _ _)
    obtain ⟨tri, hget⟩ : ∃ tri, triangles[t]? = some tri :=
      ⟨_, List.getElem?_eq_getElem ht⟩
    obtain ⟨s3, m3⟩ := toggle_triangle S0 tri hS0 (hd t (List.mem_cons_self _ _) _ hget)
    obtain ⟨S, hrun, hsorted, hmem⟩ := ih (fun u hu => hrange u (List.mem_cons_of_mem _ hu))
      (fun u hu => hd u (List.mem_cons_of_mem _ hu)) _ s3
    refine ⟨S, ?_, hsorted, fun x => ?_⟩
    · simp only [nonRepeatLoop, triangleAt, hget, bind, Except.bind]
      exact hrun
    · rw [hmem x, m3 x]
      have hcount : incidentCount triangles (t :: rest) x = incidentCount triangles rest x +
          (if x = tri.v0 ∨ x = tri.v1 ∨ x = tri.v2 then 1 else 0) := by
        simp only [incidentCount, List.countP_cons, hasVertex, hget, decide_eq_true_eq]
      rw [hcount]
      by_cases h : x = tri.v0 ∨ x = tri.v1 ∨ x = tri.v2
      · rw [if_pos h, Nat.even_add_one]
        exact (xor_step _ _ _).1 h
      · rw [if_neg h, Nat.add_zero]
        exact (xor_step _ _ _).2 h

/-- C23: for a vertex `v` whose incident triangles `triSet` are triangles of the mesh with
three different indices each, `vertexOnBoundary` returns without a fault; it returns
`false` when the fan is closed (every vertex other than `v` that occurs in the fan occurs
in exactly two of its triangles) and `true` when the fan is open (two vertices occur in
only one of its triangles). -/
theorem vertexOnBoundary_fan (triangles : List Vec3i) (triSet : List Nat) (v : Nat)
    (hrange : ∀ t ∈ triSet, t < triangles.length)
    (hd : ∀ t ∈ triSet, ∀ tri, triangles[t]? = some tri →
      tri.v0 ≠ tri.v1 ∧ tri.v1 ≠ tri.v2 ∧ tri.v0 ≠ tri.v2) :
    ∃ b, vertexOnBoundary triangles triSet = .ok b ∧
      (closedFan triangles triSet v → b = false) ∧
      (openFan triangles triSet → b = true) := by
  obtain ⟨S, hrun, hsorted, hmem⟩ := nonRepeatLoop_spec triangles triSet hrange hd []
    List.sorted_nil
  have hodd : ∀ x, x ∈ S ↔ ¬ Even (incidentCount triangles triSet x) := by
    intro x
    rw [hmem x]
    simp
  refine ⟨decide (S.length ≥ 2), ?_, ?_, ?_⟩
  · simp [vertexOnBoundary, hrun, bind, Except.bind, pure, Except.pure]
  · intro hclosed
    have hsub : S ⊆ [v] := by
      intro x hx
      by_contra hne
      have hxv : x ≠ v := by simpa using hne
      rcases hclosed x hxv with h | h <;> exact (hodd x).1 hx (by rw [h]; decide)
    have hlen := (List.subperm_of_subset hsorted.nodup hsub).length_le
    simp only [List.length_singleton] at hlen
    simp only [decide_eq_false_iff_not]
    omega
  · rintro ⟨a, b, hab, ha, hb⟩
    have hsub : [a, b] ⊆ S := by
      intro x hx
      simp only [List.mem_cons, List.mem_singleton, List.not_mem_nil, or_false] at hx
      rcases hx with rfl | rfl
      · exact (hodd x).2 (by rw [ha]; decide)
      · exact (hodd x).2 (by rw [hb]; decide)
    have hnd : [a, b].Nodup := by simp [hab]
    have hlen := (List.subperm_of_subset hnd hsub).length_le
    simp only [List.length_cons, List.length_nil] at hlen
    simp only [decide_eq_true_eq]
    omega

theorem vertexOnBoundary_fan_witness :
    (∃ b, vertexOnBoundary openFanTriangles [0, 1] = .ok b ∧ b = true) ∧
    (∃ b, vertexOnBoundary tetraTriangles [0, 1, 2] = .ok b ∧ b = false) := by
  constructor
  · obtain ⟨b, h1, _, h3⟩ := vertexOnBoundary_fan openFanTriangles [0, 1] 0 (by decide)
      (by decide)
    exact ⟨b, h1, h3 ⟨1, 3, by decide, by decide, by decide⟩⟩
  · obtain ⟨b, h1, h2, _⟩ := vertexOnBoundary_fan tetraTriangles [0, 1, 2] 0 (by decide)
      (by decide)
    refine ⟨b, h1, h2 ?_⟩
    intro x hx
    by_cases h4 : x < 4
    · interval_cases x
      · exact absurd rfl hx
      · exact Or.inr (by decide)
      · exact Or.inr (by decide)
      · exact Or.inr (by decide)
    · refine Or.inl ?_
      have e1 : x ≠ 1 := by omega
      have e2 : x ≠ 2 := by omega
      have e3 : x ≠ 3 := by omega
      simp [incidentCount, hasVertex, tetraTriangles, List.countP_cons, hx, e1, e2, e3]

/-! ## Properties of the pipeline of SurfaceMeshCut -/

theorem lookup_assocSet {κ β : Type} [BEq κ] [LawfulBEq κ] [DecidableEq κ] (k k1 : κ) (v : β)
    (l : List (κ × β)) :
    (assocSet k v l).lookup k1 = if k1 = k then some v else l.lookup k1 := by
  induction l with
  | nil =>
    by_cases h : k1 = k
    · simp [assocSet, List.lookup, h]
    · have hne : (k1 == k) = false := by simpa using h
      simp [assocSet, List.lookup, h, hne]
  | cons e rest ih =>
    obtain ⟨k2, v2⟩ := e
    simp only [assocSet]
    by_cases h2 : k2 = k
    · rw [if_pos h2]
      subst h2
      by_cases h : k1 = k2
      · simp [List.lookup, h]
      · have hne : (k1 == k2) = false := by simpa using h
        simp [List.lookup, h, hne]
    · rw [if_neg h2]
      by_cases h : k1 = k2
      · have hk : k1 ≠ k := fun hk => h2 (h.symm.trans hk)
        simp [List.lookup, h, h2]
      · have hne : (k1 == k2) = false := by simpa using h
        simp only [List.lookup, hne, ih]

theorem mem_cutVertsAssign (k : Nat) (v : Bool) (l : List (Nat × Bool)) (p : Nat × Bool)
    (h : p ∈ cutVertsAssign k v l) : p = (k, v) ∨ p ∈ l := by
  induction l with
  | nil => simpa [cutVertsAssign] using h
  | cons e rest ih =>
    obtain ⟨k1, v1⟩ := e
    simp only [cutVertsAssign] at h
    split_ifs at h with h1 h2
    · rcases List.mem_cons.1 h with h | h
      · exact Or.inl h
      · exact Or.inr h
    · rcases List.mem_cons.1 h with h | h
      · exact Or.inl h
      · exact Or.inr (List.mem_cons_of_mem _ h)
    · rcases List.mem_cons.1 h with h | h
      · exact Or.inr (h ▸ List.mem_cons_self _ _)
      · rcases ih h with h | h
        · exact Or.inl h
        · exact Or.inr (List.mem_cons_of_mem _ h)

theorem markCutVert_keys (cutVerts : List (Nat × Bool)) (k : Nat) (bound : Nat) (hk : k < bound)
    (h : ∀ p ∈ cutVerts, p.1 < bound) : ∀ p ∈ markCutVert cutVerts k, p.1 < bound := by
  intro p hp
  rcases mem_cutVertsAssign _ _ _ _ hp with rfl | hp
  · exact hk
  · exact h p hp

theorem thirdPoint_mem (ptIds : Vec3i) (ptId0 ptId1 : Nat) :
    thirdPoint ptIds ptId0 ptId1 = ptIds.v0 ∨ thirdPoint ptIds ptId0 ptId1 = ptIds.v1 ∨
      thirdPoint ptIds ptId0 ptId1 = ptIds.v2 := by
  unfold thirdPoint
  simp only [Vec3i.get]
  split_ifs <;> simp

theorem thirdPoint_lt (vertices : List Vec3d) (ptIds : Vec3i) (ptId0 ptId1 : Nat)
    (h : validTriangle vertices ptIds) : thirdPoint ptIds ptId0 ptId1 < vertices.length := by
  obtain ⟨h0, h1, h2⟩ := h
  rcases thirdPoint_mem ptIds ptId0 ptId1 with e | e | e <;> rw [e] <;> assumption

theorem validTriangle_append (vertices extra : List Vec3d) (tri : Vec3i)
    (h : validTriangle vertices tri) : validTriangle (vertices ++ extra) tri := by
  obtain ⟨h0, h1, h2⟩ := h
  simp only [validTriangle, List.length_append]
  omega

theorem addNewPoint_found (edge reversed : Nat × Nat) (cood : Vec3d) (st : RefineState)
    (w : Nat) (h : st.edgeVertMap.lookup reversed = some w) :
    addNewPoint edge reversed cood st = (w, st) := by
  simp only [addNewPoint, h]

theorem addNewPoint_new (edge reversed : Nat × Nat) (cood : Vec3d) (st : RefineState)
    (h : st.edgeVertMap.lookup reversed = none) :
    addNewPoint edge reversed cood st
      = (st.vertices.length,
          { st with vertices := st.vertices ++ [cood],
                    edgeVertMap := assocSet edge st.vertices.length st.edgeVertMap }) := by
  simp only [addNewPoint, h]

/-- The block `// add new point` gives a point of the vertex array, appends at most one
vertex, and leaves the triangles and `cutVerts` as they are. -/
theorem addNewPoint_spec (edge reversed : Nat × Nat) (cood : Vec3d) (st : RefineState)
    (h : RefineSound st) :
    (addNewPoint edge reversed cood st).1 < (addNewPoint edge reversed cood st).2.vertices.length ∧
    (addNewPoint edge reversed cood st).2.triangles = st.triangles ∧
    (addNewPoint edge reversed cood st).2.cutVerts = st.cutVerts ∧
    (∃ extra, (addNewPoint edge reversed cood st).2.vertices = st.vertices ++ extra) ∧
    RefineSound (addNewPoint edge reversed cood st).2 := by
  cases hlook : st.edgeVertMap.lookup reversed with
  | some w =>
    rw [addNewPoint_found edge reversed cood st w hlook]
    exact ⟨h.edgeVertMap _ _ hlook, rfl, rfl, ⟨[], by simp⟩, h⟩
  | none =>
    rw [addNewPoint_new edge reversed cood st hlook]
    refine ⟨by simp, rfl, rfl, ⟨[cood], rfl⟩, ?_, ?_, ?_⟩
    · intro tri htri
      exact validTriangle_append _ _ _ (h.triangles tri htri)
    · intro e w hw
      simp only [List.length_append, List.length_singleton]
      simp only [] at hw
      rw [lookup_assocSet] at hw
      split_ifs at hw with he
      · cases hw
        omega
      · have := h.edgeVertMap e w hw
        omega
    · intro p hp
      have := h.cutVerts p hp
      simp only [List.length_append, List.length_singleton]
      omega

/-- The body of the loop of `refinement` for an `EDGE_VERT` record, on a state that has
the triangle `tri` in the slot of the record. -/
theorem refineStep_edgeVert (c : CutData) (st : RefineState) (tri : Vec3i)
    (ht : c.cutType = CutType.EDGE_VERT) (hslot : st.triangles[c.triId]? = some tri) :
    refineStep c st = .ok
      { edgeVertMap := (addNewPoint (c.ptIds.1, c.ptIds.2) (c.ptIds.2, c.ptIds.1)
          c.cutCoords.1 st).2.edgeVertMap,
        triangles := st.triangles.set c.triId
            { v0 := thirdPoint tri c.ptIds.1 c.ptIds.2, v1 := c.ptIds.1,
              v2 := (addNewPoint (c.ptIds.1, c.ptIds.2) (c.ptIds.2, c.ptIds.1)
                c.cutCoords.1 st).1 } ++
          [{ v0 := thirdPoint tri c.ptIds.1 c.ptIds.2,
             v1 := (addNewPoint (c.ptIds.1, c.ptIds.2) (c.ptIds.2, c.ptIds.1)
               c.cutCoords.1 st).1,
             v2 := c.ptIds.2 }],
        vertices := (addNewPoint (c.ptIds.1, c.ptIds.2) (c.ptIds.2, c.ptIds.1)
          c.cutCoords.1 st).2.vertices,
        cutVerts := markCutVert (markCutVert st.cutVerts (thirdPoint tri c.ptIds.1 c.ptIds.2))
          (addNewPoint (c.ptIds.1, c.ptIds.2) (c.ptIds.2, c.ptIds.1) c.cutCoords.1 st).1 } := by
  cases hlook : st.edgeVertMap.lookup (c.ptIds.2, c.ptIds.1) with
  | some w =>
    rw [addNewPoint_found _ _ _ _ w hlook]
    simp [refineStep, ht, addNewPoint_found _ _ _ _ w hlook, triangleAt, hslot, bind,
      Except.bind, pure, Except.pure]
  | none =>
    rw [addNewPoint_new _ _ _ _ hlook]
    simp [refineStep, ht, addNewPoint_new _ _ _ _ hlook, triangleAt, hslot, bind,
      Except.bind, pure, Except.pure]

/-- The body of the loop of `refinement` for an `EDGE_EDGE` record, on a state that has
the triangle `tri` in the slot of the record. -/
theorem refineStep_edgeEdge (c : CutData) (st : RefineState) (tri : Vec3i)
    (ht : c.cutType = CutType.EDGE_EDGE) (hslot : st.triangles[c.triId]? = some tri)
    (r0 r1 : Nat × RefineState)
    (h0 : r0 = addNewPoint (thirdPoint tri c.ptIds.1 c.ptIds.2, c.ptIds.1)
      (c.ptIds.1, thirdPoint tri c.ptIds.1 c.ptIds.2) c.cutCoords.1 st)
    (h1 : r1 = addNewPoint (c.ptIds.2, thirdPoint tri c.ptIds.1 c.ptIds.2)
      (thirdPoint tri c.ptIds.1 c.ptIds.2, c.ptIds.2) c.cutCoords.2 r0.2) :
    refineStep c st = .ok
      { edgeVertMap := r1.2.edgeVertMap,
        triangles := st.triangles.set c.triId
            { v0 := thirdPoint tri c.ptIds.1 c.ptIds.2, v1 := r0.1, v2 := r1.1 } ++
          [{ v0 := r0.1, v1 := c.ptIds.1, v2 := c.ptIds.2 }] ++
          [{ v0 := r0.1, v1 := c.ptIds.2, v2 := r1.1 }],
        vertices := r1.2.vertices,
        cutVerts := markCutVert (markCutVert st.cutVerts r0.1) r1.1 } := by
  subst h1
  subst h0
  cases hl0 : st.edgeVertMap.lookup (c.ptIds.1, thirdPoint tri c.ptIds.1 c.ptIds.2) with
  | some w0 =>
    rw [addNewPoint_found _ _ _ _ w0 hl0]
    cases hl1 : st.edgeVertMap.lookup (thirdPoint tri c.ptIds.1 c.ptIds.2, c.ptIds.2) with
    | some w1 =>
      simp [refineStep, ht, addNewPoint_found _ _ _ _ w0 hl0, addNewPoint_found _ _ _ _ w1 hl1,
        triangleAt, hslot, bind, Except.bind, pure, Except.pure]
    | none =>
      simp [refineStep, ht, addNewPoint_found _ _ _ _ w0 hl0, addNewPoint_new _ _ _ _ hl1,
        triangleAt, hslot, bind, Except.bind, pure, Except.pure]
  | none =>
    rw [addNewPoint_new _ _ _ _ hl0]
    simp only [refineStep, ht, addNewPoint_new _ _ _ _ hl0, triangleAt, hslot, bind,
      Except.bind, pure, Except.pure]
    cases hl1 : (assocSet (thirdPoint tri c.ptIds.1 c.ptIds.2, c.ptIds.1) st.vertices.length
        st.edgeVertMap).lookup (thirdPoint tri c.ptIds.1 c.ptIds.2, c.ptIds.2) with
    | some w1 =>
      simp [addNewPoint, hl1]
    | none =>
      simp [addNewPoint, hl1]

theorem validTriangle_set_append (vertices : List Vec3d) (triangles extra : List Vec3i)
    (i : Nat) (t : Vec3i) (h : ∀ tri ∈ triangles, validTriangle vertices tri)
    (ht : validTriangle vertices t) (hextra : ∀ tri ∈ extra, validTriangle vertices tri) :
    ∀ tri ∈ triangles.set i t ++ extra, validTriangle vertices tri := by
  intro tri htri
  rcases List.mem_append.1 htri with h1 | h1
  · rcases List.mem_or_eq_of_mem_set h1 with h2 | h2
    · exact h tri h2
    · exact h2 ▸ ht
  · exact hextra tri h1

/-- The body of the loop of `refinement`, for a record of one of the types that
`generateCutData` makes, with its triangle and its two points in the arrays: it returns
without a fault, keeps the state sound, removes no triangle and only appends vertices. -/
theorem refineStep_sound (c : CutData) (st : RefineState) (h : RefineSound st)
    (htype : c.cutType = CutType.EDGE_EDGE ∨ c.cutType = CutType.EDGE_VERT ∨
      c.cutType = CutType.VERT_VERT)
    (htri : c.triId < st.triangles.length) (hp0 : c.ptIds.1 < st.vertices.length)
    (hp1 : c.ptIds.2 < st.vertices.length) :
    ∃ st1, refineStep c st = .ok st1 ∧ RefineSound st1 ∧
      st.triangles.length ≤ st1.triangles.length ∧
      ∃ extra, st1.vertices = st.vertices ++ extra := by
  obtain ⟨tri, hslot⟩ : ∃ tri, st.triangles[c.triId]? = some tri :=
    ⟨_, List.getElem?_eq_getElem htri⟩
  have htv : validTriangle st.vertices tri :=
    h.triangles tri (by
      obtain ⟨h1, h2⟩ := List.getElem?_eq_some.1 hslot
      exact h2 ▸ List.getElem_mem h1)
  have hthird := thirdPoint_lt st.vertices tri c.ptIds.1 c.ptIds.2 htv
  rcases htype with ht | ht | ht
  · obtain ⟨a1, a2, a3, ⟨e0, a4⟩, a5⟩ := addNewPoint_spec
      (thirdPoint tri c.ptIds.1 c.ptIds.2, c.ptIds.1)
      (c.ptIds.1, thirdPoint tri c.ptIds.1 c.ptIds.2) c.cutCoords.1 st h
    obtain ⟨b1, b2, b3, ⟨e1, b4⟩, b5⟩ := addNewPoint_spec
      (c.ptIds.2, thirdPoint tri c.ptIds.1 c.ptIds.2)
      (thirdPoint tri c.ptIds.1 c.ptIds.2, c.ptIds.2) c.cutCoords.2 _ a5
    refine ⟨_, refineStep_edgeEdge c st tri ht hslot _ _ rfl rfl, ⟨?_, ?_, ?_⟩, ?_, ?_⟩
    · have hlen : ∀ k, k < st.vertices.length → k < (addNewPoint
          (c.ptIds.2, thirdPoint tri c.ptIds.1 c.ptIds.2)
          (thirdPoint tri c.ptIds.1 c.ptIds.2, c.ptIds.2) c.cutCoords.2
          (addNewPoint (thirdPoint tri c.ptIds.1 c.ptIds.2, c.ptIds.1)
            (c.ptIds.1, thirdPoint tri c.ptIds.1 c.ptIds.2) c.cutCoords.1 st).2).2.vertices.length := by
        intro k hk
        rw [b4, a4]
        simp only [List.length_append]
        omega
      have hlen0 : (addNewPoint (thirdPoint tri c.ptIds.1 c.ptIds.2, c.ptIds.1)
            (c.ptIds.1, thirdPoint tri c.ptIds.1 c.ptIds.2) c.cutCoords.1 st).1 < (addNewPoint
          (c.ptIds.2, thirdPoint tri c.ptIds.1 c.ptIds.2)
          (thirdPoint tri c.ptIds.1 c.ptIds.2, c.ptIds.2) c.cutCoords.2
          (addNewPoint (thirdPoint tri c.ptIds.1 c.ptIds.2, c.ptIds.1)
            (c.ptIds.1, thirdPoint tri c.ptIds.1 c.ptIds.2) c.cutCoords.1 st).2).2.vertices.length := by
        rw [b4]
        simp only [List.length_append]
        omega
      simp only [List.append_assoc]
      refine validTriangle_set_append _ _ _ _ _ ?_ ⟨hlen _ hthird, hlen0, b1⟩ ?_
      · intro t1 ht1
        rw [b4, a4, List.append_assoc]
        exact validTriangle_append _ _ _ (h.triangles t1 ht1)
      · intro t1 ht1
        simp only [List.cons_append, List.nil_append, List.mem_cons, List.mem_singleton,
          List.not_mem_nil, or_false] at ht1
        rcases ht1 with rfl | rfl
        · exact ⟨hlen0, hlen _ hp0, hlen _ hp1⟩
        · exact ⟨hlen0, hlen _ hp1, b1⟩
    · exact b5.edgeVertMap
    · refine markCutVert_keys _ _ _ b1 (markCutVert_keys _ _ _ ?_ ?_)
      · rw [b4]
        simp only [List.length_append]
        omega
      · intro p hp
        have := h.cutVerts p hp
        rw [b4, a4]
        simp only [List.length_append]
        omega
    · simp only [List.length_append, List.length_set, List.length_singleton]
      omega
    · exact ⟨e0 ++ e1, by rw [b4, a4, List.append_assoc]⟩
  · obtain ⟨a1, a2, a3, ⟨e0, a4⟩, a5⟩ := addNewPoint_spec (c.ptIds.1, c.ptIds.2)
      (c.ptIds.2, c.ptIds.1) c.cutCoords.1 st h
    have hlen : ∀ k, k < st.vertices.length → k < (addNewPoint (c.ptIds.1, c.ptIds.2)
        (c.ptIds.2, c.ptIds.1) c.cutCoords.1 st).2.vertices.length := by
      intro k hk
      rw [a4]
      simp only [List.length_append]
      omega
    refine ⟨_, refineStep_edgeVert c st tri ht hslot, ⟨?_, ?_, ?_⟩, ?_, ?_⟩
    · refine validTriangle_set_append _ _ _ _ _ ?_ ⟨hlen _ hthird, hlen _ hp0, a1⟩ ?_
      · intro t1 ht1
        rw [a4]
        exact validTriangle_append _ _ _ (h.triangles t1 ht1)
      · intro t1 ht1
        rw [List.mem_singleton] at ht1
        subst ht1
        exact ⟨hlen _ hthird, a1, hlen _ hp1⟩
    · exact a5.edgeVertMap
    · exact markCutVert_keys _ _ _ a1 (markCutVert_keys _ _ _ (hlen _ hthird)
        (fun p hp => hlen _ (h.cutVerts p hp)))
    · simp only [List.length_append, List.length_set, List.length_singleton]
      omega
    · exact ⟨e0, a4⟩
  · refine ⟨{ st with cutVerts := markCutVert (markCutVert st.cutVerts c.ptIds.1) c.ptIds.2 },
      ?_, ⟨h.triangles, h.edgeVertMap, ?_⟩, le_refl _, ⟨[], by simp⟩⟩
    · simp [refineStep, ht, pure, Except.pure]
    · exact markCutVert_keys _ _ _ hp1 (markCutVert_keys _ _ _ hp0 h.cutVerts)

/-- The loop of `refinement` over records of the types that `generateCutData` makes, with
their triangles and points in the arrays of the input mesh. -/
theorem refineLoop_sound (records : List CutData) (n0 v0 : Nat)
    (hrec : ∀ c ∈ records, (c.cutType = CutType.EDGE_EDGE ∨ c.cutType = CutType.EDGE_VERT ∨
      c.cutType = CutType.VERT_VERT) ∧ c.triId < n0 ∧ c.ptIds.1 < v0 ∧ c.ptIds.2 < v0)
    (st : RefineState) (h : RefineSound st) (hn : n0 ≤ st.triangles.length)
    (hv : v0 ≤ st.vertices.length) :
    ∃ st1, refineLoop records st = .ok st1 ∧ RefineSound st1 ∧
      st.triangles.length ≤ st1.triangles.length ∧
      ∃ extra, st1.vertices = st.vertices ++ extra := by
  induction records generalizing st with
  | nil => exact ⟨st, rfl, h, le_refl _, ⟨[], by simp⟩⟩
  | cons c rest ih =>
    obtain ⟨htype, h1, h2, h3⟩ := hrec c (List.mem_cons_self _ _)
    obtain ⟨st1, hstep, hs1, hlen1, e1, hv1⟩ := refineStep_sound c st h htype (by omega)
      (by omega) (by omega)
    obtain ⟨st2, hrun, hs2, hlen2, e2, hv2⟩ := ih
      (fun d hd => hrec d (List.mem_cons_of_mem _ hd)) st1 hs1 (by omega)
      (by rw [hv1, List.length_append]; omega)
    refine ⟨st2, ?_, hs2, by omega, ⟨e1 ++ e2, by rw [hv2, hv1, List.append_assoc]⟩⟩
    simp only [refineLoop, hstep, bind, Except.bind]
    exact hrun

theorem validTriangle_get (vertices : List Vec3d) (tri : Vec3i) (h : validTriangle vertices tri)
    (j : Nat) : tri.get j < vertices.length := by
  obtain ⟨h0, h1, h2⟩ := h
  simp only [Vec3i.get]
  split_ifs <;> assumption

theorem recordOf_ptIds {m_Plane : Plane} {m_Epsilon : ℚ} {vertices : List Vec3d} {i : Nat}
    {tri : Vec3i} {c : CutData} (h : RecordOf m_Plane m_Epsilon vertices i tri c) :
    c.triId = i ∧ ∃ j, j < 3 ∧ c.ptIds = (tri.get ((j + 1) % 3), tri.get ((j + 2) % 3)) := by
  rcases h with ⟨j, hj, _, rfl⟩ | ⟨j, hj, _, rfl⟩ | ⟨j, hj, _, rfl⟩
  · exact ⟨rfl, j, hj, rfl⟩
  · exact ⟨rfl, j, hj, rfl⟩
  · exact ⟨rfl, j, hj, rfl⟩

/-- The body of the loop of `splitVerts` over `cutVerts`, for a vertex of the arrays with
a set of different triangle ids of the mesh: it returns without a fault, keeps the number
of triangles and their indices in the vertex array, and only appends vertices. -/
theorem splitVert_sound (m_Plane : Plane) (m_Epsilon : ℚ)
    (vertexNeighborTriangles : List (List Nat)) (cutVert : Nat × Bool)
    (triangles : List Vec3i) (vertices : List Vec3d)
    (hnb : ∀ (v : Nat) (triSet : List Nat), vertexNeighborTriangles[v]? = some triSet →
      triSet.Nodup ∧ ∀ t ∈ triSet, t < triangles.length)
    (hk : cutVert.1 < vertexNeighborTriangles.length) (hkv : cutVert.1 < vertices.length)
    (hvalid : ∀ tri ∈ triangles, validTriangle vertices tri) :
    ∃ st1, splitVert m_Plane m_Epsilon vertexNeighborTriangles cutVert (triangles, vertices)
        = .ok st1 ∧ st1.1.length = triangles.length ∧
      (∀ tri ∈ st1.1, validTriangle st1.2 tri) ∧ ∃ extra, st1.2 = vertices ++ extra := by
  obtain ⟨v, flag⟩ := cutVert
  obtain ⟨triSet, hset⟩ : ∃ triSet, vertexNeighborTriangles[v]? = some triSet :=
    ⟨_, List.getElem?_eq_getElem hk⟩
  obtain ⟨hnodup, hrange⟩ := hnb v triSet hset
  obtain ⟨b, hb⟩ := vertexOnBoundary_ok triangles triSet hrange
  have hcopy : vertexAt vertices v = .ok (vertexPos vertices v) := by
    simp [vertexAt, vertexPos_spec vertices v hkv]
  have hvalid1 : ∀ tri ∈ triangles, validTriangle (vertices ++ [vertexPos vertices v]) tri :=
    fun tri htri => validTriangle_append _ _ _ (hvalid tri htri)
  obtain ⟨triangles1, hrun, hlen, hspec⟩ := splitFan_spec m_Plane m_Epsilon
    (vertices ++ [vertexPos vertices v]) v vertices.length (by simp) triSet triangles hnodup
    hrange hvalid1
  have hsplit : ∀ tri ∈ triangles1, validTriangle (vertices ++ [vertexPos vertices v]) tri := by
    intro tri htri
    obtain ⟨t, ht, hget⟩ := List.getElem_of_mem htri
    have ht0 : t < triangles.length := by omega
    have h0 := hspec t triangles[t] (List.getElem?_eq_getElem ht0)
    rw [List.getElem?_eq_getElem ht, hget] at h0
    have h1 := Option.some.inj h0
    have hv0 := hvalid1 _ (List.getElem_mem ht0)
    rw [h1]
    split_ifs
    · exact validTriangle_replaceVert _ _ _ _ hv0 (by simp)
    · exact hv0
  cases flag with
  | true =>
    refine ⟨(triangles1, vertices ++ [vertexPos vertices v]), ?_, hlen, hsplit, ⟨_, rfl⟩⟩
    simp [splitVert, hset, hcopy, hrun, bind, Except.bind, pure, Except.pure]
  | false =>
    cases b with
    | true =>
      refine ⟨(triangles1, vertices ++ [vertexPos vertices v]), ?_, hlen, hsplit, ⟨_, rfl⟩⟩
      simp [splitVert, hset, hb, hcopy, hrun, bind, Except.bind, pure, Except.pure]
    | false =>
      refine ⟨(triangles, vertices), ?_, rfl, hvalid, ⟨[], by simp⟩⟩
      simp [splitVert, hset, hb, bind, Except.bind, pure, Except.pure]

theorem splitLoop_sound (m_Plane : Plane) (m_Epsilon : ℚ)
    (vertexNeighborTriangles : List (List Nat)) (n : Nat)
    (hnb : ∀ (v : Nat) (triSet : List Nat), vertexNeighborTriangles[v]? = some triSet →
      triSet.Nodup ∧ ∀ t ∈ triSet, t < n)
    (cutVerts : List (Nat × Bool)) (triangles : List Vec3i) (vertices : List Vec3d)
    (hn : triangles.length = n)
    (hk : ∀ p ∈ cutVerts, p.1 < vertexNeighborTriangles.length ∧ p.1 < vertices.length)
    (hvalid : ∀ tri ∈ triangles, validTriangle vertices tri) :
    ∃ st1, splitLoop m_Plane m_Epsilon vertexNeighborTriangles cutVerts (triangles, vertices)
        = .ok st1 ∧ st1.1.length = n ∧
      (∀ tri ∈ st1.1, validTriangle st1.2 tri) ∧ ∃ extra, st1.2 = vertices ++ extra := by
  induction cutVerts generalizing triangles vertices with
  | nil => exact ⟨(triangles, vertices), rfl, hn, hvalid, ⟨[], by simp⟩⟩
  | cons cutVert rest ih =>
    obtain ⟨hk1, hk2⟩ := hk cutVert (List.mem_cons_self _ _)
    obtain ⟨st1, hstep, hlen1, hvalid1, e1, hv1⟩ := splitVert_sound m_Plane m_Epsilon
      vertexNeighborTriangles cutVert triangles vertices (by rw [hn]; exact hnb) hk1 hk2 hvalid
    obtain ⟨triangles1, vertices1⟩ := st1
    simp only at hlen1 hvalid1 hv1
    obtain ⟨st2, hrun, hlen2, hvalid2, e2, hv2⟩ := ih triangles1 vertices1 (by omega)
      (fun p hp => by
        obtain ⟨h1, h2⟩ := hk p (List.mem_cons_of_mem _ hp)
        refine ⟨h1, ?_⟩
        rw [hv1, List.length_append]
        omega) hvalid1
    refine ⟨st2, ?_, hlen2, hvalid2, ⟨e1 ++ e2, by rw [hv2, hv1, List.append_assoc]⟩⟩
    simp only [splitLoop, hstep, bind, Except.bind]
    exact hrun

/-- C24: for an input mesh whose triangles have three indices in the vertex array,
`requestUpdate` (the steps `generateCutData`, `refinement`, `splitVerts`) returns without
a fault; every triangle of the output mesh has its three indices in the vertex array of
the output mesh; the output mesh has at least as many triangles as the input mesh; and
the vertex array of the output mesh is the one of the input mesh with vertices appended:
the positions of the vertices of the input are unchanged. -/
theorem requestUpdate_valid (m_Plane : Plane) (m_Epsilon : ℚ) (triangles : List Vec3i)
    (vertices : List Vec3d) (hvalid : ∀ tri ∈ triangles, validTriangle vertices tri) :
    ∃ triangles1 vertices1,
      requestUpdate m_Plane m_Epsilon triangles vertices = .ok (triangles1, vertices1) ∧
      (∀ tri ∈ triangles1, validTriangle vertices1 tri) ∧
      triangles.length ≤ triangles1.length ∧
      ∃ extra, vertices1 = vertices ++ extra := by
  obtain ⟨cutData, hgen, hrec, _, _⟩ :=
    generateCutData_records m_Plane m_Epsilon vertices triangles hvalid
  have hrecords : ∀ c ∈ cutData, (c.cutType = CutType.EDGE_EDGE ∨
      c.cutType = CutType.EDGE_VERT ∨ c.cutType = CutType.VERT_VERT) ∧
      c.triId < triangles.length ∧ c.ptIds.1 < vertices.length ∧
      c.ptIds.2 < vertices.length := by
    intro c hc
    obtain ⟨tri, htri, hrecord, _⟩ := hrec c hc
    obtain ⟨hlt, hget⟩ := List.getElem?_eq_some.1 htri
    have hv := hvalid tri (hget ▸ List.getElem_mem hlt)
    obtain ⟨_, j, _, hpt⟩ := recordOf_ptIds hrecord
    refine ⟨(recordOf_facts hrecord).1, hlt, ?_, ?_⟩
    · rw [hpt]
      exact validTriangle_get vertices tri hv _
    · rw [hpt]
      exact validTriangle_get vertices tri hv _
  obtain ⟨st1, hloop, hsound, hlen1, e1, hv1⟩ := refineLoop_sound cutData triangles.length
    vertices.length hrecords
    { edgeVertMap := [], triangles := triangles, vertices := vertices, cutVerts := [] }
    ⟨hvalid, fun e w hw => by simp at hw, fun p hp => by simp at hp⟩ (le_refl _) (le_refl _)
  obtain ⟨nbrs, hnbrs, hnlen, hnb⟩ := splitVerts_neighbors st1.triangles st1.vertices
    hsound.triangles
  obtain ⟨st2, hsplit, hlen2, hvalid2, e2, hv2⟩ := splitLoop_sound m_Plane m_Epsilon nbrs
    st1.triangles.length hnb st1.cutVerts st1.triangles st1.vertices rfl
    (fun p hp => ⟨by rw [hnlen]; exact hsound.cutVerts p hp, hsound.cutVerts p hp⟩)
    hsound.triangles
  refine ⟨st2.1, st2.2, ?_, hvalid2, ?_, ⟨e1 ++ e2, ?_⟩⟩
  · simp only [requestUpdate, hgen, refinement, hloop, splitVerts, hnbrs, hsplit, bind,
      Except.bind, pure, Except.pure]
  · simp only at hlen1
    omega
  · simp only at hv1
    rw [hv2, hv1, List.append_assoc]

theorem requestUpdate_valid_witness :
    ∃ triangles1 vertices1,
      requestUpdate samplePlane 0 sampleTriangles sampleVertices = .ok (triangles1, vertices1) ∧
      (∀ tri ∈ triangles1, validTriangle vertices1 tri) ∧
      sampleTriangles.length ≤ triangles1.length ∧
      ∃ extra, vertices1 = sampleVertices ++ extra :=
  requestUpdate_valid samplePlane 0 sampleTriangles sampleVertices
    (by simp [sampleTriangles, sampleVertices, validTriangle])

theorem thirdPoint_eq (tri : Vec3i) (j : Nat) (hj : j < 3)
    (h1 : tri.get j ≠ tri.get ((j + 1) % 3)) (h2 : tri.get j ≠ tri.get ((j + 2) % 3)) :
    thirdPoint tri (tri.get ((j + 1) % 3)) (tri.get ((j + 2) % 3)) = tri.get j := by
  interval_cases j <;> simp [thirdPoint, Vec3i.get] at h1 h2 ⊢
  · intro h
    exact absurd (h h1) h2
  · intro h
    exact absurd (h h1) h2

theorem get_ne_of_triSide_ne (m_Plane : Plane) (m_Epsilon : ℚ) (vertices : List Vec3d)
    (tri : Vec3i) (j k : Nat)
    (h : triSide m_Plane m_Epsilon vertices tri j ≠ triSide m_Plane m_Epsilon vertices tri k) :
    tri.get j ≠ tri.get k := by
  intro he
  apply h
  simp only [triSide, triPos, he]

theorem assocSet_absent {κ β : Type} [BEq κ] [LawfulBEq κ] [DecidableEq κ] (k : κ) (v : β)
    (l : List (κ × β)) (h : l.lookup k = none) : assocSet k v l = l ++ [(k, v)] := by
  induction l with
  | nil => rfl
  | cons e rest ih =>
    obtain ⟨k1, v1⟩ := e
    have hne : k1 ≠ k := by
      intro he
      subst he
      simp [List.lookup] at h
    have hb : (k == k1) = false := by simpa using Ne.symm hne
    have hrest : rest.lookup k = none := by
      simpa [List.lookup, hb] using h
    simp only [assocSet, if_neg hne, ih hrest, List.cons_append]

theorem lookup_value_mem {κ β : Type} [BEq κ] [LawfulBEq κ] (l : List (κ × β)) (k : κ) (w : β)
    (h : l.lookup k = some w) : w ∈ l.map Prod.snd := by
  obtain ⟨l1, l2, hl, _⟩ := List.lookup_eq_some_iff.1 h
  rw [hl]
  simp

theorem mapSound_bound {n : Nat} {st : RefineState} (h : MapSound n st) (e : Nat × Nat)
    (w : Nat) (hw : st.edgeVertMap.lookup e = some w) : n ≤ w ∧ w < st.vertices.length := by
  have h1 := lookup_value_mem _ _ _ hw
  rw [h.values, List.mem_range'_1] at h1
  rw [h.count]
  exact h1

/-- The block `// add new point` for an edge from `x` to `y ≠ x` that is not in the map in
this direction: the point it gives is in the map for the edge, in one of its directions;
the entries of the map stay, and the only one added is the edge. -/
theorem addNewPoint_mapSound (n : Nat) (x y : Nat) (cood : Vec3d) (st : RefineState)
    (h : MapSound n st) (hxy : x ≠ y) (habsent : st.edgeVertMap.lookup (x, y) = none) :
    MapSound n (addNewPoint (x, y) (y, x) cood st).2 ∧
    (∀ e w, st.edgeVertMap.lookup e = some w →
      (addNewPoint (x, y) (y, x) cood st).2.edgeVertMap.lookup e = some w) ∧
    (∀ e, e ≠ (x, y) →
      (addNewPoint (x, y) (y, x) cood st).2.edgeVertMap.lookup e = st.edgeVertMap.lookup e) ∧
    ((addNewPoint (x, y) (y, x) cood st).2.edgeVertMap.lookup (x, y)
        = some (addNewPoint (x, y) (y, x) cood st).1 ∨
      (addNewPoint (x, y) (y, x) cood st).2.edgeVertMap.lookup (y, x)
        = some (addNewPoint (x, y) (y, x) cood st).1) ∧
    (addNewPoint (x, y) (y, x) cood st).2.triangles = st.triangles := by
  cases hlook : st.edgeVertMap.lookup (y, x) with
  | some w =>
    rw [addNewPoint_found _ _ _ _ w hlook]
    exact ⟨h, fun e w hw => hw, fun e _ => rfl, Or.inr hlook, rfl⟩
  | none =>
    rw [addNewPoint_new _ _ _ _ hlook]
    have hne : (y, x) ≠ (x, y) := by
      intro he
      exact hxy (congrArg Prod.snd he)
    refine ⟨⟨?_, ?_, ?_, ?_⟩, ?_, ?_, ?_, rfl⟩
    · simp only [assocSet_absent _ _ _ habsent, List.map_append, List.map_cons, List.map_nil,
        List.length_append, List.length_singleton, List.range'_concat, h.values, h.count,
        Nat.one_mul]
    · simp only [assocSet_absent _ _ _ habsent, List.length_append, List.length_singleton,
        h.count]
      omega
    · simp only [assocSet_absent _ _ _ habsent, List.map_append, List.map_cons, List.map_nil]
      refine List.Nodup.append h.keysNodup (List.nodup_singleton _) ?_
      intro e he1 he2
      rw [List.mem_singleton] at he2
      subst he2
      obtain ⟨p, hp, hpe⟩ := List.mem_map.1 he1
      have := List.lookup_eq_none_iff.1 habsent p hp
      simp [hpe] at this
    · intro a b w hw
      simp only [] at hw ⊢
      rw [lookup_assocSet] at hw ⊢
      by_cases he : (a, b) = (x, y)
      · rw [if_neg (by
          intro h2
          have h3 : a = x ∧ b = y := by simpa using he
          have h4 : b = x ∧ a = y := by simpa using h2
          omega)]
        have h3 : a = x ∧ b = y := by simpa using he
        rw [h3.1, h3.2]
        exact hlook
      · rw [if_neg he] at hw
        have hold := h.noReverse a b w hw
        by_cases he2 : (b, a) = (x, y)
        · have h4 : b = x ∧ a = y := by simpa using he2
          rw [h4.1, h4.2] at hw
          rw [hlook] at hw
          cases hw
        · rw [if_neg he2]
          exact hold
    · intro e w hw
      simp only []
      rw [lookup_assocSet]
      by_cases he : e = (x, y)
      · rw [he, habsent] at hw
        cases hw
      · rw [if_neg he]
        exact hw
    · intro e he
      simp only []
      rw [lookup_assocSet, if_neg he]
    · left
      simp only []
      rw [lookup_assocSet, if_pos rfl]

theorem getElem?_set_append (l extra : List Vec3i) (t k : Nat) (x : Vec3i)
    (hk : k < l.length) : (l.set t x ++ extra)[k]? = if t = k then some x else l[k]? := by
  rw [List.getElem?_append_left (by simpa using hk), List.getElem?_set]
  by_cases h : t = k
  · subst h
    simp [hk]
  · simp [h]

/-- A round of the loop of `refinement` for the triangle `tri` of index `t`, the first
round for it, keeps the state as `SplitOnce` says when it keeps the map sound, adds to the
map only directed edges of `tri`, changes no triangle but the one in the slot `t`, and
leaves there a triangle that refers to the new points of the crossed edges of `tri`. -/
theorem splitOnce_step (m_Plane : Plane) (m_Epsilon : ℚ) (triangles : List Vec3i)
    (vertices : List Vec3d) (done : List Nat) (st st1 : RefineState)
    (hinv : SplitOnce m_Plane m_Epsilon triangles vertices done st) (t : Nat) (tri : Vec3i)
    (htri : triangles[t]? = some tri) (hnew : t ∉ done) (r : Vec3i) (extra : List Vec3i)
    (hmap : MapSound vertices.length st1)
    (hkeep : ∀ e w, st.edgeVertMap.lookup e = some w → st1.edgeVertMap.lookup e = some w)
    (hkeys : ∀ e w, st1.edgeVertMap.lookup e = some w →
      st.edgeVertMap.lookup e = some w ∨ ∃ j, j < 3 ∧ e = directedEdge tri j)
    (htriangles : st1.triangles = st.triangles.set t r ++ extra)
    (hcrossed : ∀ a, a < 3 → crossedEdge (triSide m_Plane m_Epsilon vertices tri) a →
      ∃ w, (st1.edgeVertMap.lookup (directedEdge tri a) = some w ∨
        st1.edgeVertMap.lookup (directedEdge tri a).swap = some w) ∧ r.has w) :
    SplitOnce m_Plane m_Epsilon triangles vertices (t :: done) st1 := by
  have hslot : st.triangles[t]? = some tri := hinv.slots t tri htri hnew
  have hlt : t < st.triangles.length := (List.getElem?_eq_some.1 hslot).1
  refine ⟨hmap, ?_, ?_, ?_⟩
  · intro k trik hk hnot
    have hk1 : k ≠ t := fun h => hnot (h ▸ List.mem_cons_self _ _)
    have hk2 : k ∉ done := fun h => hnot (List.mem_cons_of_mem _ h)
    have hold := hinv.slots k trik hk hk2
    rw [htriangles, getElem?_set_append _ _ _ _ _ (List.getElem?_eq_some.1 hold).1,
      if_neg (Ne.symm hk1)]
    exact hold
  · intro e w hw
    rcases hkeys e w hw with h | ⟨j, hj, he⟩
    · obtain ⟨k, trik, j, hk, htk, hj, he⟩ := hinv.keys e w h
      exact ⟨k, trik, j, List.mem_cons_of_mem _ hk, htk, hj, he⟩
    · exact ⟨t, tri, j, List.mem_cons_self _ _, htri, hj, he⟩
  · intro k trik a hk htk ha hcross
    rcases List.mem_cons.1 hk with hkt | hkd
    · subst hkt
      rw [htri] at htk
      cases htk
      obtain ⟨w, hw, hr⟩ := hcrossed a ha hcross
      refine ⟨w, r, hw, ?_, hr⟩
      rw [htriangles, getElem?_set_append _ _ _ _ _ hlt, if_pos rfl]
    · obtain ⟨w, r0, hw, hr0, hhas⟩ := hinv.crossed k trik a hkd htk ha hcross
      have hne : k ≠ t := fun h => hnew (h ▸ hkd)
      refine ⟨w, r0, ?_, ?_, hhas⟩
      · rcases hw with h | h
        · exact Or.inl (hkeep _ _ h)
        · exact Or.inr (hkeep _ _ h)
      · rw [htriangles, getElem?_set_append _ _ _ _ _ (List.getElem?_eq_some.1 hr0).1,
          if_neg (Ne.symm hne)]
        exact hr0

theorem succ_mod_three (j : Nat) (hj : j < 3) :
    ((j + 1) % 3 + 1) % 3 = (j + 2) % 3 ∧ ((j + 2) % 3 + 1) % 3 = j := by
  interval_cases j <;> simp

theorem crossedEdge_loneVertex (sd : Nat → Int) (j a : Nat) (hj : j < 3) (ha : a < 3)
    (h : loneVertex sd j) (hc : crossedEdge sd a) : a = j ∨ a = (j + 2) % 3 := by
  obtain ⟨h0, h1, h2⟩ := h
  obtain ⟨c0, c1⟩ := hc
  interval_cases j <;> interval_cases a <;> simp at h0 h1 h2 c0 c1 ⊢ <;> omega

theorem crossedEdge_vertexOnPlane (sd : Nat → Int) (j a : Nat) (hj : j < 3) (ha : a < 3)
    (h : vertexOnPlane sd j) (hc : crossedEdge sd a) : a = (j + 1) % 3 := by
  obtain ⟨h0, h1, h2⟩ := h
  obtain ⟨c0, c1⟩ := hc
  interval_cases j <;> interval_cases a <;> simp at h0 h1 h2 c0 c1 ⊢ <;> omega

theorem crossedEdge_edgeOnPlane (sd : Nat → Int) (j a : Nat) (hj : j < 3) (ha : a < 3)
    (h : edgeOnPlane sd j) (hc : crossedEdge sd a) : False := by
  obtain ⟨h0, h1, h2⟩ := h
  obtain ⟨c0, c1⟩ := hc
  interval_cases j <;> interval_cases a <;> simp at h0 h1 h2 c0 c1 <;> omega

theorem mapSound_congr {n : Nat} {st st1 : RefineState} (h : MapSound n st)
    (h1 : st1.edgeVertMap = st.edgeVertMap) (h2 : st1.vertices = st.vertices) :
    MapSound n st1 :=
  ⟨by rw [h1]; exact h.values, by rw [h1, h2]; exact h.count, by rw [h1]; exact h.keysNodup,
    fun x y w hw => by rw [h1] at hw ⊢; exact h.noReverse x y w hw⟩

/-- Writing to a slot of a list the element that is there leaves the list as it is. -/
theorem set_eq_of_getElem? {α : Type} (l : List α) (t : Nat) (x : α) (h : l[t]? = some x) :
    l.set t x = l := by
  apply List.ext_getElem?
  intro k
  rw [List.getElem?_set]
  by_cases hk : t = k
  · subst hk
    simp [h, (List.getElem?_eq_some.1 h).1]
  · simp [hk]

/-- In a consistently oriented mesh, no directed edge of a triangle without a record so
far is in `edgeVertMap`. -/
theorem splitOnce_absent (m_Plane : Plane) (m_Epsilon : ℚ) (triangles : List Vec3i)
    (vertices : List Vec3d) (done : List Nat) (st : RefineState)
    (horient : consistentlyOriented triangles)
    (hinv : SplitOnce m_Plane m_Epsilon triangles vertices done st) (t : Nat) (tri : Vec3i)
    (htri : triangles[t]? = some tri) (hnew : t ∉ done) (j : Nat) (hj : j < 3) :
    st.edgeVertMap.lookup (directedEdge tri j) = none := by
  cases h : st.edgeVertMap.lookup (directedEdge tri j) with
  | none => rfl
  | some w =>
    obtain ⟨k, trik, j1, hk, htk, hj1, he⟩ := hinv.keys _ w h
    have := (horient t k tri trik j j1 htri htk hj hj1 he).1
    exact absurd (this ▸ hk) hnew

/-- The body of the loop of `refinement` for the record of a triangle of a consistently
oriented mesh, the first record for this triangle. -/
theorem refineStep_splitOnce (m_Plane : Plane) (m_Epsilon : ℚ) (triangles : List Vec3i)
    (vertices : List Vec3d) (done : List Nat) (st : RefineState)
    (horient : consistentlyOriented triangles)
    (hinv : SplitOnce m_Plane m_Epsilon triangles vertices done st) (t : Nat) (tri : Vec3i)
    (c : CutData) (htri : triangles[t]? = some tri)
    (hrecord : RecordOf m_Plane m_Epsilon vertices t tri c) (hnew : t ∉ done) :
    ∃ st1, refineStep c st = .ok st1 ∧
      SplitOnce m_Plane m_Epsilon triangles vertices (t :: done) st1 := by
  have hslot : st.triangles[t]? = some tri := hinv.slots t tri htri hnew
  have habsent := splitOnce_absent m_Plane m_Epsilon triangles vertices done st horient hinv
    t tri htri hnew
  rcases hrecord with ⟨j, hj, hp, rfl⟩ | ⟨j, hj, hp, rfl⟩ | ⟨j, hj, hp, rfl⟩
  · -- EDGE_EDGE
    obtain ⟨hs0, hs1, hs2⟩ := hp
    have hne1 : tri.get j ≠ tri.get ((j + 1) % 3) :=
      get_ne_of_triSide_ne m_Plane m_Epsilon vertices tri _ _ (by
        rw [hs1]
        intro h
        exact hs0 (by omega))
    have hne2 : tri.get j ≠ tri.get ((j + 2) % 3) :=
      get_ne_of_triSide_ne m_Plane m_Epsilon vertices tri _ _ (by
        rw [hs2]
        intro h
        exact hs0 (by omega))
    have hthird := thirdPoint_eq tri j hj hne1 hne2
    have hstep := refineStep_edgeEdge (edgeEdgeRecord m_Plane t tri (triPos vertices tri) j) st
      tri rfl hslot _ _ rfl rfl
    simp only [edgeEdgeRecord] at hstep
    rw [hthird] at hstep
    have he0 : (tri.get j, tri.get ((j + 1) % 3)) = directedEdge tri j := rfl
    have he1 : (tri.get ((j + 2) % 3), tri.get j) = directedEdge tri ((j + 2) % 3) := by
      simp only [directedEdge, (succ_mod_three j hj).2]
    obtain ⟨m0, k0, o0, n0, t0⟩ := addNewPoint_mapSound vertices.length (tri.get j)
      (tri.get ((j + 1) % 3))
      (cutCoord m_Plane.getPosition m_Plane.getNormal (triPos vertices tri ((j + 1) % 3))
        (triPos vertices tri j)) st hinv.map hne1 (habsent j hj)
    have hne01 : (tri.get ((j + 2) % 3), tri.get j) ≠ (tri.get j, tri.get ((j + 1) % 3)) := by
      intro h
      exact hne2 (congrArg Prod.fst h).symm
    have habs1 := habsent ((j + 2) % 3) (Nat.mod_lt _ (by decide))
    rw [← he1, ← o0 _ hne01] at habs1
    obtain ⟨m1, k1, o1, n1, t1⟩ := addNewPoint_mapSound vertices.length (tri.get ((j + 2) % 3))
      (tri.get j)
      (cutCoord m_Plane.getPosition m_Plane.getNormal (triPos vertices tri ((j + 2) % 3))
        (triPos vertices tri j)) _ m0 (Ne.symm hne2) habs1
    refine ⟨_, hstep, splitOnce_step m_Plane m_Epsilon triangles vertices done st _ hinv t tri
      htri hnew _ _ (mapSound_congr m1 rfl rfl) (fun e w hw => k1 e w (k0 e w hw)) ?_
      (by rw [List.append_assoc]) ?_⟩
    · intro e w hw
      by_cases h1 : e = (tri.get ((j + 2) % 3), tri.get j)
      · exact Or.inr ⟨(j + 2) % 3, Nat.mod_lt _ (by decide), h1.trans he1⟩
      · by_cases h0 : e = (tri.get j, tri.get ((j + 1) % 3))
        · exact Or.inr ⟨j, hj, h0⟩
        · left
          have := o1 e h1
          simp only [] at hw
          rw [this, o0 e h0] at hw
          exact hw
    · intro a ha hcross
      rcases crossedEdge_loneVertex _ j a hj ha ⟨hs0, hs1, hs2⟩ hcross with rfl | rfl
      · refine ⟨_, ?_, Or.inr (Or.inl rfl)⟩
        rcases n0 with h | h
        · exact Or.inl (k1 _ _ h)
        · exact Or.inr (k1 _ _ h)
      · refine ⟨_, ?_, Or.inr (Or.inr rfl)⟩
        rw [← he1]
        exact n1
  · -- EDGE_VERT
    obtain ⟨hs0, hs1, hs2⟩ := hp
    have hne1 : tri.get j ≠ tri.get ((j + 1) % 3) :=
      get_ne_of_triSide_ne m_Plane m_Epsilon vertices tri _ _ (by rw [hs0]; exact Ne.symm hs1)
    have hne2 : tri.get j ≠ tri.get ((j + 2) % 3) :=
      get_ne_of_triSide_ne m_Plane m_Epsilon vertices tri _ _ (by
        rw [hs0, hs2]
        intro h
        exact hs1 (by omega))
    have hne12 : tri.get ((j + 1) % 3) ≠ tri.get ((j + 2) % 3) :=
      get_ne_of_triSide_ne m_Plane m_Epsilon vertices tri _ _ (by
        rw [hs2]
        intro h
        exact hs1 (by omega))
    have hthird := thirdPoint_eq tri j hj hne1 hne2
    have hstep := refineStep_edgeVert (edgeVertRecord m_Plane t tri (triPos vertices tri) j) st
      tri rfl hslot
    simp only [edgeVertRecord] at hstep
    rw [hthird] at hstep
    have he : (tri.get ((j + 1) % 3), tri.get ((j + 2) % 3))
        = directedEdge tri ((j + 1) % 3) := by
      simp only [directedEdge, (succ_mod_three j hj).1]
    have habs := habsent ((j + 1) % 3) (Nat.mod_lt _ (by decide))
    rw [← he] at habs
    obtain ⟨m0, k0, o0, n0, t0⟩ := addNewPoint_mapSound vertices.length
      (tri.get ((j + 1) % 3)) (tri.get ((j + 2) % 3))
      (cutCoord m_Plane.getPosition m_Plane.getNormal (triPos vertices tri ((j + 1) % 3))
        (triPos vertices tri ((j + 2) % 3))) st hinv.map hne12 habs
    refine ⟨_, hstep, splitOnce_step m_Plane m_Epsilon triangles vertices done st _ hinv t tri
      htri hnew _ _ (mapSound_congr m0 rfl rfl) k0 ?_ rfl ?_⟩
    · intro e w hw
      by_cases h0 : e = (tri.get ((j + 1) % 3), tri.get ((j + 2) % 3))
      · exact Or.inr ⟨(j + 1) % 3, Nat.mod_lt _ (by decide), h0.trans he⟩
      · left
        simp only [] at hw
        rw [o0 e h0] at hw
        exact hw
    · intro a ha hcross
      have haj := crossedEdge_vertexOnPlane _ j a hj ha ⟨hs0, hs1, hs2⟩ hcross
      subst haj
      refine ⟨_, ?_, Or.inr (Or.inr rfl)⟩
      rw [← he]
      exact n0
  · -- VERT_VERT
    refine ⟨{ st with cutVerts := markCutVert (markCutVert st.cutVerts
        (tri.get ((j + 1) % 3))) (tri.get ((j + 2) % 3)) }, ?_, ?_⟩
    · simp [refineStep, vertVertRecord, pure, Except.pure]
    · refine splitOnce_step m_Plane m_Epsilon triangles vertices done st _ hinv t tri htri hnew
        tri [] (mapSound_congr hinv.map rfl rfl) (fun e w hw => hw) (fun e w hw => Or.inl hw) ?_ ?_
      · simp only [List.append_nil]
        exact (set_eq_of_getElem? _ _ _ hslot).symm
      · intro a ha hcross
        exact (crossedEdge_edgeOnPlane _ j a hj ha hp hcross).elim

/-- A list in which no element shares its key with a second one has different keys. -/
theorem nodup_map_of_filter_le {α : Type} (f : α → Nat) (l : List α)
    (h : ∀ c ∈ l, (l.filter (fun d => decide (f d = f c))).length ≤ 1) : (l.map f).Nodup := by
  induction l with
  | nil => exact List.nodup_nil
  | cons c rest ih =>
    rw [List.map_cons, List.nodup_cons]
    constructor
    · intro hmem
      obtain ⟨d, hd, hfd⟩ := List.mem_map.1 hmem
      have h1 := h c (List.mem_cons_self _ _)
      rw [List.filter_cons_of_pos (by simp)] at h1
      have h2 : d ∈ rest.filter (fun d => decide (f d = f c)) :=
        List.mem_filter.2 ⟨hd, by simp [hfd]⟩
      have h3 := List.length_pos_of_mem h2
      simp only [List.length_cons] at h1
      omega
    · apply ih
      intro d hd
      have h1 := h d (List.mem_cons_of_mem _ hd)
      have h2 : (rest.filter (fun e => decide (f e = f d))).length
          ≤ ((c :: rest).filter (fun e => decide (f e = f d))).length := by
        rw [List.filter_cons]
        split_ifs
        · simp
        · exact le_refl _
      omega

/-- A triangle with an edge that the plane crosses has a lone vertex or a vertex on the
plane between two vertices on opposite sides. -/
theorem crossedEdge_cases (sd : Nat → Int) (c0 : sd 0 = 1 ∨ sd 0 = -1 ∨ sd 0 = 0)
    (c1 : sd 1 = 1 ∨ sd 1 = -1 ∨ sd 1 = 0) (c2 : sd 2 = 1 ∨ sd 2 = -1 ∨ sd 2 = 0) (a : Nat)
    (ha : a < 3) (hc : crossedEdge sd a) :
    (∃ j, j < 3 ∧ loneVertex sd j) ∨ (∃ j, j < 3 ∧ vertexOnPlane sd j) := by
  obtain ⟨h0, h1⟩ := hc
  by_cases hz : sd ((a + 2) % 3) = 0
  · right
    refine ⟨(a + 2) % 3, Nat.mod_lt _ (by decide), ?_⟩
    interval_cases a <;> simp [vertexOnPlane] at h0 h1 hz ⊢ <;> omega
  · left
    by_cases hs : sd ((a + 2) % 3) = sd a
    · refine ⟨(a + 1) % 3, Nat.mod_lt _ (by decide), ?_⟩
      interval_cases a <;> simp [loneVertex] at h0 h1 hz hs ⊢ <;> omega
    · refine ⟨a, ha, ?_⟩
      interval_cases a <;> simp [loneVertex] at h0 h1 hz hs ⊢ <;> omega

/-- The loop of `refinement` over records of different triangles of a consistently
oriented mesh, none of them a triangle of `done`. -/
theorem refineLoop_splitOnce (m_Plane : Plane) (m_Epsilon : ℚ) (triangles : List Vec3i)
    (vertices : List Vec3d) (horient : consistentlyOriented triangles)
    (records : List CutData) :
    ∀ (done : List Nat) (st : RefineState),
      (∀ c ∈ records, ∃ tri, triangles[c.triId]? = some tri ∧
        RecordOf m_Plane m_Epsilon vertices c.triId tri c) →
      (records.map CutData.triId).Nodup →
      (∀ c ∈ records, c.triId ∉ done) →
      SplitOnce m_Plane m_Epsilon triangles vertices done st →
      ∃ (st1 : RefineState) (done1 : List Nat), refineLoop records st = .ok st1 ∧
        (∀ t ∈ done, t ∈ done1) ∧ (∀ c ∈ records, c.triId ∈ done1) ∧
        SplitOnce m_Plane m_Epsilon triangles vertices done1 st1 := by
  induction records with
  | nil =>
    intro done st _ _ _ hinv
    exact ⟨st, done, rfl, fun t ht => ht, fun c hc => absurd hc (List.not_mem_nil _), hinv⟩
  | cons c rest ih =>
    intro done st hrec hnd hdisj hinv
    obtain ⟨tri, htri, hrecord⟩ := hrec c (List.mem_cons_self _ _)
    obtain ⟨st1, hstep, hinv1⟩ := refineStep_splitOnce m_Plane m_Epsilon triangles vertices
      done st horient hinv c.triId tri c htri hrecord (hdisj c (List.mem_cons_self _ _))
    rw [List.map_cons, List.nodup_cons] at hnd
    have hdisj1 : ∀ d ∈ rest, d.triId ∉ c.triId :: done := by
      intro d hd hmem
      rcases List.mem_cons.1 hmem with h | h
      · exact hnd.1 (h ▸ List.mem_map_of_mem _ hd)
      · exact hdisj d (List.mem_cons_of_mem _ hd) h
    obtain ⟨st2, done2, hloop, hmono, hall, hinv2⟩ := ih (c.triId :: done) st1
      (fun d hd => hrec d (List.mem_cons_of_mem _ hd)) hnd.2 hdisj1 hinv1
    refine ⟨st2, done2, ?_, fun t ht => hmono t (List.mem_cons_of_mem _ ht), ?_, hinv2⟩
    · simp only [refineLoop, hstep, bind, Except.bind]
      exact hloop
    · intro d hd
      rcases List.mem_cons.1 hd with h | h
      · rw [h]
        exact hmono _ (List.mem_cons_self _ _)
      · exact hall d h

/-- The entries of a map with different keys for the key `k`, which it has, and a key
that it has not. -/
theorem filter_keys_eq {κ β : Type} [BEq κ] [LawfulBEq κ] [DecidableEq κ]
    (l : List (κ × β)) (k k1 : κ) (w : β) (hnd : (l.map Prod.fst).Nodup)
    (h : l.lookup k = some w) (h1 : l.lookup k1 = none) :
    l.filter (fun p => decide (p.1 = k ∨ p.1 = k1)) = [(k, w)] := by
  induction l with
  | nil => simp at h
  | cons e rest ih =>
    obtain ⟨k0, w0⟩ := e
    rw [List.map_cons, List.nodup_cons] at hnd
    have hk1 : k0 ≠ k1 := by
      intro he
      subst he
      simp [List.lookup] at h1
    have hb1 : (k1 == k0) = false := by simpa using Ne.symm hk1
    have hrest1 : rest.lookup k1 = none := by simpa [List.lookup, hb1] using h1
    by_cases hk : k0 = k
    · subst hk
      have hw : w0 = w := by simpa [List.lookup] using h
      subst hw
      rw [List.filter_cons_of_pos (by simp)]
      congr 1
      rw [List.filter_eq_nil_iff]
      intro p hp
      have hp1 : p.1 ≠ k0 := by
        intro he
        have hmem : p.1 ∈ rest.map Prod.fst := List.mem_map_of_mem _ hp
        rw [he] at hmem
        exact hnd.1 hmem
      have hp2 : p.1 ≠ k1 := by
        intro he
        have := List.lookup_eq_none_iff.1 hrest1 p hp
        simp [he] at this
      simp [hp1, hp2]
    · have hb : (k == k0) = false := by simpa using Ne.symm hk
      have hrest : rest.lookup k = some w := by simpa [List.lookup, hb] using h
      rw [List.filter_cons_of_neg (by simp [hk, hk1])]
      exact ih hnd.2 hrest hrest1

/-- The state in which `refinement` starts its loop, which has no record behind it. -/
theorem splitOnce_start (m_Plane : Plane) (m_Epsilon : ℚ) (triangles : List Vec3i)
    (vertices : List Vec3d) (cutVerts : List (Nat × Bool)) :
    SplitOnce m_Plane m_Epsilon triangles vertices []
      { edgeVertMap := [], triangles := triangles, vertices := vertices,
        cutVerts := cutVerts } :=
  ⟨⟨rfl, rfl, List.nodup_nil, fun _ _ _ hw => by simp at hw⟩, fun _ _ h _ => h,
    fun _ _ hw => by simp at hw, fun _ _ _ h => absurd h (List.not_mem_nil _)⟩

/-- A triangle with an edge that the plane crosses has a record in the list that
`generateCutData` makes. -/
theorem crossedEdge_record (m_Plane : Plane) (m_Epsilon : ℚ) (vertices : List Vec3d)
    (triangles : List Vec3i) (cutData : List CutData)
    (hmem : ∀ k tri, triangles[k]? = some tri → ∀ j, j < 3 →
      (loneVertex (triSide m_Plane m_Epsilon vertices tri) j →
        edgeEdgeRecord m_Plane k tri (triPos vertices tri) j ∈ cutData) ∧
      (vertexOnPlane (triSide m_Plane m_Epsilon vertices tri) j →
        edgeVertRecord m_Plane k tri (triPos vertices tri) j ∈ cutData))
    (i : Nat) (tri : Vec3i) (hi : triangles[i]? = some tri) (a : Nat) (ha : a < 3)
    (hcross : crossedEdge (triSide m_Plane m_Epsilon vertices tri) a) :
    ∃ c ∈ cutData, c.triId = i := by
  rcases crossedEdge_cases _ (triSide_cases _ _ _ _ 0) (triSide_cases _ _ _ _ 1)
    (triSide_cases _ _ _ _ 2) a ha hcross with ⟨j, hj, hp⟩ | ⟨j, hj, hp⟩
  · exact ⟨_, (hmem i tri hi j hj).1 hp, rfl⟩
  · exact ⟨_, (hmem i tri hi j hj).2 hp, rfl⟩

/-- The plane crosses an edge whichever of the two triangles that share it is looked at. -/
theorem crossedEdge_reverse (m_Plane : Plane) (m_Epsilon : ℚ) (vertices : List Vec3d)
    (tri1 tri2 : Vec3i) (a b u v : Nat) (hedge1 : directedEdge tri1 a = (u, v))
    (hedge2 : directedEdge tri2 b = (v, u))
    (hcross : crossedEdge (triSide m_Plane m_Epsilon vertices tri1) a) :
    crossedEdge (triSide m_Plane m_Epsilon vertices tri2) b := by
  have h1 : tri1.get a = u := congrArg Prod.fst hedge1
  have h2 : tri1.get ((a + 1) % 3) = v := congrArg Prod.snd hedge1
  have h3 : tri2.get b = v := congrArg Prod.fst hedge2
  have h4 : tri2.get ((b + 1) % 3) = u := congrArg Prod.snd hedge2
  obtain ⟨c0, c1⟩ := hcross
  simp only [crossedEdge, triSide, triPos, h1, h2, h3, h4] at c0 c1 ⊢
  constructor
  · rw [c1]
    intro h
    exact c0 (by omega)
  · rw [c1]
    omega

/-- C21: in a consistently oriented mesh whose triangles have valid indices, take two
triangles that share an edge crossed by the plane, the triangle `i` going along it from
`u` to `v` and the triangle `k` from `v` to `u`. Then `generateCutData` and `refinement`
succeed; every entry of `edgeVertMap` stands for one appended vertex; the map has exactly
one entry for the edge in its two directions together, a new vertex `w`; and the
triangles that `refinement` leaves in the slots `i` and `k` both refer to `w`. -/
theorem refinement_shared_edge (m_Plane : Plane) (m_Epsilon : ℚ) (triangles : List Vec3i)
    (vertices : List Vec3d) (cutVerts : List (Nat × Bool))
    (hvalid : ∀ tri ∈ triangles, validTriangle vertices tri)
    (horient : consistentlyOriented triangles) (i k : Nat) (tri1 tri2 : Vec3i)
    (a b u v : Nat) (hi : triangles[i]? = some tri1) (hk : triangles[k]? = some tri2)
    (ha : a < 3) (hb : b < 3) (hedge1 : directedEdge tri1 a = (u, v))
    (hedge2 : directedEdge tri2 b = (v, u))
    (hcross : crossedEdge (triSide m_Plane m_Epsilon vertices tri1) a) :
    ∃ (cutData : List CutData) (st : RefineState),
      generateCutData m_Plane m_Epsilon vertices triangles = .ok cutData ∧
      refineLoop cutData { edgeVertMap := [], triangles := triangles, vertices := vertices,
                           cutVerts := cutVerts } = .ok st ∧
      refinement cutData triangles vertices cutVerts
        = .ok (st.triangles, st.vertices, st.cutVerts) ∧
      st.edgeVertMap.map Prod.snd = List.range' vertices.length st.edgeVertMap.length ∧
      st.vertices.length = vertices.length + st.edgeVertMap.length ∧
      ∃ (w : Nat) (r1 r2 : Vec3i),
        (st.edgeVertMap.filter (fun p => decide (p.1 = (u, v) ∨ p.1 = (v, u)))).map Prod.snd
          = [w] ∧
        vertices.length ≤ w ∧ w < st.vertices.length ∧
        st.triangles[i]? = some r1 ∧ r1.has w ∧ st.triangles[k]? = some r2 ∧ r2.has w := by
  obtain ⟨cutData, hgen, hrecs, hmem, hfilter⟩ := generateCutData_records m_Plane m_Epsilon
    vertices triangles hvalid
  have hnd : (cutData.map CutData.triId).Nodup := by
    apply nodup_map_of_filter_le
    intro c hc
    obtain ⟨tri, htri, _⟩ := hrecs c hc
    exact hfilter c.triId (List.getElem?_eq_some.1 htri).1
  obtain ⟨st, done, hloop, _, hall, hinv⟩ := refineLoop_splitOnce m_Plane m_Epsilon triangles
    vertices horient cutData [] _ (fun c hc => (hrecs c hc).imp fun tri h => ⟨h.1, h.2.1⟩) hnd
    (fun _ _ h => absurd h (List.not_mem_nil _))
    (splitOnce_start m_Plane m_Epsilon triangles vertices cutVerts)
  have hcross2 := crossedEdge_reverse m_Plane m_Epsilon vertices tri1 tri2 a b u v hedge1
    hedge2 hcross
  obtain ⟨c1, hc1, hid1⟩ := crossedEdge_record m_Plane m_Epsilon vertices triangles cutData
    hmem i tri1 hi a ha hcross
  obtain ⟨c2, hc2, hid2⟩ := crossedEdge_record m_Plane m_Epsilon vertices triangles cutData
    hmem k tri2 hk b hb hcross2
  obtain ⟨w1, r1, hw1, hr1, hhas1⟩ := hinv.crossed i tri1 a (hid1 ▸ hall c1 hc1) hi ha hcross
  obtain ⟨w2, r2, hw2, hr2, hhas2⟩ := hinv.crossed k tri2 b (hid2 ▸ hall c2 hc2) hk hb hcross2
  rw [hedge1, Prod.swap_prod_mk] at hw1
  rw [hedge2, Prod.swap_prod_mk] at hw2
  refine ⟨cutData, st, hgen, hloop, ?_, hinv.map.values, hinv.map.count, w1, r1, r2, ?_, ?_⟩
  · simp [refinement, hloop, bind, Except.bind, pure, Except.pure]
  · rcases hw1 with h | h
    · rw [filter_keys_eq _ (u, v) (v, u) w1 hinv.map.keysNodup h (hinv.map.noReverse u v w1 h)]
      rfl
    · have hfil := filter_keys_eq _ (v, u) (u, v) w1 hinv.map.keysNodup h
        (hinv.map.noReverse v u w1 h)
      have hcongr : st.edgeVertMap.filter (fun p => decide (p.1 = (u, v) ∨ p.1 = (v, u)))
          = st.edgeVertMap.filter (fun p => decide (p.1 = (v, u) ∨ p.1 = (u, v))) := by
        apply List.filter_congr
        intro p _
        simp only [or_comm]
      rw [hcongr, hfil]
      rfl
  · have hsame : w2 = w1 := by
      rcases hw1 with h | h <;> rcases hw2 with h2 | h2
      · have := hinv.map.noReverse u v w1 h
        rw [this] at h2
        cases h2
      · rw [h] at h2
        exact (Option.some.inj h2).symm
      · rw [h] at h2
        exact (Option.some.inj h2).symm
      · have := hinv.map.noReverse v u w1 h
        rw [this] at h2
        cases h2
    have hbound : vertices.length ≤ w1 ∧ w1 < st.vertices.length := by
      rcases hw1 with h | h
      · exact mapSound_bound hinv.map _ _ h
      · exact mapSound_bound hinv.map _ _ h
    exact ⟨hbound.1, hbound.2, hr1, hhas1, hr2, hsame ▸ hhas2⟩

/-- The surface of the tetrahedron is consistently oriented. -/
theorem tetraTriangles_oriented : consistentlyOriented tetraTriangles := by
  intro i1 i2 t1 t2 j1 j2 h1 h2 hj1 hj2 he
  have hi1 : i1 < 4 := (List.getElem?_eq_some.1 h1).1
  have hi2 : i2 < 4 := (List.getElem?_eq_some.1 h2).1
  interval_cases i1 <;> interval_cases i2 <;>
    simp only [tetraTriangles, List.getElem?_cons_zero, List.getElem?_cons_succ,
      Option.some.injEq] at h1 h2 <;>
    subst h1 <;> subst h2 <;> interval_cases j1 <;> interval_cases j2 <;>
    simp [directedEdge, Vec3i.get] at he ⊢

theorem refinement_shared_edge_witness :
    ∃ (cutData : List CutData) (st : RefineState),
      generateCutData samplePlane 0 tetraVertices tetraTriangles = .ok cutData ∧
      refineLoop cutData { edgeVertMap := [], triangles := tetraTriangles,
                           vertices := tetraVertices, cutVerts := [] } = .ok st ∧
      refinement cutData tetraTriangles tetraVertices []
        = .ok (st.triangles, st.vertices, st.cutVerts) ∧
      st.edgeVertMap.map Prod.snd = List.range' tetraVertices.length st.edgeVertMap.length ∧
      st.vertices.length = tetraVertices.length + st.edgeVertMap.length ∧
      ∃ (w : Nat) (r1 r2 : Vec3i),
        (st.edgeVertMap.filter (fun p => decide (p.1 = (0, 1) ∨ p.1 = (1, 0)))).map Prod.snd
          = [w] ∧
        tetraVertices.length ≤ w ∧ w < st.vertices.length ∧
        st.triangles[0]? = some r1 ∧ r1.has w ∧ st.triangles[2]? = some r2 ∧ r2.has w :=
  refinement_shared_edge samplePlane 0 tetraTriangles tetraVertices []
    (by simp [tetraTriangles, tetraVertices, validTriangle]) tetraTriangles_oriented 0 2
    { v0 := 0, v1 := 1, v2 := 2 } { v0 := 0, v1 := 3, v2 := 1 } 0 2 0 1 rfl rfl (by decide)
    (by decide) rfl rfl
    (by norm_num [crossedEdge, triSide, triPos, vertexPos, Vec3i.get, tetraVertices,
      samplePlane, pointOnPlaneSide, Vec3d.dot, Vec3d.sub])

/-! ## Orientation of the triangles of `SurfaceMeshCut::refinement` -/

end imstk
